import Mathlib

/-!
Verification of the colour-palette core (color converter, palette generator,
tone generator) against its natural-language specification.

The TypeScript sources are shallowly embedded: JS numbers are modelled as
rationals, `Math.round` as round-half-up (floor (x + 1/2)), `Math.random`
and `crypto.randomUUID` as explicit streams threaded through a generator
state, exceptions as `Except`, and strings as Lean strings manipulated
through their character lists.
-/

namespace ColourPalette

/-! ## JS numeric primitives -/

/-- JS `Math.round`: round half towards positive infinity, i.e. ⌊x + 1/2⌋.
Mathlib's `round` on `ℚ` is exactly this function. -/
def jsRound (q : ℚ) : ℤ := round q

/-- Truncation towards zero, as used by the JS `%` operator. -/
def jsTrunc (q : ℚ) : ℤ := if 0 ≤ q then Int.floor q else Int.ceil q

/-- JS remainder operator `a % b` (sign follows the dividend). -/
def jsMod (a b : ℚ) : ℚ := a - b * (jsTrunc (a / b) : ℚ)

/-- `Math.max(lo, Math.min(hi, q))` clamping pattern. -/
def clampQ (lo hi q : ℚ) : ℚ := max lo (min hi q)

/-! ## Data model (`src/types/index.ts`) -/

structure Rgb where
  r : ℚ
  g : ℚ
  b : ℚ
deriving DecidableEq, Repr

structure Hsl where
  h : ℚ
  s : ℚ
  l : ℚ
deriving DecidableEq, Repr

structure Color where
  id : String
  hex : String
  rgb : Rgb
  hsl : Hsl
  isLocked : Bool
deriving DecidableEq, Repr

structure ColorTone where
  label : String
  lightness : ℚ
  hex : String
deriving DecidableEq, Repr, Inhabited

structure Palette where
  colors : List Color
  name : Option String
  createdAt : ℕ
deriving DecidableEq, Repr

/-! ## Character / string primitives used by the converter

JS `String.prototype.replace('#','')` removes only the first occurrence,
`toUpperCase` upper-cases letters (ASCII modelled here), and
`parseInt(s, 16)` skips whitespace, accepts an optional sign and an
optional `0x`/`0X` prefix, then parses the longest prefix of hex digits,
yielding NaN (modelled as `none`) only when no digit is found. -/

/-- Remove the first occurrence of a character from a list. -/
def removeFirst (c : Char) : List Char → List Char
  | [] => []
  | x :: xs => if x = c then xs else x :: removeFirst c xs

/-- ASCII upper-casing, the fragment of JS `toUpperCase` relevant here. -/
def asciiUpper (c : Char) : Char :=
  if 97 ≤ c.toNat ∧ c.toNat ≤ 122 then Char.ofNat (c.toNat - 32) else c

/-- Value of a hexadecimal digit character (both cases), `none` otherwise. -/
def hexVal (c : Char) : Option ℕ :=
  if 48 ≤ c.toNat ∧ c.toNat ≤ 57 then some (c.toNat - 48)
  else if 65 ≤ c.toNat ∧ c.toNat ≤ 70 then some (c.toNat - 55)
  else if 97 ≤ c.toNat ∧ c.toNat ≤ 102 then some (c.toNat - 87)
  else none

def isHexDigitChar (c : Char) : Bool := (hexVal c).isSome

/-- JS whitespace characters skipped by `parseInt` (ASCII fragment). -/
def isJsSpace (c : Char) : Bool :=
  c.toNat = 32 ∨ c.toNat = 9 ∨ c.toNat = 10 ∨ c.toNat = 11 ∨ c.toNat = 12 ∨ c.toNat = 13

/-- Accumulate the value of a hex-digit prefix. -/
def hexDigitsVal : List Char → ℕ → ℕ
  | [], acc => acc
  | c :: cs, acc =>
    match hexVal c with
    | some v => hexDigitsVal cs (16 * acc + v)
    | none => acc

/-- JS `parseInt(s, 16)`: `none` models NaN. -/
def jsParseIntHex (cs0 : List Char) : Option ℤ :=
  let cs1 := cs0.dropWhile isJsSpace
  let signAndRest : ℤ × List Char :=
    match cs1 with
    | c :: rest => if c = '-' then (-1, rest) else if c = '+' then (1, rest) else (1, cs1)
    | [] => (1, [])
  let sign := signAndRest.1
  let cs2 := signAndRest.2
  let cs3 : List Char :=
    match cs2 with
    | z :: x :: rest => if z = '0' ∧ (x = 'x' ∨ x = 'X') then rest else z :: x :: rest
    | other => other
  let ds := cs3.takeWhile isHexDigitChar
  if ds.isEmpty then none else some (sign * (hexDigitsVal ds 0 : ℤ))

/-! ## Color converter (`src/lib/color-utils.ts`) -/

namespace ColorConverter

/-- `ColorConverter.hslToRgb` (color-utils.ts lines 16-47). -/
def hslToRgb (h0 s0 l0 : ℚ) : Rgb :=
  let h := jsMod (jsMod h0 360 + 360) 360
  let s := clampQ 0 100 s0 / 100
  let l := clampQ 0 100 l0 / 100
  let c := (1 - |2 * l - 1|) * s
  let x := c * (1 - |jsMod (h / 60) 2 - 1|)
  let m := l - c / 2
  let rgb1 : ℚ × ℚ × ℚ :=
    if 0 ≤ h ∧ h < 60 then (c, x, 0)
    else if 60 ≤ h ∧ h < 120 then (x, c, 0)
    else if 120 ≤ h ∧ h < 180 then (0, c, x)
    else if 180 ≤ h ∧ h < 240 then (0, x, c)
    else if 240 ≤ h ∧ h < 300 then (x, 0, c)
    else if 300 ≤ h ∧ h < 360 then (c, 0, x)
    else (0, 0, 0)
  ⟨(jsRound ((rgb1.1 + m) * 255) : ℚ),
   (jsRound ((rgb1.2.1 + m) * 255) : ℚ),
   (jsRound ((rgb1.2.2 + m) * 255) : ℚ)⟩

/-- `ColorConverter.rgbToHsl` (color-utils.ts lines 56-95). -/
def rgbToHsl (r0 g0 b0 : ℚ) : Hsl :=
  let r := clampQ 0 255 r0 / 255
  let g := clampQ 0 255 g0 / 255
  let b := clampQ 0 255 b0 / 255
  let mx := max r (max g b)
  let mn := min r (min g b)
  let diff := mx - mn
  let l := (mx + mn) / 2
  if diff = 0 then
    ⟨0, 0, (jsRound (l * 100) : ℚ)⟩
  else
    let s := if 1 / 2 < l then diff / (2 - mx - mn) else diff / (mx + mn)
    let h :=
      if mx = r then ((g - b) / diff + (if g < b then (6 : ℚ) else 0)) / 6
      else if mx = g then ((b - r) / diff + 2) / 6
      else if mx = b then ((r - g) / diff + 4) / 6
      else 0
    ⟨(jsRound (h * 360) : ℚ), (jsRound (s * 100) : ℚ), (jsRound (l * 100) : ℚ)⟩

/-- Character for one hex digit as produced by JS `Number.toString(16)`
(lower case letters). -/
def hexDigitChar (d : ℕ) : Char :=
  if d < 10 then Char.ofNat (48 + d) else Char.ofNat (87 + d)

/-- JS `n.toString(16)` for `n` in `[0, 255]`: one or two digits. -/
def natToHex16 (n : ℕ) : List Char :=
  if n < 16 then [hexDigitChar n] else [hexDigitChar (n / 16), hexDigitChar (n % 16)]

/-- The inner `toHex` helper of `rgbToHex`: clamp, round, base-16, pad to 2. -/
def toHexPadded (n : ℚ) : List Char :=
  let m := (jsRound (clampQ 0 255 n)).toNat
  let ds := natToHex16 m
  if ds.length = 1 then '0' :: ds else ds

/-- `ColorConverter.rgbToHex` (color-utils.ts lines 104-111). -/
def rgbToHex (r g b : ℚ) : String :=
  String.mk (('#' :: (toHexPadded r ++ toHexPadded g ++ toHexPadded b)).map asciiUpper)

/-- `ColorConverter.hexToRgb` (color-utils.ts lines 118-135).  Mirrors the
source exactly: the first `'#'` anywhere is removed, the string is
upper-cased, the length must be 6, and the three 2-character groups are fed
to `parseInt(·, 16)` whose NaN results (and only those) raise. -/
def hexToRgb (hex : String) : Except String Rgb :=
  let cleanHex := (removeFirst '#' hex.data).map asciiUpper
  if cleanHex.length ≠ 6 then .error "Invalid HEX color format"
  else
    match jsParseIntHex (cleanHex.take 2),
          jsParseIntHex ((cleanHex.drop 2).take 2),
          jsParseIntHex ((cleanHex.drop 4).take 2) with
    | some r, some g, some b => .ok ⟨(r : ℚ), (g : ℚ), (b : ℚ)⟩
    | _, _, _ => .error "Invalid HEX color format"

/-- `ColorConverter.hexToHsl` (color-utils.ts lines 142-145). -/
def hexToHsl (hex : String) : Except String Hsl :=
  (hexToRgb hex).map fun rgb => rgbToHsl rgb.r rgb.g rgb.b

/-- `ColorConverter.hslToHex` (color-utils.ts lines 154-157). -/
def hslToHex (h s l : ℚ) : String :=
  let rgb := hslToRgb h s l
  rgbToHex rgb.r rgb.g rgb.b

/-- `ColorConverter.isValidHex` (color-utils.ts lines 188-191). -/
def isValidHex (hex : String) : Bool :=
  let cleanHex := removeFirst '#' hex.data
  cleanHex.length = 6 && cleanHex.all isHexDigitChar

/-- `ColorConverter.isValidHsl` (color-utils.ts lines 200-206). -/
def isValidHsl (h s l : ℚ) : Bool :=
  decide (0 ≤ h ∧ h ≤ 360 ∧ 0 ≤ s ∧ s ≤ 100 ∧ 0 ≤ l ∧ l ≤ 100)

/-- `ColorConverter.isValidRgb` (color-utils.ts lines 215-221). -/
def isValidRgb (r g b : ℚ) : Bool :=
  decide (0 ≤ r ∧ r ≤ 255 ∧ 0 ≤ g ∧ g ≤ 255 ∧ 0 ≤ b ∧ b ≤ 255)

end ColorConverter

/-! ## Ambient nondeterminism

`Math.random()` draws and `crypto.randomUUID()` ids are modelled as two
universally quantified streams consumed through a shared cursor; `new
Date()` is an ambient timestamp.  Quantifying theorems over all `Rnd`
values quantifies over every possible sequence of draws. -/

structure Rnd where
  draws : ℕ → ℕ
  ids : ℕ → String
  idx : ℕ
  time : ℕ
deriving Inhabited

/-- Advance the stream cursor by one consumed value. -/
def Rnd.next (g : Rnd) : Rnd := ⟨g.draws, g.ids, g.idx + 1, g.time⟩

/-- One `crypto.randomUUID()` call. -/
def freshId (g : Rnd) : String × Rnd := (g.ids g.idx, g.next)

/-- A dummy color for the provably unreachable branch where a generator
feeds `createColorFromHsl` values it has itself drawn inside the valid
ranges (the source would propagate an exception there). -/
def badColor : Color := ⟨"", "", ⟨0, 0, 0⟩, ⟨0, 0, 0⟩, false⟩

namespace ColorConverter

/-- The `Color` record built by `createColorFromHsl` after validation. -/
def mkColorHsl (id : String) (h s l : ℚ) (isLocked : Bool) : Color :=
  let rgb := hslToRgb h s l
  let hex := rgbToHex rgb.r rgb.g rgb.b
  ⟨id, hex, rgb, ⟨h, s, l⟩, isLocked⟩

/-- `ColorConverter.createColorFromHsl` (color-utils.ts lines 231-246). -/
def createColorFromHsl (h s l : ℚ) (isLocked : Bool) (g : Rnd) :
    Except String Color × Rnd :=
  if isValidHsl h s l then
    let p := freshId g
    (.ok (mkColorHsl p.1 h s l isLocked), p.2)
  else (.error "Invalid HSL values", g)

/-- The `Color` record built by `createColorFromRgb` after validation. -/
def mkColorRgb (id : String) (r g b : ℚ) (isLocked : Bool) : Color :=
  let hex := rgbToHex r g b
  let hsl := rgbToHsl r g b
  ⟨id, hex, ⟨r, g, b⟩, hsl, isLocked⟩

/-- `ColorConverter.createColorFromRgb` (color-utils.ts lines 256-271). -/
def createColorFromRgb (r gc b : ℚ) (isLocked : Bool) (g : Rnd) :
    Except String Color × Rnd :=
  if isValidRgb r gc b then
    let p := freshId g
    (.ok (mkColorRgb p.1 r gc b isLocked), p.2)
  else (.error "Invalid RGB values", g)

/-- `ColorConverter.createColorFromHex` (color-utils.ts lines 279-294).
After `isValidHex` passes, `hexToRgb` cannot fail; the dead error path is
mapped to `badColor`. -/
def createColorFromHex (hex : String) (isLocked : Bool) (g : Rnd) :
    Except String Color × Rnd :=
  if isValidHex hex then
    match hexToRgb hex with
    | .ok rgb =>
      let hsl := rgbToHsl rgb.r rgb.g rgb.b
      let p := freshId g
      (.ok ⟨p.1, String.mk (hex.data.map asciiUpper), rgb, hsl, isLocked⟩, p.2)
    | .error _ => (.ok badColor, g)
  else (.error "Invalid HEX color", g)

end ColorConverter

/-! ## Palette generator (`src/lib/palette-generator.ts`) -/

namespace PaletteGenerator

def SATURATION_MIN : ℕ := 60
def SATURATION_MAX : ℕ := 100
def LIGHTNESS_MIN : ℕ := 40
def LIGHTNESS_MAX : ℕ := 70
def MIN_HUE_DIFFERENCE : ℚ := 30
def PALETTE_SIZE : ℕ := 5

/-- `randomInRange(min, max)` = `Math.floor(Math.random()*(max-min+1))+min`:
for a uniform real draw in `[0,1)` the possible outcomes are exactly the
integers in `[min, max]`, which the stream value selects via `%`. -/
def randomInRange (lo hi : ℕ) (g : Rnd) : ℕ × Rnd :=
  (lo + g.draws g.idx % (hi - lo + 1), g.next)

/-- `PaletteGenerator.generateRandomColor` (palette-generator.ts 33-39). -/
def generateRandomColor (g : Rnd) : Color × Rnd :=
  let hp := randomInRange 0 359 g
  let sp := randomInRange SATURATION_MIN SATURATION_MAX hp.2
  let lp := randomInRange LIGHTNESS_MIN LIGHTNESS_MAX sp.2
  match ColorConverter.createColorFromHsl (hp.1 : ℚ) (sp.1 : ℚ) (lp.1 : ℚ) false lp.2 with
  | (.ok c, g') => (c, g')
  | (.error _, g') => (badColor, g')

/-- Circular hue distance `min(|a-b|, 360-|a-b|)`. -/
def hueDist (a b : ℚ) : ℚ := min |a - b| (360 - |a - b|)

/-- `PaletteGenerator.getMinHueDifference` (palette-generator.ts 47-59). -/
def getMinHueDifference (newHue : ℚ) (existingHues : List ℚ) : ℚ :=
  match existingHues.map fun eh => hueDist newHue eh with
  | [] => 360
  | d :: ds => ds.foldl min d

/-- The attempt loop of `generateDistinctColor`, fuelled by the remaining
attempt count; fuel exhaustion is the fallback to `generateRandomColor`. -/
def distinctAttempts (existingHues : List ℚ) : ℕ → Rnd → Color × Rnd
  | 0, g => generateRandomColor g
  | fuel + 1, g =>
    let hp := randomInRange 0 359 g
    if MIN_HUE_DIFFERENCE ≤ getMinHueDifference (hp.1 : ℚ) existingHues then
      let sp := randomInRange SATURATION_MIN SATURATION_MAX hp.2
      let lp := randomInRange LIGHTNESS_MIN LIGHTNESS_MAX sp.2
      match ColorConverter.createColorFromHsl (hp.1 : ℚ) (sp.1 : ℚ) (lp.1 : ℚ) false lp.2 with
      | (.ok c, g') => (c, g')
      | (.error _, g') => (badColor, g')
    else distinctAttempts existingHues fuel hp.2

/-- `PaletteGenerator.generateDistinctColor` (palette-generator.ts 67-84),
`maxAttempts` defaulting to 50. -/
def generateDistinctColor (existingColors : List Color) (maxAttempts : ℕ) (g : Rnd) :
    Color × Rnd :=
  distinctAttempts (existingColors.map fun c => c.hsl.h) maxAttempts g

/-- The fill loop of `generateHarmoniousPalette`: `n` more colors, each
drawn distinct from everything accepted so far. -/
def genColors : ℕ → List Color → Rnd → List Color × Rnd
  | 0, acc, g => (acc, g)
  | n + 1, acc, g =>
    let p := generateDistinctColor acc 50 g
    genColors n (acc ++ [p.1]) p.2

/-- The options record; the harmony-type and range fields of
`PaletteGenerationOptions` are never read by the generator and are
omitted. -/
structure GenOptions where
  preserveLocked : Option Bool
deriving DecidableEq

/-- `PaletteGenerator.generateHarmoniousPalette` (palette-generator.ts
92-115).  `colorsNeeded = PALETTE_SIZE - locked.length` runs a JS `for`
loop that does nothing when the count is negative, matching `ℕ`
subtraction. -/
def generateHarmoniousPalette (existingColors : List Color)
    (options : Option GenOptions) (g : Rnd) : Palette × Rnd :=
  let preserveLocked := (options.bind fun o => o.preserveLocked).getD true
  let lockedColors := if preserveLocked then existingColors.filter fun c => c.isLocked else []
  let colorsNeeded := PALETTE_SIZE - lockedColors.length
  let p := genColors colorsNeeded lockedColors g
  (⟨p.1.take PALETTE_SIZE, none, g.time⟩, p.2)

/-- `PaletteGenerator.generateFreshPalette` (palette-generator.ts 121-123). -/
def generateFreshPalette (g : Rnd) : Palette × Rnd :=
  generateHarmoniousPalette [] (some ⟨some false⟩) g

/-- `PaletteGenerator.regeneratePalette` (palette-generator.ts 130-132). -/
def regeneratePalette (currentPalette : Palette) (g : Rnd) : Palette × Rnd :=
  generateHarmoniousPalette currentPalette.colors (some ⟨some true⟩) g

/-- `PaletteGenerator.toggleColorLock` (palette-generator.ts 185-196). -/
def toggleColorLock (palette : Palette) (colorId : String) : Palette :=
  ⟨palette.colors.map fun c =>
      if c.id = colorId then ⟨c.id, c.hex, c.rgb, c.hsl, !c.isLocked⟩ else c,
   palette.name, palette.createdAt⟩

end PaletteGenerator

/-! ## Tone generator (`src/lib/tone-generator.ts`) -/

namespace ToneGenerator

/-- `ToneGenerator.TONE_STEPS` (tone-generator.ts 15-26). -/
def TONE_STEPS : List ColorTone :=
  [⟨"50", 95, ""⟩, ⟨"100", 90, ""⟩, ⟨"200", 80, ""⟩, ⟨"300", 70, ""⟩,
   ⟨"400", 60, ""⟩, ⟨"500", 50, ""⟩, ⟨"600", 40, ""⟩, ⟨"700", 30, ""⟩,
   ⟨"800", 20, ""⟩, ⟨"900", 10, ""⟩]

/-- `ToneGenerator.generateTones` (tone-generator.ts 34-45); `slice(1, 8)`
keeps the seven steps "100".."700". -/
def generateTones (baseColor : Color) : List ColorTone :=
  let h := baseColor.hsl.h
  let s := baseColor.hsl.s
  let selectedSteps := (TONE_STEPS.drop 1).take 7
  selectedSteps.map fun step =>
    ⟨step.label, step.lightness, ColorConverter.hslToHex h s step.lightness⟩

/-- `ToneGenerator.generateAllTones` (tone-generator.ts 53-61). -/
def generateAllTones (baseColor : Color) : List ColorTone :=
  let h := baseColor.hsl.h
  let s := baseColor.hsl.s
  TONE_STEPS.map fun step =>
    ⟨step.label, step.lightness, ColorConverter.hslToHex h s step.lightness⟩

/-- `ToneGenerator.generateSpecificTone` (tone-generator.ts 70-86); the JS
`label || lightness.toString()` default also replaces an empty label. -/
def generateSpecificTone (baseColor : Color) (lightness : ℚ)
    (label : Option String) : Except String ColorTone :=
  if lightness < 0 ∨ 100 < lightness then .error "Invalid lightness value"
  else
    let h := baseColor.hsl.h
    let s := baseColor.hsl.s
    let lab :=
      match label with
      | some str => if str = "" then toString lightness else str
      | none => toString lightness
    .ok ⟨lab, lightness, ColorConverter.hslToHex h s lightness⟩

/-- The scanning loop of `findClosestTone`: current best and its
difference, replaced only on strictly smaller difference. -/
def closestScan (lightness : ℚ) : List ColorTone → ColorTone → ℚ → ColorTone
  | [], best, _ => best
  | t :: ts, best, bestDiff =>
    if |lightness - t.lightness| < bestDiff then
      closestScan lightness ts t |lightness - t.lightness|
    else closestScan lightness ts best bestDiff

/-- `ToneGenerator.findClosestTone` (tone-generator.ts 93-110). -/
def findClosestTone (lightness : ℚ) : Except String ColorTone :=
  if lightness < 0 ∨ 100 < lightness then .error "Invalid lightness value"
  else
    let t0 := TONE_STEPS.headI
    .ok (closestScan lightness TONE_STEPS t0 |lightness - t0.lightness|)

end ToneGenerator

/-! ## Claim-side definitions

These formalise wording of the specification, to be compared with the
source-derived functions above. -/

/-- Strip one optional leading hash, as the C4 claim words it. -/
def stripLeadingHash : List Char → List Char
  | [] => []
  | c :: rest => if c = '#' then rest else c :: rest

/-- C4's acceptance condition: after stripping an optional leading `'#'`,
exactly six hexadecimal digits remain. -/
def specSixHexAfterLeadingHash (s : String) : Bool :=
  (stripLeadingHash s.data).length = 6 && (stripLeadingHash s.data).all isHexDigitChar

/-- Does the bounded hue search accept a draw within the given fuel?
Replays exactly the draws `distinctAttempts` makes, so it characterises
the executions of `generateDistinctColor` that avoid the unconstrained
fallback. -/
def searchAccepts (hues : List ℚ) : ℕ → Rnd → Bool
  | 0, _ => false
  | fuel + 1, g =>
    let hp := PaletteGenerator.randomInRange 0 359 g
    if PaletteGenerator.MIN_HUE_DIFFERENCE ≤
        PaletteGenerator.getMinHueDifference (hp.1 : ℚ) hues then true
    else searchAccepts hues fuel hp.2

/-- All `n` searches of the fill loop accept within their 50 attempts —
the "no fallback draw occurred" condition of the amended C3. -/
def fillLoopAccepts : ℕ → List Color → Rnd → Bool
  | 0, _, _ => true
  | n + 1, acc, g =>
    searchAccepts (acc.map fun c => c.hsl.h) 50 g &&
      fillLoopAccepts n (acc ++ [(PaletteGenerator.generateDistinctColor acc 50 g).1])
        (PaletteGenerator.generateDistinctColor acc 50 g).2

/-! ## Theorems -/

/-- `Char.ofNat` round-trips on code points below the surrogate range. -/
theorem charOfNat_toNat (n : ℕ) (h : n < 55296) : (Char.ofNat n).toNat = n := by
  have hv : n.isValidChar := Or.inl h
  rw [Char.ofNat, dif_pos hv]
  simp [Char.ofNatAux, Char.toNat, UInt32.toNat, BitVec.toNat_ofNatLt]

/-- A hex digit's value is at most 15 and its code point lies in one of
the three digit ranges. -/
theorem hexVal_some_range {c : Char} {v : ℕ} (h : hexVal c = some v) :
    v ≤ 15 ∧ (48 ≤ c.toNat ∧ c.toNat ≤ 57 ∨ 65 ≤ c.toNat ∧ c.toNat ≤ 70 ∨
      97 ≤ c.toNat ∧ c.toNat ≤ 102) := by
  unfold hexVal at h
  split_ifs at h with h1 h2 h3
  all_goals simp only [Option.some.injEq, reduceCtorEq] at h
  · exact ⟨by omega, Or.inl (by omega)⟩
  · exact ⟨by omega, Or.inr (Or.inl (by omega))⟩
  · exact ⟨by omega, Or.inr (Or.inr (by omega))⟩

/-- ASCII upper-casing preserves hex digit values. -/
theorem hexVal_asciiUpper (c : Char) : hexVal (asciiUpper c) = hexVal c := by
  unfold asciiUpper
  split_ifs with hlow
  · have ht : (Char.ofNat (c.toNat - 32)).toNat = c.toNat - 32 :=
      charOfNat_toNat _ (by omega)
    unfold hexVal
    rw [ht]
    split_ifs <;> simp_all <;> omega
  · rfl

/-- A hex digit is not whitespace, a sign, an `x`/`X` or a hash, and
passes `isHexDigitChar`. -/
theorem hexDigit_not_special {c : Char} {v : ℕ} (h : hexVal c = some v) :
    isJsSpace c = false ∧ c ≠ '-' ∧ c ≠ '+' ∧ c ≠ 'x' ∧ c ≠ 'X' ∧ c ≠ '#' ∧
      isHexDigitChar c = true := by
  obtain ⟨hv, hr⟩ := hexVal_some_range h
  refine ⟨?_, ?_, ?_, ?_, ?_, ?_, by simp [isHexDigitChar, h]⟩
  · simp only [isJsSpace, decide_eq_false_iff_not]
    omega
  · rintro rfl; exact absurd hr (by decide)
  · rintro rfl; exact absurd hr (by decide)
  · rintro rfl; exact absurd hr (by decide)
  · rintro rfl; exact absurd hr (by decide)
  · rintro rfl; exact absurd hr (by decide)

/-- `parseInt(·, 16)` on a two-hex-digit string yields the base-16 value. -/
theorem jsParseIntHex_pair {c1 c2 : Char} {v1 v2 : ℕ}
    (h1 : hexVal c1 = some v1) (h2 : hexVal c2 = some v2) :
    jsParseIntHex [c1, c2] = some ((16 * v1 + v2 : ℕ) : ℤ) := by
  obtain ⟨hs1, hm1, hp1, _, _, _, hd1⟩ := hexDigit_not_special h1
  obtain ⟨hs2, _, _, hx2, hX2, _, hd2⟩ := hexDigit_not_special h2
  simp [jsParseIntHex, hs1, hs2, hm1, hp1, hx2, hX2, hd1, hd2,
    List.dropWhile, List.takeWhile, hexDigitsVal, h1, h2]

/-- Removing a character absent from a list is the identity. -/
theorem removeFirst_not_mem {c : Char} : ∀ {l : List Char}, c ∉ l → removeFirst c l = l := by
  intro l
  induction l with
  | nil => intro _; rfl
  | cons x xs ih =>
    intro h
    unfold removeFirst
    rw [if_neg (by rintro rfl; exact h (List.mem_cons_self _ _)),
      ih fun hm => h (List.mem_cons_of_mem _ hm)]

/-- Removing the leading hash. -/
theorem removeFirst_cons_self (l : List Char) : removeFirst '#' ('#' :: l) = l := by
  unfold removeFirst
  rw [if_pos rfl]

/-- Rounding the clamp of an in-range integer channel is the identity. -/
theorem jsRound_clamp_natCast (n : ℕ) (h : n ≤ 255) :
    jsRound (clampQ 0 255 (n : ℚ)) = (n : ℤ) := by
  unfold jsRound clampQ
  rw [min_eq_right (by exact_mod_cast h), max_eq_right (by positivity)]
  exact round_natCast n

/-- The padded `toHex` helper on an in-range integer channel gives the two
base-16 digits. -/
theorem toHexPadded_natCast (n : ℕ) (h : n ≤ 255) :
    ColorConverter.toHexPadded (n : ℚ) =
      [ColorConverter.hexDigitChar (n / 16), ColorConverter.hexDigitChar (n % 16)] := by
  unfold ColorConverter.toHexPadded ColorConverter.natToHex16
  rw [jsRound_clamp_natCast n h]
  simp only [Int.toNat_natCast]
  by_cases h16 : n < 16
  · rw [if_pos h16]
    have e1 : n / 16 = 0 := by omega
    have e2 : n % 16 = n := by omega
    simp [e1, e2]
    rfl
  · rw [if_neg h16]
    simp

/-- Upper-casing a generated hex digit parses back to its value. -/
theorem hexVal_upper_hexDigitChar (d : ℕ) (h : d ≤ 15) :
    hexVal (asciiUpper (ColorConverter.hexDigitChar d)) = some d := by
  interval_cases d <;> decide

/-- `hexToRgb` inverts `rgbToHex` on integer channels in `[0, 255]`. -/
theorem hexToRgb_rgbToHex_nat (r g b : ℕ) (hr : r ≤ 255) (hg : g ≤ 255) (hb : b ≤ 255) :
    ColorConverter.hexToRgb (ColorConverter.rgbToHex (r : ℚ) (g : ℚ) (b : ℚ)) =
      .ok ⟨(r : ℚ), (g : ℚ), (b : ℚ)⟩ := by
  have hv : ∀ k : ℕ, k ≤ 15 →
      hexVal (asciiUpper (asciiUpper (ColorConverter.hexDigitChar k))) = some k :=
    fun k hk => (hexVal_asciiUpper _).trans (hexVal_upper_hexDigitChar k hk)
  have hhash : asciiUpper '#' = '#' := rfl
  unfold ColorConverter.rgbToHex ColorConverter.hexToRgb
  rw [toHexPadded_natCast r hr, toHexPadded_natCast g hg, toHexPadded_natCast b hb]
  simp only [List.cons_append, List.nil_append, List.map_cons, List.map_nil, hhash]
  rw [removeFirst_cons_self]
  simp only [List.map_cons, List.map_nil, List.length_cons, List.length_nil]
  rw [if_neg (by omega)]
  simp only [List.take, List.drop]
  rw [jsParseIntHex_pair (hv _ (by omega)) (hv _ (by omega)),
    jsParseIntHex_pair (hv _ (by omega)) (hv _ (by omega)),
    jsParseIntHex_pair (hv _ (by omega)) (hv _ (by omega))]
  simp only [Except.ok.injEq, Rgb.mk.injEq]
  refine ⟨?_, ?_, ?_⟩
  · exact_mod_cast show 16 * (r / 16) + r % 16 = r by omega
  · exact_mod_cast show 16 * (g / 16) + g % 16 = g by omega
  · exact_mod_cast show 16 * (b / 16) + b % 16 = b by omega

/-- A list of length six is an explicit six-element list. -/
theorem list_length_six {α : Type} {l : List α} (h : l.length = 6) :
    ∃ a1 a2 a3 a4 a5 a6 : α, l = [a1, a2, a3, a4, a5, a6] := by
  rcases l with _ | ⟨a1, _ | ⟨a2, _ | ⟨a3, _ | ⟨a4, _ | ⟨a5, _ | ⟨a6, _ | ⟨a7, t⟩⟩⟩⟩⟩⟩⟩
  all_goals first
    | exact ⟨a1, a2, a3, a4, a5, a6, rfl⟩
    | (simp only [List.length_cons, List.length_nil] at h; omega)

/-- `hexToRgb` on an optional hash followed by six hex digits: the three
groups parse to their base-16 values. -/
theorem hexToRgb_core (pre : List Char) (a1 a2 a3 a4 a5 a6 : Char)
    (v1 v2 v3 v4 v5 v6 : ℕ)
    (hpre : pre = [] ∨ pre = ['#'])
    (h1 : hexVal a1 = some v1) (h2 : hexVal a2 = some v2)
    (h3 : hexVal a3 = some v3) (h4 : hexVal a4 = some v4)
    (h5 : hexVal a5 = some v5) (h6 : hexVal a6 = some v6) :
    ColorConverter.hexToRgb (String.mk (pre ++ [a1, a2, a3, a4, a5, a6])) =
      .ok ⟨((16 * v1 + v2 : ℕ) : ℚ), ((16 * v3 + v4 : ℕ) : ℚ),
        ((16 * v5 + v6 : ℕ) : ℚ)⟩ := by
  have hstrip : removeFirst '#' (pre ++ [a1, a2, a3, a4, a5, a6]) =
      [a1, a2, a3, a4, a5, a6] := by
    rcases hpre with rfl | rfl
    · rw [List.nil_append]
      refine removeFirst_not_mem fun hm => ?_
      simp only [List.mem_cons, List.not_mem_nil, or_false] at hm
      rcases hm with h | h | h | h | h | h
      · exact (hexDigit_not_special h1).2.2.2.2.2.1 h.symm
      · exact (hexDigit_not_special h2).2.2.2.2.2.1 h.symm
      · exact (hexDigit_not_special h3).2.2.2.2.2.1 h.symm
      · exact (hexDigit_not_special h4).2.2.2.2.2.1 h.symm
      · exact (hexDigit_not_special h5).2.2.2.2.2.1 h.symm
      · exact (hexDigit_not_special h6).2.2.2.2.2.1 h.symm
    · rw [List.cons_append, List.nil_append, removeFirst_cons_self]
  unfold ColorConverter.hexToRgb
  rw [show (String.mk (pre ++ [a1, a2, a3, a4, a5, a6])).data =
    pre ++ [a1, a2, a3, a4, a5, a6] from rfl, hstrip]
  simp only [List.map_cons, List.map_nil, List.length_cons, List.length_nil]
  rw [if_neg (by omega)]
  simp only [List.take, List.drop]
  rw [jsParseIntHex_pair ((hexVal_asciiUpper a1).trans h1) ((hexVal_asciiUpper a2).trans h2),
    jsParseIntHex_pair ((hexVal_asciiUpper a3).trans h3) ((hexVal_asciiUpper a4).trans h4),
    jsParseIntHex_pair ((hexVal_asciiUpper a5).trans h5) ((hexVal_asciiUpper a6).trans h6)]
  simp

/-- The amended C4: when, after stripping one optional leading hash, the
string is exactly six hex digits, `hexToRgb` succeeds and returns the
three 2-digit groups parsed base-16, each in `[0, 255]`.  (The converse —
that every other string raises — is refuted by
`c4_hexToRgb_iff_counterexample`.) -/
theorem c4_hexToRgb_sixhex_parses (s : String)
    (h : specSixHexAfterLeadingHash s = true) :
    ∃ v1 v2 v3 v4 v5 v6 : ℕ,
      hexVal ((stripLeadingHash s.data).getD 0 ' ') = some v1 ∧
      hexVal ((stripLeadingHash s.data).getD 1 ' ') = some v2 ∧
      hexVal ((stripLeadingHash s.data).getD 2 ' ') = some v3 ∧
      hexVal ((stripLeadingHash s.data).getD 3 ' ') = some v4 ∧
      hexVal ((stripLeadingHash s.data).getD 4 ' ') = some v5 ∧
      hexVal ((stripLeadingHash s.data).getD 5 ' ') = some v6 ∧
      16 * v1 + v2 ≤ 255 ∧ 16 * v3 + v4 ≤ 255 ∧ 16 * v5 + v6 ≤ 255 ∧
      ColorConverter.hexToRgb s =
        .ok ⟨((16 * v1 + v2 : ℕ) : ℚ), ((16 * v3 + v4 : ℕ) : ℚ),
          ((16 * v5 + v6 : ℕ) : ℚ)⟩ := by
  obtain ⟨sd⟩ := s
  unfold specSixHexAfterLeadingHash at h
  rw [Bool.and_eq_true] at h
  obtain ⟨hlen, hall⟩ := h
  obtain ⟨a1, a2, a3, a4, a5, a6, hsix⟩ := list_length_six (of_decide_eq_true hlen)
  rw [hsix] at hall
  simp only [List.all_cons, List.all_nil, Bool.and_eq_true, isHexDigitChar,
    Option.isSome_iff_exists] at hall
  obtain ⟨⟨v1, h1⟩, ⟨v2, h2⟩, ⟨v3, h3⟩, ⟨v4, h4⟩, ⟨v5, h5⟩, ⟨v6, h6⟩, _⟩ := hall
  have hdata : sd = [] ∨ ∃ c rest, sd = c :: rest := by
    rcases sd with _ | ⟨c, rest⟩
    · exact Or.inl rfl
    · exact Or.inr ⟨c, rest, rfl⟩
  have hshape : (String.mk sd).data = [] ++ [a1, a2, a3, a4, a5, a6] ∨
      (String.mk sd).data = ['#'] ++ [a1, a2, a3, a4, a5, a6] := by
    rcases hdata with rfl | ⟨c, rest, rfl⟩
    · exact absurd hsix (by simp [stripLeadingHash])
    · by_cases hc : c = '#'
      · subst hc
        rw [show stripLeadingHash ('#' :: rest) = rest from by
          simp [stripLeadingHash]] at hsix
        right
        simp [hsix]
      · rw [show stripLeadingHash (c :: rest) = c :: rest from by
          simp [stripLeadingHash, hc]] at hsix
        left
        simp [hsix]
  refine ⟨v1, v2, v3, v4, v5, v6, ?_, ?_, ?_, ?_, ?_, ?_,
    ?_, ?_, ?_, ?_⟩
  · rw [hsix]; exact h1
  · rw [hsix]; exact h2
  · rw [hsix]; exact h3
  · rw [hsix]; exact h4
  · rw [hsix]; exact h5
  · rw [hsix]; exact h6
  · have := (hexVal_some_range h1).1
    have := (hexVal_some_range h2).1
    omega
  · have := (hexVal_some_range h3).1
    have := (hexVal_some_range h4).1
    omega
  · have := (hexVal_some_range h5).1
    have := (hexVal_some_range h6).1
    omega
  · rcases hshape with hsd | hsd
    · rw [show (String.mk sd) = String.mk ([] ++ [a1, a2, a3, a4, a5, a6]) from
        congrArg String.mk hsd]
      exact hexToRgb_core [] a1 a2 a3 a4 a5 a6 v1 v2 v3 v4 v5 v6 (Or.inl rfl)
        h1 h2 h3 h4 h5 h6
    · rw [show (String.mk sd) = String.mk (['#'] ++ [a1, a2, a3, a4, a5, a6]) from
        congrArg String.mk hsd]
      exact hexToRgb_core ['#'] a1 a2 a3 a4 a5 a6 v1 v2 v3 v4 v5 v6 (Or.inr rfl)
        h1 h2 h3 h4 h5 h6

/-- Witness for the amended C4 at the string "#FF5733". -/
theorem c4_hexToRgb_sixhex_parses_witness :
    ∃ v1 v2 v3 v4 v5 v6 : ℕ,
      hexVal ((stripLeadingHash "#FF5733".data).getD 0 ' ') = some v1 ∧
      hexVal ((stripLeadingHash "#FF5733".data).getD 1 ' ') = some v2 ∧
      hexVal ((stripLeadingHash "#FF5733".data).getD 2 ' ') = some v3 ∧
      hexVal ((stripLeadingHash "#FF5733".data).getD 3 ' ') = some v4 ∧
      hexVal ((stripLeadingHash "#FF5733".data).getD 4 ' ') = some v5 ∧
      hexVal ((stripLeadingHash "#FF5733".data).getD 5 ' ') = some v6 ∧
      16 * v1 + v2 ≤ 255 ∧ 16 * v3 + v4 ≤ 255 ∧ 16 * v5 + v6 ≤ 255 ∧
      ColorConverter.hexToRgb "#FF5733" =
        .ok ⟨((16 * v1 + v2 : ℕ) : ℚ), ((16 * v3 + v4 : ℕ) : ℚ),
          ((16 * v5 + v6 : ℕ) : ℚ)⟩ :=
  c4_hexToRgb_sixhex_parses "#FF5733" (by decide)

/-- Counterexample to C4 as stated: "1234#56" is not an optional hash
followed by six hex digits, yet `hexToRgb` accepts it (the JS
`replace('#','')` removes a hash anywhere, not only a leading one). -/
theorem c4_hexToRgb_iff_counterexample :
    specSixHexAfterLeadingHash "1234#56" = false ∧
    ColorConverter.hexToRgb "1234#56" =
      .ok ⟨((18 : ℤ) : ℚ), ((52 : ℤ) : ℚ), ((86 : ℤ) : ℚ)⟩ := by
  constructor
  · decide
  · rfl

/-- `Math.round` of a rational in `[lo, hi)` lies in `[lo, hi]`. -/
theorem jsRound_mem {q : ℚ} {lo hi : ℤ} (h1 : (lo : ℚ) ≤ q) (h2 : q < (hi : ℚ)) :
    lo ≤ jsRound q ∧ jsRound q ≤ hi := by
  unfold jsRound
  rw [round_eq]
  constructor
  · rw [Int.le_floor]
    push_cast
    linarith
  · have hf : (⌊q + 1 / 2⌋ : ℚ) ≤ q + 1 / 2 := Int.floor_le _
    have : (⌊q + 1 / 2⌋ : ℚ) < (hi : ℚ) + 1 := by linarith
    exact_mod_cast Int.lt_add_one_iff.mp (by exact_mod_cast this)

/-- The hue field of `rgbToHsl` is an integer in `[0, 360]` — note 360,
not 359: the source does not wrap the rounded hue. -/
theorem rgbToHsl_h_range (r0 g0 b0 : ℚ) :
    ∃ k : ℤ, (ColorConverter.rgbToHsl r0 g0 b0).h = (k : ℚ) ∧ 0 ≤ k ∧ k ≤ 360 := by
  simp only [ColorConverter.rgbToHsl]
  set r := clampQ 0 255 r0 / 255 with hrdef
  set g := clampQ 0 255 g0 / 255 with hgdef
  set b := clampQ 0 255 b0 / 255 with hbdef
  set mx := max r (max g b) with hmxdef
  set mn := min r (min g b) with hmndef
  have hrmx : r ≤ mx := le_max_left _ _
  have hgmx : g ≤ mx := le_trans (le_max_left _ _) (le_max_right _ _)
  have hbmx : b ≤ mx := le_trans (le_max_right _ _) (le_max_right _ _)
  have hmnr : mn ≤ r := min_le_left _ _
  have hmng : mn ≤ g := le_trans (min_le_right _ _) (min_le_left _ _)
  have hmnb : mn ≤ b := le_trans (min_le_right _ _) (min_le_right _ _)
  by_cases hd : mx - mn = 0
  · rw [if_pos hd]
    exact ⟨0, rfl, le_refl 0, by norm_num⟩
  · rw [if_neg hd]
    have hdpos : 0 < mx - mn :=
      lt_of_le_of_ne (sub_nonneg.mpr (le_trans hmnr hrmx)) (Ne.symm hd)
    have hub : ∀ x y : ℚ, x ≤ mx → mn ≤ y → (x - y) / (mx - mn) ≤ 1 := by
      intro x y hx hy
      rw [div_le_one hdpos]
      linarith
    have hlb : ∀ x y : ℚ, y ≤ mx → mn ≤ x → -1 ≤ (x - y) / (mx - mn) := by
      intro x y hy hx
      rw [le_div_iff hdpos]
      linarith
    by_cases hr : mx = r
    · rw [if_pos hr]
      by_cases hgb : g < b
      · rw [if_pos hgb]
        refine ⟨_, rfl, jsRound_mem ?_ ?_⟩
        · have := hlb g b hbmx hmng
          push_cast
          linarith
        · have := hub g b hgmx hmnb
          have hneg : (g - b) / (mx - mn) < 0 :=
            div_neg_of_neg_of_pos (by linarith) hdpos
          push_cast
          linarith
      · rw [if_neg hgb]
        refine ⟨_, rfl, jsRound_mem ?_ ?_⟩
        · have := hlb g b hbmx hmng
          have hnonneg : 0 ≤ (g - b) / (mx - mn) :=
            div_nonneg (by linarith [not_lt.mp hgb]) (le_of_lt hdpos)
          push_cast
          linarith
        · have := hub g b hgmx hmnb
          push_cast
          linarith
    · rw [if_neg hr]
      by_cases hg : mx = g
      · rw [if_pos hg]
        refine ⟨_, rfl, jsRound_mem ?_ ?_⟩
        · have := hlb b r hrmx hmnb
          push_cast
          linarith
        · have := hub b r hbmx hmnr
          push_cast
          linarith
      · rw [if_neg hg]
        by_cases hb : mx = b
        · rw [if_pos hb]
          refine ⟨_, rfl, jsRound_mem ?_ ?_⟩
          · have := hlb r g hgmx hmnr
            push_cast
            linarith
          · have := hub r g hrmx hmng
            push_cast
            linarith
        · rw [if_neg hb]
          refine ⟨_, rfl, jsRound_mem ?_ ?_⟩ <;> push_cast <;> norm_num

/-- Valid integer HSL inputs pass `isValidHsl`. -/
theorem isValidHsl_of_bounds {hq sq lq : ℕ} (hh : hq ≤ 360) (hs : sq ≤ 100)
    (hl : lq ≤ 100) :
    ColorConverter.isValidHsl (hq : ℚ) (sq : ℚ) (lq : ℚ) = true := by
  unfold ColorConverter.isValidHsl
  rw [decide_eq_true_eq]
  refine ⟨by positivity, by exact_mod_cast hh, by positivity, by exact_mod_cast hs,
    by positivity, by exact_mod_cast hl⟩

/-- `createColorFromHsl` on valid integer inputs succeeds with the built
record and one consumed id. -/
theorem createColorFromHsl_ok_of_bounds {hq sq lq : ℕ} (hh : hq ≤ 360)
    (hs : sq ≤ 100) (hl : lq ≤ 100) (lock : Bool) (g : Rnd) :
    ColorConverter.createColorFromHsl (hq : ℚ) (sq : ℚ) (lq : ℚ) lock g =
      (.ok (ColorConverter.mkColorHsl (g.ids g.idx) (hq : ℚ) (sq : ℚ) (lq : ℚ) lock),
        g.next) := by
  unfold ColorConverter.createColorFromHsl freshId
  rw [if_pos (isValidHsl_of_bounds hh hs hl)]

/-- C6: the HEX → RGB → HEX round trip is an exact identity on integer
channels in `[0, 255]`. -/
theorem c6_hex_rgb_hex_roundtrip (r g b : ℕ) (hr : r ≤ 255) (hg : g ≤ 255)
    (hb : b ≤ 255) :
    ∃ t : Rgb, ColorConverter.hexToRgb (ColorConverter.rgbToHex (r : ℚ) (g : ℚ) (b : ℚ)) =
        .ok t ∧
      ColorConverter.rgbToHex t.r t.g t.b =
        ColorConverter.rgbToHex (r : ℚ) (g : ℚ) (b : ℚ) :=
  ⟨⟨(r : ℚ), (g : ℚ), (b : ℚ)⟩, hexToRgb_rgbToHex_nat r g b hr hg hb, rfl⟩

/-- Witness for C6 at the RGB triple (255, 87, 51). -/
theorem c6_hex_rgb_hex_roundtrip_witness :
    ∃ t : Rgb, ColorConverter.hexToRgb
        (ColorConverter.rgbToHex ((255 : ℕ) : ℚ) ((87 : ℕ) : ℚ) ((51 : ℕ) : ℚ)) = .ok t ∧
      ColorConverter.rgbToHex t.r t.g t.b =
        ColorConverter.rgbToHex ((255 : ℕ) : ℚ) ((87 : ℕ) : ℚ) ((51 : ℕ) : ℚ) :=
  c6_hex_rgb_hex_roundtrip 255 87 51 (by decide) (by decide) (by decide)

namespace PaletteGenerator

/-- `randomInRange` stays inside its (nonempty) range. -/
theorem randomInRange_mem {lo hi : ℕ} (h : lo ≤ hi) (g : Rnd) :
    lo ≤ (randomInRange lo hi g).1 ∧ (randomInRange lo hi g).1 ≤ hi := by
  unfold randomInRange
  refine ⟨Nat.le_add_right lo _, ?_⟩
  have : g.draws g.idx % (hi - lo + 1) < hi - lo + 1 := Nat.mod_lt _ (by omega)
  simp only
  omega

/-- A freshly drawn random color has an integer hue at most 359. -/
theorem generateRandomColor_h (g : Rnd) :
    ∃ k : ℕ, ((generateRandomColor g).1).hsl.h = (k : ℚ) ∧ k ≤ 359 := by
  simp only [generateRandomColor]
  have eS1 : SATURATION_MIN = 60 := rfl
  have eS2 : SATURATION_MAX = 100 := rfl
  have eL1 : LIGHTNESS_MIN = 40 := rfl
  have eL2 : LIGHTNESS_MAX = 70 := rfl
  obtain ⟨_, hh⟩ := @randomInRange_mem 0 359 (by norm_num) g
  obtain ⟨_, hs⟩ := @randomInRange_mem SATURATION_MIN SATURATION_MAX (by omega)
    (randomInRange 0 359 g).2
  obtain ⟨_, hl⟩ := @randomInRange_mem LIGHTNESS_MIN LIGHTNESS_MAX (by omega)
    (randomInRange SATURATION_MIN SATURATION_MAX (randomInRange 0 359 g).2).2
  rw [createColorFromHsl_ok_of_bounds (by omega) (by omega) (by omega)]
  exact ⟨(randomInRange 0 359 g).1, rfl, hh⟩

/-- Every color the attempt loop can return has an integer hue at most
359. -/
theorem distinctAttempts_h (hues : List ℚ) :
    ∀ (fuel : ℕ) (g : Rnd),
      ∃ k : ℕ, ((distinctAttempts hues fuel g).1).hsl.h = (k : ℚ) ∧ k ≤ 359 := by
  intro fuel
  induction fuel with
  | zero => intro g; exact generateRandomColor_h g
  | succ fuel ih =>
    intro g
    simp only [distinctAttempts]
    by_cases hc : MIN_HUE_DIFFERENCE ≤
        getMinHueDifference (((randomInRange 0 359 g).1 : ℕ) : ℚ) hues
    · rw [if_pos hc]
      have eS1 : SATURATION_MIN = 60 := rfl
      have eS2 : SATURATION_MAX = 100 := rfl
      have eL1 : LIGHTNESS_MIN = 40 := rfl
      have eL2 : LIGHTNESS_MAX = 70 := rfl
      obtain ⟨_, hh⟩ := @randomInRange_mem 0 359 (by norm_num) g
      obtain ⟨_, hs⟩ := @randomInRange_mem SATURATION_MIN SATURATION_MAX (by omega)
        (randomInRange 0 359 g).2
      obtain ⟨_, hl⟩ := @randomInRange_mem LIGHTNESS_MIN LIGHTNESS_MAX (by omega)
        (randomInRange SATURATION_MIN SATURATION_MAX (randomInRange 0 359 g).2).2
      rw [createColorFromHsl_ok_of_bounds (by omega) (by omega) (by omega)]
      exact ⟨(randomInRange 0 359 g).1, rfl, hh⟩
    · rw [if_neg hc]
      exact ih (randomInRange 0 359 g).2

/-- Colors emitted by the fill loop are either accumulator members or
carry an integer hue at most 359. -/
theorem genColors_mem_h :
    ∀ (n : ℕ) (acc : List Color) (g : Rnd),
      ∀ c ∈ (genColors n acc g).1,
        c ∈ acc ∨ ∃ k : ℕ, c.hsl.h = (k : ℚ) ∧ k ≤ 359 := by
  intro n
  induction n with
  | zero => intro acc g c hc; exact Or.inl hc
  | succ n ih =>
    intro acc g c hc
    simp only [genColors] at hc
    rcases ih (acc ++ [(generateDistinctColor acc 50 g).1])
        (generateDistinctColor acc 50 g).2 c hc with hmem | hfresh
    · rcases List.mem_append.mp hmem with hmem' | hone
      · exact Or.inl hmem'
      · rcases List.mem_singleton.mp hone with rfl
        exact Or.inr (distinctAttempts_h _ 50 g)
    · exact Or.inr hfresh

/-- A left fold by `min` is bounded by its seed. -/
theorem foldl_min_le_init (l : List ℚ) : ∀ a : ℚ, l.foldl min a ≤ a := by
  induction l with
  | nil => intro a; exact le_refl a
  | cons x xs ih => intro a; exact le_trans (ih (min a x)) (min_le_left a x)

/-- A left fold by `min` is bounded by every list element. -/
theorem foldl_min_le_mem (b : ℚ) :
    ∀ l : List ℚ, b ∈ l → ∀ a : ℚ, l.foldl min a ≤ b := by
  intro l
  induction l with
  | nil => intro hb; exact absurd hb (List.not_mem_nil b)
  | cons x xs ih =>
    intro hb a
    rcases List.mem_cons.mp hb with rfl | hb'
    · exact le_trans (foldl_min_le_init xs (min a b)) (min_le_right a b)
    · exact ih hb' (min a x)

/-- The reported minimum hue difference lower-bounds the circular distance
to each existing hue. -/
theorem getMinHueDifference_le (x eh : ℚ) (hues : List ℚ) (h : eh ∈ hues) :
    getMinHueDifference x hues ≤ hueDist x eh := by
  unfold getMinHueDifference
  rcases hues with _ | ⟨e, t⟩
  · exact absurd h (List.not_mem_nil eh)
  · simp only [List.map_cons]
    rcases List.mem_cons.mp h with rfl | ht
    · exact foldl_min_le_init _ _
    · exact foldl_min_le_mem _ _ (List.mem_map_of_mem _ ht) _

/-- Circular hue distance is symmetric. -/
theorem hueDist_comm (a b : ℚ) : hueDist a b = hueDist b a := by
  unfold hueDist
  rw [abs_sub_comm]

/-- When the bounded search accepts, the returned color's hue is at
circular distance at least 30 from every existing hue. -/
theorem distinctAttempts_accepts (hues : List ℚ) :
    ∀ (fuel : ℕ) (g : Rnd), searchAccepts hues fuel g = true →
      ∀ eh ∈ hues, 30 ≤ hueDist ((distinctAttempts hues fuel g).1.hsl.h) eh := by
  intro fuel
  induction fuel with
  | zero => intro g hacc; exact absurd hacc (by simp [searchAccepts])
  | succ fuel ih =>
    intro g hacc eh heh
    simp only [searchAccepts] at hacc
    simp only [distinctAttempts]
    by_cases hc : MIN_HUE_DIFFERENCE ≤
        getMinHueDifference (((randomInRange 0 359 g).1 : ℕ) : ℚ) hues
    · rw [if_pos hc]
      have eS1 : SATURATION_MIN = 60 := rfl
      have eS2 : SATURATION_MAX = 100 := rfl
      have eL1 : LIGHTNESS_MIN = 40 := rfl
      have eL2 : LIGHTNESS_MAX = 70 := rfl
      obtain ⟨_, hh⟩ := @randomInRange_mem 0 359 (by norm_num) g
      obtain ⟨_, hs⟩ := @randomInRange_mem SATURATION_MIN SATURATION_MAX (by omega)
        (randomInRange 0 359 g).2
      obtain ⟨_, hl⟩ := @randomInRange_mem LIGHTNESS_MIN LIGHTNESS_MAX (by omega)
        (randomInRange SATURATION_MIN SATURATION_MAX (randomInRange 0 359 g).2).2
      rw [createColorFromHsl_ok_of_bounds (by omega) (by omega) (by omega)]
      calc (30 : ℚ) = MIN_HUE_DIFFERENCE := rfl
        _ ≤ getMinHueDifference (((randomInRange 0 359 g).1 : ℕ) : ℚ) hues := hc
        _ ≤ hueDist (((randomInRange 0 359 g).1 : ℕ) : ℚ) eh :=
          getMinHueDifference_le _ eh hues heh
    · rw [if_neg hc] at hacc
      rw [if_neg hc]
      exact ih (randomInRange 0 359 g).2 hacc eh heh

/-- With an all-zero draw stream every generated color — accepted or
fallback — has hue 0, and the stream stays all-zero. -/
theorem allzero_distinct (hues : List ℚ) :
    ∀ (fuel : ℕ) (g : Rnd), g.draws = (fun _ => 0) →
      (distinctAttempts hues fuel g).1.hsl.h = 0 ∧
      (distinctAttempts hues fuel g).2.draws = (fun _ => 0) := by
  intro fuel
  induction fuel with
  | zero =>
    intro g hg
    simp only [distinctAttempts, generateRandomColor]
    have eS1 : SATURATION_MIN = 60 := rfl
    have eS2 : SATURATION_MAX = 100 := rfl
    have eL1 : LIGHTNESS_MIN = 40 := rfl
    have eL2 : LIGHTNESS_MAX = 70 := rfl
    obtain ⟨_, hh⟩ := @randomInRange_mem 0 359 (by norm_num) g
    obtain ⟨_, hs⟩ := @randomInRange_mem SATURATION_MIN SATURATION_MAX (by omega)
      (randomInRange 0 359 g).2
    obtain ⟨_, hl⟩ := @randomInRange_mem LIGHTNESS_MIN LIGHTNESS_MAX (by omega)
      (randomInRange SATURATION_MIN SATURATION_MAX (randomInRange 0 359 g).2).2
    rw [createColorFromHsl_ok_of_bounds (by omega) (by omega) (by omega)]
    refine ⟨?_, hg⟩
    show (((randomInRange 0 359 g).1 : ℕ) : ℚ) = 0
    simp [randomInRange, hg]
  | succ fuel ih =>
    intro g hg
    simp only [distinctAttempts]
    by_cases hc : MIN_HUE_DIFFERENCE ≤
        getMinHueDifference (((randomInRange 0 359 g).1 : ℕ) : ℚ) hues
    · rw [if_pos hc]
      have eS1 : SATURATION_MIN = 60 := rfl
      have eS2 : SATURATION_MAX = 100 := rfl
      have eL1 : LIGHTNESS_MIN = 40 := rfl
      have eL2 : LIGHTNESS_MAX = 70 := rfl
      obtain ⟨_, hh⟩ := @randomInRange_mem 0 359 (by norm_num) g
      obtain ⟨_, hs⟩ := @randomInRange_mem SATURATION_MIN SATURATION_MAX (by omega)
        (randomInRange 0 359 g).2
      obtain ⟨_, hl⟩ := @randomInRange_mem LIGHTNESS_MIN LIGHTNESS_MAX (by omega)
        (randomInRange SATURATION_MIN SATURATION_MAX (randomInRange 0 359 g).2).2
      rw [createColorFromHsl_ok_of_bounds (by omega) (by omega) (by omega)]
      refine ⟨?_, hg⟩
      show (((randomInRange 0 359 g).1 : ℕ) : ℚ) = 0
      simp [randomInRange, hg]
    · rw [if_neg hc]
      exact ih (randomInRange 0 359 g).2 hg

/-- With an all-zero draw stream every color the fill loop emits has hue
0 (unless it was already in the accumulator). -/
theorem allzero_genColors :
    ∀ (n : ℕ) (acc : List Color) (g : Rnd), g.draws = (fun _ => 0) →
      ∀ c ∈ (genColors n acc g).1, c ∈ acc ∨ c.hsl.h = 0 := by
  intro n
  induction n with
  | zero => intro acc g _ c hc; exact Or.inl hc
  | succ n ih =>
    intro acc g hg c hc
    simp only [genColors] at hc
    obtain ⟨hz, hg'⟩ := allzero_distinct (acc.map fun c => c.hsl.h) 50 g hg
    rcases ih (acc ++ [(generateDistinctColor acc 50 g).1])
        (generateDistinctColor acc 50 g).2 hg' c hc with hmem | hzero
    · rcases List.mem_append.mp hmem with hmem' | hone
      · exact Or.inl hmem'
      · rcases List.mem_singleton.mp hone with rfl
        exact Or.inr hz
    · exact Or.inr hzero

/-- The fill loop preserves pairwise 30-degree separation when every
search accepts within its budget. -/
theorem genColors_pairwise :
    ∀ (n : ℕ) (acc : List Color) (g : Rnd),
      fillLoopAccepts n acc g = true →
      List.Pairwise (fun a b => 30 ≤ hueDist a.hsl.h b.hsl.h) acc →
      List.Pairwise (fun a b => 30 ≤ hueDist a.hsl.h b.hsl.h) (genColors n acc g).1 := by
  intro n
  induction n with
  | zero => intro acc g _ hp; exact hp
  | succ n ih =>
    intro acc g hacc hp
    simp only [fillLoopAccepts, Bool.and_eq_true] at hacc
    obtain ⟨hsearch, hrest⟩ := hacc
    simp only [genColors]
    refine ih _ _ hrest ?_
    rw [List.pairwise_append]
    refine ⟨hp, List.pairwise_singleton _ _, fun a ha b hb => ?_⟩
    rcases List.mem_singleton.mp hb with rfl
    rw [hueDist_comm]
    exact distinctAttempts_accepts _ 50 g hsearch a.hsl.h
      (List.mem_map_of_mem _ ha)

/-- The fill loop appends exactly `n` freshly generated colors. -/
theorem genColors_shape (n : ℕ) :
    ∀ (acc : List Color) (g : Rnd),
      ∃ tl : List Color, (genColors n acc g).1 = acc ++ tl ∧ tl.length = n := by
  induction n with
  | zero => intro acc g; exact ⟨[], by simp [genColors], rfl⟩
  | succ n ih =>
    intro acc g
    obtain ⟨tl, htl, hlen⟩ := ih (acc ++ [(generateDistinctColor acc 50 g).1])
      (generateDistinctColor acc 50 g).2
    refine ⟨(generateDistinctColor acc 50 g).1 :: tl, ?_, by simp [hlen]⟩
    simp [genColors, htl]

/-- Length after the fill loop: the accumulator grew by `n`. -/
theorem genColors_length (n : ℕ) (acc : List Color) (g : Rnd) :
    (genColors n acc g).1.length = acc.length + n := by
  obtain ⟨tl, htl, hlen⟩ := genColors_shape n acc g
  simp [htl, hlen]

/-- Any invocation of the harmonious generator yields exactly 5 colors. -/
theorem generateHarmoniousPalette_length (existingColors : List Color)
    (options : Option GenOptions) (g : Rnd) :
    (generateHarmoniousPalette existingColors options g).1.colors.length = 5 := by
  unfold generateHarmoniousPalette
  simp only [List.length_take, genColors_length, PALETTE_SIZE]
  omega

end PaletteGenerator

/-- C2: every palette produced by `generateHarmoniousPalette` (for any
existing colors, lock flags and options), by `generateFreshPalette`, and by
`regeneratePalette` (on any palette), has exactly 5 colors, over every
possible sequence of random draws. -/
theorem c2_palette_size_always_five :
    (∀ (existingColors : List Color) (options : Option PaletteGenerator.GenOptions) (g : Rnd),
      (PaletteGenerator.generateHarmoniousPalette existingColors options g).1.colors.length = 5) ∧
    (∀ g : Rnd, (PaletteGenerator.generateFreshPalette g).1.colors.length = 5) ∧
    (∀ (p : Palette) (g : Rnd),
      (PaletteGenerator.regeneratePalette p g).1.colors.length = 5) := by
  refine ⟨fun e o g => PaletteGenerator.generateHarmoniousPalette_length e o g, ?_, ?_⟩
  · intro g
    exact PaletteGenerator.generateHarmoniousPalette_length _ _ _
  · intro p g
    exact PaletteGenerator.generateHarmoniousPalette_length _ _ _

/-- C1: regenerating a 5-color palette yields exactly 5 colors, and the
locked input colors — with every field identical — form the initial
prefix of the result in their original relative order (hence each locked
color appears in the result). -/
theorem c1_lock_preservation (p : Palette) (g : Rnd) (h5 : p.colors.length = 5) :
    ((PaletteGenerator.regeneratePalette p g).1.colors.length = 5) ∧
    ((PaletteGenerator.regeneratePalette p g).1.colors.take
        (List.filter (fun c => c.isLocked) p.colors).length =
      List.filter (fun c => c.isLocked) p.colors) ∧
    (∀ c ∈ List.filter (fun c => c.isLocked) p.colors,
      c ∈ (PaletteGenerator.regeneratePalette p g).1.colors) := by
  have hfl : (List.filter (fun c => c.isLocked) p.colors).length ≤ 5 := by
    calc (List.filter (fun c => c.isLocked) p.colors).length
        ≤ p.colors.length := List.length_filter_le _ _
      _ = 5 := h5
  have hpre : (PaletteGenerator.regeneratePalette p g).1.colors.take
      (List.filter (fun c => c.isLocked) p.colors).length =
      List.filter (fun c => c.isLocked) p.colors := by
    unfold PaletteGenerator.regeneratePalette PaletteGenerator.generateHarmoniousPalette
    have hcond : (((some (⟨some true⟩ : PaletteGenerator.GenOptions)).bind
        fun o => o.preserveLocked).getD true) = true := rfl
    simp only [hcond, if_true, PaletteGenerator.PALETTE_SIZE]
    obtain ⟨tl, htl, hlen⟩ := PaletteGenerator.genColors_shape
      (5 - (List.filter (fun c => c.isLocked) p.colors).length)
      (List.filter (fun c => c.isLocked) p.colors) g
    rw [htl, List.take_take, min_eq_left hfl, List.take_left]
  refine ⟨PaletteGenerator.generateHarmoniousPalette_length _ _ _, hpre, fun c hc => ?_⟩
  rw [← hpre] at hc
  exact List.take_subset _ _ hc

/-- Witness for C1: a concrete 5-color palette with one locked color; the
locked color heads the regenerated palette. -/
theorem c1_lock_preservation_witness :
    ((PaletteGenerator.regeneratePalette
        ⟨[⟨"L", "#AA0000", ⟨1, 2, 3⟩, ⟨200, 80, 50⟩, true⟩,
          ⟨"u1", "", ⟨0, 0, 0⟩, ⟨10, 60, 40⟩, false⟩,
          ⟨"u2", "", ⟨0, 0, 0⟩, ⟨20, 60, 40⟩, false⟩,
          ⟨"u3", "", ⟨0, 0, 0⟩, ⟨30, 60, 40⟩, false⟩,
          ⟨"u4", "", ⟨0, 0, 0⟩, ⟨40, 60, 40⟩, false⟩], none, 0⟩
        ⟨fun _ => 0, fun _ => "", 0, 0⟩).1.colors.take 1 =
      [⟨"L", "#AA0000", ⟨1, 2, 3⟩, ⟨200, 80, 50⟩, true⟩]) :=
  (c1_lock_preservation
      ⟨[⟨"L", "#AA0000", ⟨1, 2, 3⟩, ⟨200, 80, 50⟩, true⟩,
        ⟨"u1", "", ⟨0, 0, 0⟩, ⟨10, 60, 40⟩, false⟩,
        ⟨"u2", "", ⟨0, 0, 0⟩, ⟨20, 60, 40⟩, false⟩,
        ⟨"u3", "", ⟨0, 0, 0⟩, ⟨30, 60, 40⟩, false⟩,
        ⟨"u4", "", ⟨0, 0, 0⟩, ⟨40, 60, 40⟩, false⟩], none, 0⟩
      ⟨fun _ => 0, fun _ => "", 0, 0⟩ (by decide)).2.1

/-- The stored HSL triple of a built color is its input triple. -/
theorem mkColorHsl_hsl (id : String) (h s l : ℚ) (lock : Bool) :
    (ColorConverter.mkColorHsl id h s l lock).hsl = ⟨h, s, l⟩ := rfl

/-! ### Rounding and remainder arithmetic for the round-trip analysis -/

/-- `Math.round` differs from its argument by at most a half. -/
theorem jsRound_err (q : ℚ) : |(jsRound q : ℚ) - q| ≤ 1 / 2 := by
  unfold jsRound
  rw [abs_sub_comm]
  exact abs_sub_round q

/-- `Math.round` is monotone. -/
theorem jsRound_mono {p q : ℚ} (h : p ≤ q) : jsRound p ≤ jsRound q := by
  unfold jsRound
  rw [round_eq, round_eq]
  exact Int.floor_le_floor (by linarith)

/-- The difference of two rounds is within one of the true difference. -/
theorem jsRound_diff_err (p q : ℚ) :
    |((jsRound p : ℚ) - (jsRound q : ℚ)) - (p - q)| ≤ 1 := by
  have h1 := jsRound_err p
  have h2 := jsRound_err q
  calc |((jsRound p : ℚ) - (jsRound q : ℚ)) - (p - q)|
      = |((jsRound p : ℚ) - p) + (q - (jsRound q : ℚ))| := by ring_nf
    _ ≤ |(jsRound p : ℚ) - p| + |q - (jsRound q : ℚ)| := abs_add _ _
    _ ≤ 1 / 2 + 1 / 2 := by
        have h2' : |q - (jsRound q : ℚ)| ≤ 1 / 2 := by rwa [abs_sub_comm]
        exact add_le_add h1 h2'
    _ = 1 := by norm_num

/-- The sum of two rounds is within one of the true sum. -/
theorem jsRound_sum_err (p q : ℚ) :
    |((jsRound p : ℚ) + (jsRound q : ℚ)) - (p + q)| ≤ 1 := by
  have h1 := jsRound_err p
  have h2 := jsRound_err q
  calc |((jsRound p : ℚ) + (jsRound q : ℚ)) - (p + q)|
      = |((jsRound p : ℚ) - p) + ((jsRound q : ℚ) - q)| := by ring_nf
    _ ≤ |(jsRound p : ℚ) - p| + |(jsRound q : ℚ) - q| := abs_add _ _
    _ ≤ 1 / 2 + 1 / 2 := add_le_add h1 h2
    _ = 1 := by norm_num

/-- A rational within a half of an integer rounds to it. -/
theorem jsRound_eq_of_close {q : ℚ} {n : ℤ} (h : |q - (n : ℚ)| < 1 / 2) :
    jsRound q = n := by
  unfold jsRound
  rw [round_eq]
  have h1 := abs_lt.mp h
  rw [Int.floor_eq_iff]
  exact ⟨by linarith, by linarith⟩

/-- A rational within three halves of an integer rounds to within one of
it. -/
theorem jsRound_close {q : ℚ} {n : ℤ} (h : |q - (n : ℚ)| < 3 / 2) :
    |jsRound q - n| ≤ 1 := by
  have h1 := jsRound_err q
  have h2 : |(jsRound q : ℚ) - (n : ℚ)| < 2 := by
    calc |(jsRound q : ℚ) - (n : ℚ)|
        = |((jsRound q : ℚ) - q) + (q - (n : ℚ))| := by ring_nf
      _ ≤ |(jsRound q : ℚ) - q| + |q - (n : ℚ)| := abs_add _ _
      _ < 1 / 2 + 3 / 2 := add_lt_add_of_le_of_lt h1 h
      _ = 2 := by norm_num
  have h3 : |jsRound q - n| < (2 : ℤ) := by exact_mod_cast h2
  omega

/-- Rounds of an interval `[lo, hi]` with integer ends stay inside it. -/
theorem jsRound_range {q : ℚ} {lo hi : ℤ} (h1 : (lo : ℚ) ≤ q) (h2 : q ≤ (hi : ℚ)) :
    lo ≤ jsRound q ∧ jsRound q ≤ hi := by
  constructor
  · have := jsRound_mono h1
    rwa [show jsRound (lo : ℚ) = lo from by
      unfold jsRound; exact round_intCast lo] at this
  · have := jsRound_mono h2
    rwa [show jsRound (hi : ℚ) = hi from by
      unfold jsRound; exact round_intCast hi] at this

/-- Truncation of a rational in `[k, k+1)` is `k`, for nonnegative `k`. -/
theorem jsTrunc_eq {q : ℚ} {k : ℤ} (hk : 0 ≤ k) (h1 : (k : ℚ) ≤ q)
    (h2 : q < (k : ℚ) + 1) : jsTrunc q = k := by
  unfold jsTrunc
  rw [if_pos (le_trans (by exact_mod_cast hk) h1)]
  rw [Int.floor_eq_iff]
  exact ⟨h1, h2⟩

/-- The double-`mod` hue normalisation fixes integer degrees below 360. -/
theorem hueNorm_eq (h : ℕ) (hlt : h < 360) :
    jsMod (jsMod (h : ℚ) 360 + 360) 360 = (h : ℚ) := by
  have hc : ((h : ℚ)) < 360 := by exact_mod_cast hlt
  have h0 : (0 : ℚ) ≤ (h : ℚ) := by positivity
  have e1 : jsMod (h : ℚ) 360 = (h : ℚ) := by
    unfold jsMod
    rw [show jsTrunc ((h : ℚ) / 360) = 0 from
      jsTrunc_eq (le_refl 0) (by positivity) (by push_cast; linarith)]
    ring
  rw [e1]
  unfold jsMod
  rw [show jsTrunc (((h : ℚ) + 360) / 360) = 1 from
    jsTrunc_eq (by norm_num) (by push_cast; rw [le_div_iff (by norm_num)]; linarith)
      (by rw [div_lt_iff (by norm_num)]; push_cast; linarith)]
  ring

/-- The hue normalisation sends 360 to 0. -/
theorem hueNorm_360 : jsMod (jsMod (360 : ℚ) 360 + 360) 360 = 0 := by
  have e1 : jsMod (360 : ℚ) 360 = 0 := by
    unfold jsMod
    rw [show jsTrunc ((360 : ℚ) / 360) = 1 from
      jsTrunc_eq (by norm_num) (by norm_num) (by norm_num)]
    ring
  rw [e1]
  unfold jsMod
  rw [show jsTrunc (((0 : ℚ) + 360) / 360) = 1 from
    jsTrunc_eq (by norm_num) (by norm_num) (by norm_num)]
  ring

/-- `(h/60) % 2` on `[120k, 120k+120)` subtracts `2k`. -/
theorem jsMod_div60 (h : ℕ) (k : ℤ) (hk : 0 ≤ k)
    (h1 : (120 * k : ℚ) ≤ (h : ℚ)) (h2 : ((h : ℚ)) < 120 * k + 120) :
    jsMod ((h : ℚ) / 60) 2 = (h : ℚ) / 60 - 2 * k := by
  unfold jsMod
  rw [show jsTrunc ((h : ℚ) / 60 / 2) = k from
    jsTrunc_eq hk (by rw [div_div, le_div_iff (by norm_num)]; linarith)
      (by rw [div_div, div_lt_iff (by norm_num)]; linarith)]

/-- Clamping a value already inside the bounds is the identity. -/
theorem clampQ_of_mem {lo hi q : ℚ} (h1 : lo ≤ q) (h2 : q ≤ hi) :
    clampQ lo hi q = q := by
  unfold clampQ
  rw [min_eq_right h2, max_eq_right h1]

/-- Bounds on the chroma/match decomposition for in-range integer
saturation and lightness. -/
theorem chroma_facts (s l : ℕ) (c m : ℚ)
    (hs1 : 60 ≤ s) (hs2 : s ≤ 100) (hl1 : 40 ≤ l) (hl2 : l ≤ 70)
    (hceq : c = (1 - |2 * ((l : ℚ) / 100) - 1|) * ((s : ℚ) / 100))
    (hmeq : m = (l : ℚ) / 100 - c / 2) :
    9 / 25 ≤ c ∧ c ≤ 1 ∧ 0 ≤ m ∧ c + m ≤ 1 ∧
      c + 2 * m = 2 * ((l : ℚ) / 100) := by
  have hLlo : (2 : ℚ) / 5 ≤ (l : ℚ) / 100 := by
    have : (40 : ℚ) ≤ (l : ℚ) := by exact_mod_cast hl1
    linarith
  have hLhi : (l : ℚ) / 100 ≤ 7 / 10 := by
    have : (l : ℚ) ≤ 70 := by exact_mod_cast hl2
    linarith
  have hslo : (3 : ℚ) / 5 ≤ (s : ℚ) / 100 := by
    have : (60 : ℚ) ≤ (s : ℚ) := by exact_mod_cast hs1
    linarith
  have hshi : (s : ℚ) / 100 ≤ 1 := by
    have : (s : ℚ) ≤ 100 := by exact_mod_cast hs2
    linarith
  have habs1 : |2 * ((l : ℚ) / 100) - 1| ≤ 2 / 5 :=
    abs_le.mpr ⟨by linarith, by linarith⟩
  have habs2 : 1 - 2 * ((l : ℚ) / 100) ≤ |2 * ((l : ℚ) / 100) - 1| := by
    have := neg_le_abs (2 * ((l : ℚ) / 100) - 1)
    linarith
  have habs3 : 2 * ((l : ℚ) / 100) - 1 ≤ |2 * ((l : ℚ) / 100) - 1| :=
    le_abs_self _
  have hfac : (3 : ℚ) / 5 ≤ 1 - |2 * ((l : ℚ) / 100) - 1| := by linarith
  refine ⟨?_, ?_, ?_, ?_, by rw [hmeq]; ring⟩
  · calc (9 : ℚ) / 25 = (3 / 5) * (3 / 5) := by norm_num
      _ ≤ (1 - |2 * ((l : ℚ) / 100) - 1|) * ((s : ℚ) / 100) :=
        mul_le_mul hfac hslo (by norm_num) (by linarith)
      _ = c := hceq.symm
  · rw [hceq]
    exact mul_le_one (by linarith [abs_nonneg (2 * ((l : ℚ) / 100) - 1)])
      (by linarith) hshi
  · rw [hmeq, hceq]
    nlinarith
  · rw [hmeq]
    have : c ≤ 2 - 2 * ((l : ℚ) / 100) := by
      rw [hceq]
      nlinarith
    linarith

/-- Accuracy core for the recovered hue: an approximate ratio recovered
from rounded channels rounds to within one degree of the original. -/
theorem hue_core (A D h K : ℤ) (dq a : ℚ)
    (hdq : 2295 / 25 ≤ dq)
    (ha : a = dq * ((h : ℚ) - (K : ℚ)) / 60)
    (hA : |(A : ℚ) - a| ≤ 1)
    (hD : |(D : ℚ) - dq| ≤ 1)
    (hhK : |(h : ℚ) - (K : ℚ)| ≤ 60) :
    |jsRound (60 * (A : ℚ) / (D : ℚ) + (K : ℚ)) - h| ≤ 1 := by
  have hdq0 : (0 : ℚ) < dq := by linarith
  have hDlo : dq - 1 ≤ (D : ℚ) := by have := (abs_le.mp hD).1; linarith
  have hDpos : (0 : ℚ) < (D : ℚ) := by linarith
  have hDne : (D : ℚ) ≠ 0 := ne_of_gt hDpos
  have hdqne : dq ≠ 0 := ne_of_gt hdq0
  have haabs : |a| ≤ dq := by
    have h1 : dq * |(h : ℚ) - (K : ℚ)| ≤ dq * 60 :=
      mul_le_mul_of_nonneg_left hhK (le_of_lt hdq0)
    calc |a| = dq * |(h : ℚ) - (K : ℚ)| / 60 := by
          rw [ha, abs_div, abs_mul, abs_of_pos hdq0]
          norm_num
      _ ≤ dq * 60 / 60 := by linarith
      _ = dq := by ring
  have hhk_eq : (h : ℚ) - (K : ℚ) = 60 * a / dq := by
    rw [ha]
    field_simp
  have heq : 60 * (A : ℚ) / (D : ℚ) + (K : ℚ) - (h : ℚ) =
      60 * (((A : ℚ) - a) * dq + a * (dq - (D : ℚ))) / ((D : ℚ) * dq) := by
    rw [show 60 * (A : ℚ) / (D : ℚ) + (K : ℚ) - (h : ℚ) =
      60 * (A : ℚ) / (D : ℚ) - ((h : ℚ) - (K : ℚ)) from by ring, hhk_eq]
    field_simp
    ring
  have hnum : |((A : ℚ) - a) * dq + a * (dq - (D : ℚ))| ≤ 2 * dq := by
    have hDdq : |dq - (D : ℚ)| ≤ 1 := by rwa [abs_sub_comm] at hD
    calc |((A : ℚ) - a) * dq + a * (dq - (D : ℚ))|
        ≤ |((A : ℚ) - a) * dq| + |a * (dq - (D : ℚ))| := abs_add _ _
      _ = |(A : ℚ) - a| * dq + |a| * |dq - (D : ℚ)| := by
          rw [abs_mul, abs_mul, abs_of_pos hdq0]
      _ ≤ 1 * dq + dq * 1 := by
          exact add_le_add (mul_le_mul_of_nonneg_right hA (le_of_lt hdq0))
            (mul_le_mul haabs hDdq (abs_nonneg _) (by linarith))
      _ = 2 * dq := by ring
  have key : |60 * (A : ℚ) / (D : ℚ) + (K : ℚ) - (h : ℚ)| ≤ 120 / (D : ℚ) := by
    rw [heq, abs_div, abs_mul, abs_of_pos (mul_pos hDpos hdq0)]
    rw [show |(60 : ℚ)| = 60 from by norm_num]
    rw [div_le_div_iff (mul_pos hDpos hdq0) hDpos]
    nlinarith [mul_nonneg (show (0 : ℚ) ≤ 2 * dq - |((A : ℚ) - a) * dq + a * (dq - (D : ℚ))|
      from by linarith) (le_of_lt hDpos)]
  have hfinal : |60 * (A : ℚ) / (D : ℚ) + (K : ℚ) - (h : ℚ)| < 3 / 2 := by
    have hD2270 : (2270 : ℚ) / 25 ≤ (D : ℚ) := by linarith
    have h120 : 120 / (D : ℚ) ≤ 120 / (2270 / 25) :=
      div_le_div_of_nonneg_left (by norm_num) (by norm_num) hD2270
    calc |60 * (A : ℚ) / (D : ℚ) + (K : ℚ) - (h : ℚ)| ≤ 120 / (D : ℚ) := key
      _ ≤ 120 / (2270 / 25) := h120
      _ < 3 / 2 := by norm_num
  exact jsRound_close hfinal

namespace PaletteGenerator

/-- One step of the acceptance predicate: an in-budget first draw that
satisfies the separation check accepts. -/
theorem searchAccepts_accept {hues : List ℚ} {g : Rnd} {n : ℕ}
    (h : MIN_HUE_DIFFERENCE ≤
      getMinHueDifference (((randomInRange 0 359 g).1 : ℕ) : ℚ) hues) :
    searchAccepts hues (n + 1) g = true := by
  simp only [searchAccepts]
  rw [if_pos h]

/-- An accepted first draw makes `generateDistinctColor` return the
explicit color and advance the cursor by four consumed values. -/
theorem generateDistinctColor_accept_eq (acc : List Color) (g : Rnd)
    (h : MIN_HUE_DIFFERENCE ≤ getMinHueDifference
      (((randomInRange 0 359 g).1 : ℕ) : ℚ) (acc.map fun c => c.hsl.h)) :
    generateDistinctColor acc 50 g =
      (ColorConverter.mkColorHsl (g.ids (g.idx + 3))
          (((randomInRange 0 359 g).1 : ℕ) : ℚ)
          ((60 + g.draws (g.idx + 1) % 41 : ℕ) : ℚ)
          ((40 + g.draws (g.idx + 2) % 31 : ℕ) : ℚ) false,
        ⟨g.draws, g.ids, g.idx + 4, g.time⟩) := by
  show distinctAttempts _ (49 + 1) g = _
  simp only [distinctAttempts]
  rw [if_pos h]
  have eS1 : SATURATION_MIN = 60 := rfl
  have eS2 : SATURATION_MAX = 100 := rfl
  have eL1 : LIGHTNESS_MIN = 40 := rfl
  have eL2 : LIGHTNESS_MAX = 70 := rfl
  obtain ⟨_, hh⟩ := @randomInRange_mem 0 359 (by norm_num) g
  obtain ⟨_, hs⟩ := @randomInRange_mem SATURATION_MIN SATURATION_MAX (by omega)
    (randomInRange 0 359 g).2
  obtain ⟨_, hl⟩ := @randomInRange_mem LIGHTNESS_MIN LIGHTNESS_MAX (by omega)
    (randomInRange SATURATION_MIN SATURATION_MAX (randomInRange 0 359 g).2).2
  rw [createColorFromHsl_ok_of_bounds (by omega) (by omega) (by omega)]
  simp only [randomInRange, Rnd.next, eS1, eS2, eL1, eL2]

/-- One step of the five-search acceptance condition. -/
theorem fillLoopAccepts_step {n : ℕ} {acc : List Color} {g : Rnd}
    (h1 : searchAccepts (acc.map fun c => c.hsl.h) 50 g = true)
    (h2 : fillLoopAccepts n (acc ++ [(generateDistinctColor acc 50 g).1])
      (generateDistinctColor acc 50 g).2 = true) :
    fillLoopAccepts (n + 1) acc g = true := by
  simp only [fillLoopAccepts]
  rw [h1, h2]
  rfl

end PaletteGenerator

/-- Accuracy core for the recovered saturation ratio. -/
theorem ratio_err (c G P Q : ℚ) (s : ℕ)
    (hG : 3 / 5 ≤ G)
    (hcG : c ≤ G)
    (hc0 : 0 ≤ c)
    (hs : 100 * c = (s : ℚ) * G)
    (hP : |P - 255 * c| ≤ 1)
    (hQlo : 152 ≤ Q)
    (hQ : |Q - 255 * G| ≤ 1) :
    |100 * P / Q - (s : ℚ)| < 3 / 2 := by
  have hG0 : (0 : ℚ) < G := by linarith
  have hQ0 : (0 : ℚ) < Q := by linarith
  have hsG : (s : ℚ) = 100 * c / G := by
    field_simp
    linarith [hs]
  have heq : 100 * P / Q - (s : ℚ) =
      100 * ((P - 255 * c) * G + c * (255 * G - Q)) / (Q * G) := by
    rw [hsG]
    field_simp
    ring
  have hnum : |(P - 255 * c) * G + c * (255 * G - Q)| ≤ 2 * G := by
    have hQG : |255 * G - Q| ≤ 1 := by rwa [abs_sub_comm] at hQ
    calc |(P - 255 * c) * G + c * (255 * G - Q)|
        ≤ |(P - 255 * c) * G| + |c * (255 * G - Q)| := abs_add _ _
      _ = |P - 255 * c| * G + c * |255 * G - Q| := by
          rw [abs_mul, abs_mul, abs_of_pos hG0, abs_of_nonneg hc0]
      _ ≤ 1 * G + G * 1 := add_le_add
          (mul_le_mul_of_nonneg_right hP (le_of_lt hG0))
          (mul_le_mul hcG hQG (abs_nonneg _) (le_of_lt hG0))
      _ = 2 * G := by ring
  have key : |100 * P / Q - (s : ℚ)| ≤ 200 / Q := by
    rw [heq, abs_div, abs_mul, abs_of_pos (mul_pos hQ0 hG0),
      show |(100 : ℚ)| = 100 from by norm_num,
      div_le_div_iff (mul_pos hQ0 hG0) hQ0]
    nlinarith [mul_nonneg (show (0 : ℚ) ≤ 2 * G -
      |(P - 255 * c) * G + c * (255 * G - Q)| from by linarith) (le_of_lt hQ0)]
  have h200 : 200 / Q ≤ 200 / 152 :=
    div_le_div_of_nonneg_left (by norm_num) (by norm_num) hQlo
  calc |100 * P / Q - (s : ℚ)| ≤ 200 / Q := key
    _ ≤ 200 / 152 := h200
    _ < 3 / 2 := by norm_num

/-- The saturation recovered from the rounded extremal channels is within
two (in fact one) of the original. -/
theorem sat_core (s l : ℕ) (c m : ℚ) (Mx mn : ℤ)
    (hs1 : 60 ≤ s) (hs2 : s ≤ 100) (hl1 : 40 ≤ l) (hl2 : l ≤ 70)
    (hceq : c = (1 - |2 * ((l : ℚ) / 100) - 1|) * ((s : ℚ) / 100))
    (hmeq : m = (l : ℚ) / 100 - c / 2)
    (hMx : Mx = jsRound (255 * (c + m)))
    (hmn : mn = jsRound (255 * m)) :
    |((jsRound ((if 1 / 2 < ((Mx : ℚ) / 255 + (mn : ℚ) / 255) / 2
        then ((Mx : ℚ) / 255 - (mn : ℚ) / 255) / (2 - (Mx : ℚ) / 255 - (mn : ℚ) / 255)
        else ((Mx : ℚ) / 255 - (mn : ℚ) / 255) / ((Mx : ℚ) / 255 + (mn : ℚ) / 255)) * 100) : ℤ) : ℚ)
      - (s : ℚ)| ≤ 2 := by
  obtain ⟨hc1, hc2, hm0, hcm1, hsum⟩ :=
    chroma_facts s l c m hs1 hs2 hl1 hl2 hceq hmeq
  have hLlo : (2 : ℚ) / 5 ≤ (l : ℚ) / 100 := by
    have : (40 : ℚ) ≤ (l : ℚ) := by exact_mod_cast hl1
    linarith
  have hLhi : (l : ℚ) / 100 ≤ 7 / 10 := by
    have : (l : ℚ) ≤ 70 := by exact_mod_cast hl2
    linarith
  have hshi : (s : ℚ) ≤ 100 := by exact_mod_cast hs2
  have hα : |((Mx : ℚ) - (mn : ℚ)) - 255 * c| ≤ 1 := by
    have h0 := jsRound_diff_err (255 * (c + m)) (255 * m)
    rw [← hMx, ← hmn] at h0
    rwa [show 255 * (c + m) - 255 * m = 255 * c from by ring] at h0
  have hβ : |((Mx : ℚ) + (mn : ℚ)) - 510 * ((l : ℚ) / 100)| ≤ 1 := by
    have h0 := jsRound_sum_err (255 * (c + m)) (255 * m)
    rw [← hMx, ← hmn] at h0
    rwa [show 255 * (c + m) + 255 * m = 510 * ((l : ℚ) / 100) from by
      have e : 255 * (c + m) + 255 * m = 255 * (c + 2 * m) := by ring
      rw [e, hsum]; ring] at h0
  have hβ1 := (abs_le.mp hβ).1
  have hβ2 := (abs_le.mp hβ).2
  by_cases hbr : (1 : ℚ) / 2 < ((Mx : ℚ) / 255 + (mn : ℚ) / 255) / 2
  · rw [if_pos hbr]
    have hgt : (255 : ℚ) < (Mx : ℚ) + (mn : ℚ) := by linarith
    have hl50 : 50 ≤ l := by
      by_contra hcon
      push_neg at hcon
      have : (l : ℚ) ≤ 49 := by exact_mod_cast Nat.le_of_lt_succ hcon
      linarith
    have hL12 : (1 : ℚ) / 2 ≤ (l : ℚ) / 100 := by
      have : (50 : ℚ) ≤ (l : ℚ) := by exact_mod_cast hl50
      linarith
    have hcs : 100 * c = (s : ℚ) * (2 - 2 * ((l : ℚ) / 100)) := by
      rw [hceq, abs_of_nonneg (by linarith : (0 : ℚ) ≤ 2 * ((l : ℚ) / 100) - 1)]
      ring
    have hQlo : (152 : ℚ) ≤ 510 - ((Mx : ℚ) + (mn : ℚ)) := by linarith
    have hne : (2 - (Mx : ℚ) / 255 - (mn : ℚ) / 255) ≠ 0 := by
      intro hzero
      have : 510 - ((Mx : ℚ) + (mn : ℚ)) = 0 := by linarith
      linarith
    have hiden : ((Mx : ℚ) / 255 - (mn : ℚ) / 255) /
        (2 - (Mx : ℚ) / 255 - (mn : ℚ) / 255) * 100 =
        100 * ((Mx : ℚ) - (mn : ℚ)) / (510 - ((Mx : ℚ) + (mn : ℚ))) := by
      rw [show (510 : ℚ) - ((Mx : ℚ) + (mn : ℚ)) =
        255 * (2 - (Mx : ℚ) / 255 - (mn : ℚ) / 255) from by ring]
      field_simp
      ring
    rw [hiden]
    have hQeq : |(510 - ((Mx : ℚ) + (mn : ℚ))) -
        255 * (2 - 2 * ((l : ℚ) / 100))| ≤ 1 := by
      rw [show (510 : ℚ) - ((Mx : ℚ) + (mn : ℚ)) -
        255 * (2 - 2 * ((l : ℚ) / 100)) =
        -(((Mx : ℚ) + (mn : ℚ)) - 510 * ((l : ℚ) / 100)) from by ring, abs_neg]
      exact hβ
    have hcG : c ≤ 2 - 2 * ((l : ℚ) / 100) := by
      have h1 : (s : ℚ) * (2 - 2 * ((l : ℚ) / 100)) ≤
          100 * (2 - 2 * ((l : ℚ) / 100)) :=
        mul_le_mul_of_nonneg_right hshi (by linarith)
      linarith [hcs]
    have hclose := ratio_err c (2 - 2 * ((l : ℚ) / 100))
        ((Mx : ℚ) - (mn : ℚ)) (510 - ((Mx : ℚ) + (mn : ℚ))) s
      (by linarith) hcG (by linarith) hcs hα hQlo hQeq
    have hint := jsRound_close (n := (s : ℤ)) (by push_cast; exact hclose)
    have : |((jsRound (100 * ((Mx : ℚ) - (mn : ℚ)) /
        (510 - ((Mx : ℚ) + (mn : ℚ)))) : ℤ) : ℚ) - ((s : ℤ) : ℚ)| ≤ 1 := by
      exact_mod_cast hint
    push_cast at this
    linarith [this]
  · rw [if_neg hbr]
    have hle : (Mx : ℚ) + (mn : ℚ) ≤ 255 := by
      by_contra hcon
      push_neg at hcon
      exact hbr (by linarith)
    have hl50 : l ≤ 50 := by
      by_contra hcon
      push_neg at hcon
      have : (51 : ℚ) ≤ (l : ℚ) := by exact_mod_cast hcon
      linarith
    have hL12 : (l : ℚ) / 100 ≤ 1 / 2 := by
      have : (l : ℚ) ≤ 50 := by exact_mod_cast hl50
      linarith
    have hcs : 100 * c = (s : ℚ) * (2 * ((l : ℚ) / 100)) := by
      rw [hceq, abs_of_nonpos (by linarith : 2 * ((l : ℚ) / 100) - 1 ≤ 0)]
      ring
    have hQlo : (152 : ℚ) ≤ (Mx : ℚ) + (mn : ℚ) := by linarith
    have hne : ((Mx : ℚ) / 255 + (mn : ℚ) / 255) ≠ 0 := by
      intro hzero
      have : (Mx : ℚ) + (mn : ℚ) = 0 := by linarith
      linarith
    have hiden : ((Mx : ℚ) / 255 - (mn : ℚ) / 255) /
        ((Mx : ℚ) / 255 + (mn : ℚ) / 255) * 100 =
        100 * ((Mx : ℚ) - (mn : ℚ)) / ((Mx : ℚ) + (mn : ℚ)) := by
      rw [show (Mx : ℚ) + (mn : ℚ) =
        255 * ((Mx : ℚ) / 255 + (mn : ℚ) / 255) from by ring]
      field_simp
      ring
    rw [hiden]
    have hQeq : |((Mx : ℚ) + (mn : ℚ)) - 255 * (2 * ((l : ℚ) / 100))| ≤ 1 := by
      rw [show ((Mx : ℚ) + (mn : ℚ)) - 255 * (2 * ((l : ℚ) / 100)) =
        ((Mx : ℚ) + (mn : ℚ)) - 510 * ((l : ℚ) / 100) from by ring]
      exact hβ
    have hcG : c ≤ 2 * ((l : ℚ) / 100) := by
      have h1 : (s : ℚ) * (2 * ((l : ℚ) / 100)) ≤ 100 * (2 * ((l : ℚ) / 100)) :=
        mul_le_mul_of_nonneg_right hshi (by linarith)
      linarith [hcs]
    have hclose := ratio_err c (2 * ((l : ℚ) / 100))
        ((Mx : ℚ) - (mn : ℚ)) ((Mx : ℚ) + (mn : ℚ)) s
      (by linarith) hcG (by linarith) hcs hα hQlo hQeq
    have hint := jsRound_close (n := (s : ℤ)) (by push_cast; exact hclose)
    have : |((jsRound (100 * ((Mx : ℚ) - (mn : ℚ)) /
        ((Mx : ℚ) + (mn : ℚ)))) : ℚ) - ((s : ℤ) : ℚ)| ≤ 1 := by
      exact_mod_cast hint
    push_cast at this
    linarith [this]

/-- The lightness recovered from the rounded extremal channels equals the
original exactly (so certainly within two). -/
theorem light_core (l : ℕ) (c m : ℚ) (Mx mn : ℤ)
    (hsum : c + 2 * m = 2 * ((l : ℚ) / 100))
    (hMx : Mx = jsRound (255 * (c + m)))
    (hmn : mn = jsRound (255 * m)) :
    |((jsRound (((Mx : ℚ) / 255 + (mn : ℚ) / 255) / 2 * 100) : ℤ) : ℚ) - (l : ℚ)| ≤ 2 := by
  have hβ : |((Mx : ℚ) + (mn : ℚ)) - 510 * ((l : ℚ) / 100)| ≤ 1 := by
    have h0 := jsRound_sum_err (255 * (c + m)) (255 * m)
    rw [← hMx, ← hmn] at h0
    rwa [show 255 * (c + m) + 255 * m = 510 * ((l : ℚ) / 100) from by
      have e : 255 * (c + m) + 255 * m = 255 * (c + 2 * m) := by ring
      rw [e, hsum]; ring] at h0
  have harg : |(((Mx : ℚ) / 255 + (mn : ℚ) / 255) / 2 * 100) - ((l : ℤ) : ℚ)| < 1 / 2 := by
    have e2 : ((Mx : ℚ) / 255 + (mn : ℚ) / 255) / 2 * 100 - ((l : ℤ) : ℚ) =
        (((Mx : ℚ) + (mn : ℚ)) - 510 * ((l : ℚ) / 100)) * (10 / 51) := by
      push_cast
      ring
    rw [e2, abs_mul, show |(10 : ℚ) / 51| = 10 / 51 from by norm_num]
    calc |((Mx : ℚ) + (mn : ℚ)) - 510 * ((l : ℚ) / 100)| * (10 / 51)
        ≤ 1 * (10 / 51) := mul_le_mul_of_nonneg_right hβ (by norm_num)
      _ < 1 / 2 := by norm_num
  rw [jsRound_eq_of_close harg]
  push_cast
  norm_num

/-- `hexToRgb` inverts `rgbToHex` on integer-cast channels in `[0, 255]`. -/
theorem hexToRgb_rgbToHex_int (z1 z2 z3 : ℤ)
    (h10 : 0 ≤ z1) (h11 : z1 ≤ 255) (h20 : 0 ≤ z2) (h21 : z2 ≤ 255)
    (h30 : 0 ≤ z3) (h31 : z3 ≤ 255) :
    ColorConverter.hexToRgb (ColorConverter.rgbToHex (z1 : ℚ) (z2 : ℚ) (z3 : ℚ)) =
      .ok ⟨(z1 : ℚ), (z2 : ℚ), (z3 : ℚ)⟩ := by
  have e1 : ((z1.toNat : ℕ) : ℚ) = (z1 : ℚ) := by exact_mod_cast Int.toNat_of_nonneg h10
  have e2 : ((z2.toNat : ℕ) : ℚ) = (z2 : ℚ) := by exact_mod_cast Int.toNat_of_nonneg h20
  have e3 : ((z3.toNat : ℕ) : ℚ) = (z3 : ℚ) := by exact_mod_cast Int.toNat_of_nonneg h30
  rw [← e1, ← e2, ← e3]
  exact hexToRgb_rgbToHex_nat z1.toNat z2.toNat z3.toNat (by omega) (by omega) (by omega)

/-- The circular hue distance is bounded by the plain absolute difference. -/
theorem hueDist_le_of_abs_le {a b d : ℚ} (h1 : |a - b| ≤ d) :
    PaletteGenerator.hueDist a b ≤ d := by
  unfold PaletteGenerator.hueDist
  exact le_trans (min_le_left _ _) h1

/-- Round-trip accuracy through HEX for hues in `[0, 60]` (red-maximal
sector): the recovered hue is within one degree, saturation and lightness
within two points. -/
theorem zoneA_roundtrip (h s l : ℕ) (hh : h ≤ 60) (hs1 : 60 ≤ s) (hs2 : s ≤ 100)
    (hl1 : 40 ≤ l) (hl2 : l ≤ 70) :
    ∃ out : Hsl,
      ColorConverter.hexToHsl (ColorConverter.rgbToHex
          (ColorConverter.hslToRgb (h : ℚ) (s : ℚ) (l : ℚ)).r
          (ColorConverter.hslToRgb (h : ℚ) (s : ℚ) (l : ℚ)).g
          (ColorConverter.hslToRgb (h : ℚ) (s : ℚ) (l : ℚ)).b) = .ok out ∧
      |out.h - (h : ℚ)| ≤ 1 ∧ |out.s - (s : ℚ)| ≤ 2 ∧ |out.l - (l : ℚ)| ≤ 2 := by
  obtain ⟨cq, hcq⟩ : ∃ q : ℚ, q = (1 - |2 * ((l : ℚ) / 100) - 1|) * ((s : ℚ) / 100) :=
    ⟨_, rfl⟩
  obtain ⟨mq, hmq⟩ : ∃ q : ℚ, q = (l : ℚ) / 100 - cq / 2 := ⟨_, rfl⟩
  obtain ⟨xq, hxq⟩ : ∃ q : ℚ, q = cq * (h : ℚ) / 60 := ⟨_, rfl⟩
  obtain ⟨Mx, hMxd⟩ : ∃ z : ℤ, z = jsRound ((cq + mq) * 255) := ⟨_, rfl⟩
  obtain ⟨Mid, hMidd⟩ : ∃ z : ℤ, z = jsRound ((xq + mq) * 255) := ⟨_, rfl⟩
  obtain ⟨mn, hmnd⟩ : ∃ z : ℤ, z = jsRound ((0 + mq) * 255) := ⟨_, rfl⟩
  obtain ⟨hc1, hc2, hm0, hcm1, hsum⟩ := chroma_facts s l cq mq hs1 hs2 hl1 hl2 hcq hmq
  have hc0 : (0 : ℚ) < cq := by linarith
  have hh0 : (0 : ℚ) ≤ (h : ℚ) := Nat.cast_nonneg h
  have hh60 : (h : ℚ) ≤ 60 := by exact_mod_cast hh
  have hx0 : 0 ≤ xq := by
    rw [hxq]
    exact div_nonneg (mul_nonneg hc0.le hh0) (by norm_num)
  have hxc : xq ≤ cq := by
    rw [hxq, div_le_iff (by norm_num : (0 : ℚ) < 60)]
    nlinarith
  have hMx' : Mx = jsRound (255 * (cq + mq)) := by
    rw [hMxd]; exact congrArg jsRound (by ring)
  have hMid' : Mid = jsRound (255 * (xq + mq)) := by
    rw [hMidd]; exact congrArg jsRound (by ring)
  have hmn' : mn = jsRound (255 * mq) := by
    rw [hmnd]; exact congrArg jsRound (by ring)
  obtain ⟨hMx0, hMx255⟩ : (0 : ℤ) ≤ Mx ∧ Mx ≤ 255 := by
    rw [hMx']; exact jsRound_range (by push_cast; linarith) (by push_cast; linarith)
  obtain ⟨hMid0, hMid255⟩ : (0 : ℤ) ≤ Mid ∧ Mid ≤ 255 := by
    rw [hMid']; exact jsRound_range (by push_cast; linarith) (by push_cast; linarith)
  obtain ⟨hmn0, hmn255⟩ : (0 : ℤ) ≤ mn ∧ mn ≤ 255 := by
    rw [hmn']; exact jsRound_range (by push_cast; linarith) (by push_cast; linarith)
  have hmnMid : mn ≤ Mid := by
    rw [hmn', hMid']; exact jsRound_mono (by linarith)
  have hMidMx : Mid ≤ Mx := by
    rw [hMid', hMx']; exact jsRound_mono (by linarith)
  have hα : |((Mx : ℚ) - (mn : ℚ)) - 255 * cq| ≤ 1 := by
    have h0 := jsRound_diff_err (255 * (cq + mq)) (255 * mq)
    rw [← hMx', ← hmn'] at h0
    rwa [show 255 * (cq + mq) - 255 * mq = 255 * cq from by ring] at h0
  have hA : |((Mid : ℚ) - (mn : ℚ)) - 255 * xq| ≤ 1 := by
    have h0 := jsRound_diff_err (255 * (xq + mq)) (255 * mq)
    rw [← hMid', ← hmn'] at h0
    rwa [show 255 * (xq + mq) - 255 * mq = 255 * xq from by ring] at h0
  have hsep : (90 : ℚ) ≤ (Mx : ℚ) - (mn : ℚ) := by
    have h1 := (abs_le.mp hα).1
    linarith
  have hclR : clampQ 0 255 ((Mx : ℚ)) = (Mx : ℚ) :=
    clampQ_of_mem (by exact_mod_cast hMx0) (by exact_mod_cast hMx255)
  have hclG : clampQ 0 255 ((Mid : ℚ)) = (Mid : ℚ) :=
    clampQ_of_mem (by exact_mod_cast hMid0) (by exact_mod_cast hMid255)
  have hclB : clampQ 0 255 ((mn : ℚ)) = (mn : ℚ) :=
    clampQ_of_mem (by exact_mod_cast hmn0) (by exact_mod_cast hmn255)
  have hmidQ : (mn : ℚ) / 255 ≤ (Mid : ℚ) / 255 := by
    have h1 : (mn : ℚ) ≤ (Mid : ℚ) := by exact_mod_cast hmnMid
    linarith
  have hmxQ : (Mid : ℚ) / 255 ≤ (Mx : ℚ) / 255 := by
    have h1 : (Mid : ℚ) ≤ (Mx : ℚ) := by exact_mod_cast hMidMx
    linarith
  have hmaxeq : max ((Mx : ℚ) / 255) (max ((Mid : ℚ) / 255) ((mn : ℚ) / 255)) =
      (Mx : ℚ) / 255 := by
    rw [max_eq_left hmidQ, max_eq_left hmxQ]
  have hmineq : min ((Mx : ℚ) / 255) (min ((Mid : ℚ) / 255) ((mn : ℚ) / 255)) =
      (mn : ℚ) / 255 := by
    rw [min_eq_right hmidQ, min_eq_right (le_trans hmidQ hmxQ)]
  have hdne : ¬ ((Mx : ℚ) / 255 - (mn : ℚ) / 255 = 0) := by
    intro h0
    linarith
  have hcls : clampQ 0 100 ((s : ℚ)) = (s : ℚ) :=
    clampQ_of_mem (Nat.cast_nonneg s) (by exact_mod_cast hs2)
  have hcll : clampQ 0 100 ((l : ℚ)) = (l : ℚ) :=
    clampQ_of_mem (Nat.cast_nonneg l) (by exact_mod_cast hl2.trans (by norm_num))
  have hnorm : jsMod (jsMod ((h : ℚ)) 360 + 360) 360 = (h : ℚ) :=
    hueNorm_eq h (by omega)
  have heval : ColorConverter.hslToRgb (h : ℚ) (s : ℚ) (l : ℚ) =
      ⟨(Mx : ℚ), (Mid : ℚ), (mn : ℚ)⟩ := by
    by_cases h59 : h ≤ 59
    · have hsec : (0 : ℚ) ≤ (h : ℚ) ∧ (h : ℚ) < 60 :=
        ⟨hh0, by exact_mod_cast Nat.lt_succ_of_le h59⟩
      have hjm : jsMod ((h : ℚ) / 60) 2 = (h : ℚ) / 60 := by
        have h0 := jsMod_div60 h 0 le_rfl (by push_cast; linarith)
          (by push_cast; linarith)
        rwa [show (2 : ℚ) * ((0 : ℤ) : ℚ) = 0 from by norm_num, sub_zero] at h0
      have habs : |jsMod ((h : ℚ) / 60) 2 - 1| = 1 - (h : ℚ) / 60 := by
        rw [hjm, abs_of_nonpos (by linarith : (h : ℚ) / 60 - 1 ≤ 0)]
        ring
      simp only [ColorConverter.hslToRgb, hcls, hcll, hnorm, habs]
      rw [if_pos hsec]
      simp only [Rgb.mk.injEq]
      rw [← hcq, ← hmq]
      refine ⟨?_, ?_, ?_⟩
      · rw [hMxd]
      · rw [hMidd, hxq]
        exact congrArg (fun z : ℤ => (z : ℚ)) (congrArg jsRound (by push_cast; ring))
      · rw [hmnd]
    · have h60 : h = 60 := by omega
      subst h60
      have hn0 : ¬ ((0 : ℚ) ≤ ((60 : ℕ) : ℚ) ∧ ((60 : ℕ) : ℚ) < 60) := by
        push_cast
        norm_num
      have hsec : (60 : ℚ) ≤ ((60 : ℕ) : ℚ) ∧ ((60 : ℕ) : ℚ) < 120 := by
        constructor <;> norm_num
      have hjm : jsMod (((60 : ℕ) : ℚ) / 60) 2 = ((60 : ℕ) : ℚ) / 60 := by
        have h0 := jsMod_div60 60 0 le_rfl (by push_cast; norm_num)
          (by push_cast; norm_num)
        rwa [show (2 : ℚ) * ((0 : ℤ) : ℚ) = 0 from by norm_num, sub_zero] at h0
      have habs : |jsMod (((60 : ℕ) : ℚ) / 60) 2 - 1| = 0 := by
        rw [hjm]
        push_cast
        norm_num
      simp only [ColorConverter.hslToRgb, hcls, hcll, hnorm, habs]
      rw [if_neg hn0, if_pos hsec]
      simp only [Rgb.mk.injEq]
      rw [← hcq, ← hmq]
      refine ⟨?_, ?_, ?_⟩
      · rw [hMxd]
        exact congrArg (fun z : ℤ => (z : ℚ)) (congrArg jsRound (by push_cast; ring))
      · rw [hMidd, hxq]
        exact congrArg (fun z : ℤ => (z : ℚ)) (congrArg jsRound (by push_cast; ring))
      · rw [hmnd]
  have hne : ((Mx : ℚ) - (mn : ℚ)) ≠ 0 := by
    intro h0
    rw [h0] at hsep
    norm_num at hsep
  have hcore := hue_core (Mid - mn) (Mx - mn) ((h : ℤ)) 0 (255 * cq) (255 * xq)
    (by linarith)
    (by rw [hxq]; push_cast; ring)
    (by push_cast; exact hA)
    (by push_cast; exact hα)
    (by push_cast; rw [sub_zero, abs_of_nonneg hh0]; exact hh60)
  have hargeq : (((Mid : ℚ) / 255 - (mn : ℚ) / 255) /
      ((Mx : ℚ) / 255 - (mn : ℚ) / 255) + 0) / 6 * 360 =
      60 * (((Mid - mn : ℤ)) : ℚ) / (((Mx - mn : ℤ)) : ℚ) + (((0 : ℤ)) : ℚ) := by
    push_cast
    field_simp
    ring
  have hokRgb := hexToRgb_rgbToHex_int Mx Mid mn hMx0 hMx255 hMid0 hMid255 hmn0 hmn255
  have hok : ColorConverter.hexToHsl
      (ColorConverter.rgbToHex ((Mx : ℚ)) ((Mid : ℚ)) ((mn : ℚ))) =
      .ok (ColorConverter.rgbToHsl ((Mx : ℚ)) ((Mid : ℚ)) ((mn : ℚ))) := by
    unfold ColorConverter.hexToHsl
    rw [hokRgb]
    rfl
  have heval2 : ColorConverter.rgbToHsl ((Mx : ℚ)) ((Mid : ℚ)) ((mn : ℚ)) =
      ⟨(jsRound ((((Mid : ℚ) / 255 - (mn : ℚ) / 255) /
          ((Mx : ℚ) / 255 - (mn : ℚ) / 255) + 0) / 6 * 360) : ℚ),
       (jsRound ((if 1 / 2 < ((Mx : ℚ) / 255 + (mn : ℚ) / 255) / 2
          then ((Mx : ℚ) / 255 - (mn : ℚ) / 255) /
            (2 - (Mx : ℚ) / 255 - (mn : ℚ) / 255)
          else ((Mx : ℚ) / 255 - (mn : ℚ) / 255) /
            ((Mx : ℚ) / 255 + (mn : ℚ) / 255)) * 100) : ℚ),
       (jsRound (((Mx : ℚ) / 255 + (mn : ℚ) / 255) / 2 * 100) : ℚ)⟩ := by
    simp only [ColorConverter.rgbToHsl, hclR, hclG, hclB, hmaxeq, hmineq, if_true]
    rw [if_neg hdne, if_neg (not_lt.mpr hmidQ)]
  refine ⟨ColorConverter.rgbToHsl ((Mx : ℚ)) ((Mid : ℚ)) ((mn : ℚ)),
    by rw [heval]; exact hok, ?_, ?_, ?_⟩
  · rw [heval2]
    dsimp only
    rw [hargeq]
    exact_mod_cast hcore
  · rw [heval2]
    dsimp only
    exact sat_core s l cq mq Mx mn hs1 hs2 hl1 hl2 hcq hmq hMx' hmn'
  · rw [heval2]
    dsimp only
    exact light_core l cq mq Mx mn hsum hMx' hmn'

/-- Round-trip accuracy through HEX for hues in `[61, 119]` (green-maximal
sector, red middle channel). -/
theorem zoneB_roundtrip (h s l : ℕ) (h61 : 61 ≤ h) (h119 : h ≤ 119)
    (hs1 : 60 ≤ s) (hs2 : s ≤ 100) (hl1 : 40 ≤ l) (hl2 : l ≤ 70) :
    ∃ out : Hsl,
      ColorConverter.hexToHsl (ColorConverter.rgbToHex
          (ColorConverter.hslToRgb (h : ℚ) (s : ℚ) (l : ℚ)).r
          (ColorConverter.hslToRgb (h : ℚ) (s : ℚ) (l : ℚ)).g
          (ColorConverter.hslToRgb (h : ℚ) (s : ℚ) (l : ℚ)).b) = .ok out ∧
      |out.h - (h : ℚ)| ≤ 1 ∧ |out.s - (s : ℚ)| ≤ 2 ∧ |out.l - (l : ℚ)| ≤ 2 := by
  obtain ⟨cq, hcq⟩ : ∃ q : ℚ, q = (1 - |2 * ((l : ℚ) / 100) - 1|) * ((s : ℚ) / 100) :=
    ⟨_, rfl⟩
  obtain ⟨mq, hmq⟩ : ∃ q : ℚ, q = (l : ℚ) / 100 - cq / 2 := ⟨_, rfl⟩
  obtain ⟨xq, hxq⟩ : ∃ q : ℚ, q = cq * (120 - (h : ℚ)) / 60 := ⟨_, rfl⟩
  obtain ⟨Mx, hMxd⟩ : ∃ z : ℤ, z = jsRound ((cq + mq) * 255) := ⟨_, rfl⟩
  obtain ⟨Mid, hMidd⟩ : ∃ z : ℤ, z = jsRound ((xq + mq) * 255) := ⟨_, rfl⟩
  obtain ⟨mn, hmnd⟩ : ∃ z : ℤ, z = jsRound ((0 + mq) * 255) := ⟨_, rfl⟩
  obtain ⟨hc1, hc2, hm0, hcm1, hsum⟩ := chroma_facts s l cq mq hs1 hs2 hl1 hl2 hcq hmq
  have hc0 : (0 : ℚ) < cq := by linarith
  have hh61 : (61 : ℚ) ≤ (h : ℚ) := by exact_mod_cast h61
  have hh119 : (h : ℚ) ≤ 119 := by exact_mod_cast h119
  have hx0 : 0 ≤ xq := by
    rw [hxq]
    exact div_nonneg (mul_nonneg hc0.le (by linarith)) (by norm_num)
  have hxc : xq ≤ cq := by
    rw [hxq, div_le_iff (by norm_num : (0 : ℚ) < 60)]
    nlinarith
  have hMx' : Mx = jsRound (255 * (cq + mq)) := by
    rw [hMxd]; exact congrArg jsRound (by ring)
  have hMid' : Mid = jsRound (255 * (xq + mq)) := by
    rw [hMidd]; exact congrArg jsRound (by ring)
  have hmn' : mn = jsRound (255 * mq) := by
    rw [hmnd]; exact congrArg jsRound (by ring)
  obtain ⟨hMx0, hMx255⟩ : (0 : ℤ) ≤ Mx ∧ Mx ≤ 255 := by
    rw [hMx']; exact jsRound_range (by push_cast; linarith) (by push_cast; linarith)
  obtain ⟨hMid0, hMid255⟩ : (0 : ℤ) ≤ Mid ∧ Mid ≤ 255 := by
    rw [hMid']; exact jsRound_range (by push_cast; linarith) (by push_cast; linarith)
  obtain ⟨hmn0, hmn255⟩ : (0 : ℤ) ≤ mn ∧ mn ≤ 255 := by
    rw [hmn']; exact jsRound_range (by push_cast; linarith) (by push_cast; linarith)
  have hmnMid : mn ≤ Mid := by
    rw [hmn', hMid']; exact jsRound_mono (by linarith)
  have hMidMx : Mid ≤ Mx := by
    rw [hMid', hMx']; exact jsRound_mono (by linarith)
  have hα : |((Mx : ℚ) - (mn : ℚ)) - 255 * cq| ≤ 1 := by
    have h0 := jsRound_diff_err (255 * (cq + mq)) (255 * mq)
    rw [← hMx', ← hmn'] at h0
    rwa [show 255 * (cq + mq) - 255 * mq = 255 * cq from by ring] at h0
  have hA0 : |((mn : ℚ) - (Mid : ℚ)) + 255 * xq| ≤ 1 := by
    have h0 := jsRound_diff_err (255 * mq) (255 * (xq + mq))
    rw [← hmn', ← hMid'] at h0
    rwa [show 255 * mq - 255 * (xq + mq) = -(255 * xq) from by ring,
      sub_neg_eq_add] at h0
  have hsep : (90 : ℚ) ≤ (Mx : ℚ) - (mn : ℚ) := by
    have h1 := (abs_le.mp hα).1
    linarith
  have hprod : (9 : ℚ) / 25 * 1 ≤ cq * ((h : ℚ) - 60) :=
    mul_le_mul hc1 (by linarith) (by norm_num) hc0.le
  have hsepB : (153 : ℚ) / 100 ≤ 255 * (cq - xq) := by
    rw [hxq]
    nlinarith [hprod]
  have hMidltMx : (Mid : ℚ) < (Mx : ℚ) := by
    have h0 := jsRound_diff_err (255 * (cq + mq)) (255 * (xq + mq))
    rw [← hMx', ← hMid'] at h0
    rw [show 255 * (cq + mq) - 255 * (xq + mq) = 255 * (cq - xq) from by ring] at h0
    have h1 := (abs_le.mp h0).1
    linarith
  have hclMid : clampQ 0 255 ((Mid : ℚ)) = (Mid : ℚ) :=
    clampQ_of_mem (by exact_mod_cast hMid0) (by exact_mod_cast hMid255)
  have hclMx : clampQ 0 255 ((Mx : ℚ)) = (Mx : ℚ) :=
    clampQ_of_mem (by exact_mod_cast hMx0) (by exact_mod_cast hMx255)
  have hclmn : clampQ 0 255 ((mn : ℚ)) = (mn : ℚ) :=
    clampQ_of_mem (by exact_mod_cast hmn0) (by exact_mod_cast hmn255)
  have hmidQ : (mn : ℚ) / 255 ≤ (Mid : ℚ) / 255 := by
    have h1 : (mn : ℚ) ≤ (Mid : ℚ) := by exact_mod_cast hmnMid
    linarith
  have hmxQ : (Mid : ℚ) / 255 ≤ (Mx : ℚ) / 255 := by
    have h1 : (Mid : ℚ) ≤ (Mx : ℚ) := by exact_mod_cast hMidMx
    linarith
  have hmaxeq : max ((Mid : ℚ) / 255) (max ((Mx : ℚ) / 255) ((mn : ℚ) / 255)) =
      (Mx : ℚ) / 255 := by
    rw [max_eq_left (le_trans hmidQ hmxQ), max_eq_right hmxQ]
  have hmineq : min ((Mid : ℚ) / 255) (min ((Mx : ℚ) / 255) ((mn : ℚ) / 255)) =
      (mn : ℚ) / 255 := by
    rw [min_eq_right (le_trans hmidQ hmxQ), min_eq_right hmidQ]
  have hdne : ¬ ((Mx : ℚ) / 255 - (mn : ℚ) / 255 = 0) := by
    intro h0
    linarith
  have hrneq : ¬ ((Mx : ℚ) / 255 = (Mid : ℚ) / 255) := by
    intro h0
    linarith
  have hcls : clampQ 0 100 ((s : ℚ)) = (s : ℚ) :=
    clampQ_of_mem (Nat.cast_nonneg s) (by exact_mod_cast hs2)
  have hcll : clampQ 0 100 ((l : ℚ)) = (l : ℚ) :=
    clampQ_of_mem (Nat.cast_nonneg l) (by exact_mod_cast hl2.trans (by norm_num))
  have hnorm : jsMod (jsMod ((h : ℚ)) 360 + 360) 360 = (h : ℚ) :=
    hueNorm_eq h (by omega)
  have heval : ColorConverter.hslToRgb (h : ℚ) (s : ℚ) (l : ℚ) =
      ⟨(Mid : ℚ), (Mx : ℚ), (mn : ℚ)⟩ := by
    have hsec0 : ¬ ((0 : ℚ) ≤ (h : ℚ) ∧ (h : ℚ) < 60) := by
      rintro ⟨-, hlt⟩
      linarith
    have hsec1 : (60 : ℚ) ≤ (h : ℚ) ∧ (h : ℚ) < 120 := ⟨by linarith, by linarith⟩
    have hjm : jsMod ((h : ℚ) / 60) 2 = (h : ℚ) / 60 := by
      have h0 := jsMod_div60 h 0 le_rfl (by push_cast; linarith)
        (by push_cast; linarith)
      rwa [show (2 : ℚ) * ((0 : ℤ) : ℚ) = 0 from by norm_num, sub_zero] at h0
    have habs : |jsMod ((h : ℚ) / 60) 2 - 1| = (h : ℚ) / 60 - 1 := by
      rw [hjm, abs_of_nonneg (by linarith : (0 : ℚ) ≤ (h : ℚ) / 60 - 1)]
    simp only [ColorConverter.hslToRgb, hcls, hcll, hnorm, habs]
    rw [if_neg hsec0, if_pos hsec1]
    simp only [Rgb.mk.injEq]
    rw [← hcq, ← hmq]
    refine ⟨?_, ?_, ?_⟩
    · rw [hMidd, hxq]
      exact congrArg (fun z : ℤ => (z : ℚ)) (congrArg jsRound (by push_cast; ring))
    · rw [hMxd]
    · rw [hmnd]
  have hne : ((Mx : ℚ) - (mn : ℚ)) ≠ 0 := by
    intro h0
    rw [h0] at hsep
    norm_num at hsep
  have hcore := hue_core (mn - Mid) (Mx - mn) ((h : ℤ)) 120 (255 * cq)
    (255 * cq * (((h : ℤ) : ℚ) - ((120 : ℤ) : ℚ)) / 60)
    (by linarith)
    rfl
    (by
      have heq : (((mn - Mid : ℤ)) : ℚ) -
          255 * cq * (((h : ℤ) : ℚ) - ((120 : ℤ) : ℚ)) / 60 =
          ((mn : ℚ) - (Mid : ℚ)) + 255 * xq := by
        rw [hxq]
        push_cast
        ring
      rw [heq]
      exact hA0)
    (by push_cast; exact hα)
    (by
      push_cast
      rw [abs_le]
      constructor <;> linarith)
  have hargeq : (((mn : ℚ) / 255 - (Mid : ℚ) / 255) /
      ((Mx : ℚ) / 255 - (mn : ℚ) / 255) + 2) / 6 * 360 =
      60 * (((mn - Mid : ℤ)) : ℚ) / (((Mx - mn : ℤ)) : ℚ) + (((120 : ℤ)) : ℚ) := by
    push_cast
    field_simp
    ring
  have hokRgb := hexToRgb_rgbToHex_int Mid Mx mn hMid0 hMid255 hMx0 hMx255 hmn0 hmn255
  have hok : ColorConverter.hexToHsl
      (ColorConverter.rgbToHex ((Mid : ℚ)) ((Mx : ℚ)) ((mn : ℚ))) =
      .ok (ColorConverter.rgbToHsl ((Mid : ℚ)) ((Mx : ℚ)) ((mn : ℚ))) := by
    unfold ColorConverter.hexToHsl
    rw [hokRgb]
    rfl
  have heval2 : ColorConverter.rgbToHsl ((Mid : ℚ)) ((Mx : ℚ)) ((mn : ℚ)) =
      ⟨(jsRound ((((mn : ℚ) / 255 - (Mid : ℚ) / 255) /
          ((Mx : ℚ) / 255 - (mn : ℚ) / 255) + 2) / 6 * 360) : ℚ),
       (jsRound ((if 1 / 2 < ((Mx : ℚ) / 255 + (mn : ℚ) / 255) / 2
          then ((Mx : ℚ) / 255 - (mn : ℚ) / 255) /
            (2 - (Mx : ℚ) / 255 - (mn : ℚ) / 255)
          else ((Mx : ℚ) / 255 - (mn : ℚ) / 255) /
            ((Mx : ℚ) / 255 + (mn : ℚ) / 255)) * 100) : ℚ),
       (jsRound (((Mx : ℚ) / 255 + (mn : ℚ) / 255) / 2 * 100) : ℚ)⟩ := by
    simp only [ColorConverter.rgbToHsl, hclMid, hclMx, hclmn, hmaxeq, hmineq, if_true]
    rw [if_neg hdne, if_neg hrneq]
  refine ⟨ColorConverter.rgbToHsl ((Mid : ℚ)) ((Mx : ℚ)) ((mn : ℚ)),
    by rw [heval]; exact hok, ?_, ?_, ?_⟩
  · rw [heval2]
    dsimp only
    rw [hargeq]
    exact_mod_cast hcore
  · rw [heval2]
    dsimp only
    exact sat_core s l cq mq Mx mn hs1 hs2 hl1 hl2 hcq hmq hMx' hmn'
  · rw [heval2]
    dsimp only
    exact light_core l cq mq Mx mn hsum hMx' hmn'

/-- Round-trip accuracy through HEX for hues in `[120, 180]` (green-maximal
sector, blue middle channel). -/
theorem zoneC_roundtrip (h s l : ℕ) (h120 : 120 ≤ h) (h180 : h ≤ 180)
    (hs1 : 60 ≤ s) (hs2 : s ≤ 100) (hl1 : 40 ≤ l) (hl2 : l ≤ 70) :
    ∃ out : Hsl,
      ColorConverter.hexToHsl (ColorConverter.rgbToHex
          (ColorConverter.hslToRgb (h : ℚ) (s : ℚ) (l : ℚ)).r
          (ColorConverter.hslToRgb (h : ℚ) (s : ℚ) (l : ℚ)).g
          (ColorConverter.hslToRgb (h : ℚ) (s : ℚ) (l : ℚ)).b) = .ok out ∧
      |out.h - (h : ℚ)| ≤ 1 ∧ |out.s - (s : ℚ)| ≤ 2 ∧ |out.l - (l : ℚ)| ≤ 2 := by
  obtain ⟨cq, hcq⟩ : ∃ q : ℚ, q = (1 - |2 * ((l : ℚ) / 100) - 1|) * ((s : ℚ) / 100) :=
    ⟨_, rfl⟩
  obtain ⟨mq, hmq⟩ : ∃ q : ℚ, q = (l : ℚ) / 100 - cq / 2 := ⟨_, rfl⟩
  obtain ⟨xq, hxq⟩ : ∃ q : ℚ, q = cq * ((h : ℚ) - 120) / 60 := ⟨_, rfl⟩
  obtain ⟨Mx, hMxd⟩ : ∃ z : ℤ, z = jsRound ((cq + mq) * 255) := ⟨_, rfl⟩
  obtain ⟨Mid, hMidd⟩ : ∃ z : ℤ, z = jsRound ((xq + mq) * 255) := ⟨_, rfl⟩
  obtain ⟨mn, hmnd⟩ : ∃ z : ℤ, z = jsRound ((0 + mq) * 255) := ⟨_, rfl⟩
  obtain ⟨hc1, hc2, hm0, hcm1, hsum⟩ := chroma_facts s l cq mq hs1 hs2 hl1 hl2 hcq hmq
  have hc0 : (0 : ℚ) < cq := by linarith
  have hh120 : (120 : ℚ) ≤ (h : ℚ) := by exact_mod_cast h120
  have hh180 : (h : ℚ) ≤ 180 := by exact_mod_cast h180
  have hx0 : 0 ≤ xq := by
    rw [hxq]
    exact div_nonneg (mul_nonneg hc0.le (by linarith)) (by norm_num)
  have hxc : xq ≤ cq := by
    rw [hxq, div_le_iff (by norm_num : (0 : ℚ) < 60)]
    nlinarith
  have hMx' : Mx = jsRound (255 * (cq + mq)) := by
    rw [hMxd]; exact congrArg jsRound (by ring)
  have hMid' : Mid = jsRound (255 * (xq + mq)) := by
    rw [hMidd]; exact congrArg jsRound (by ring)
  have hmn' : mn = jsRound (255 * mq) := by
    rw [hmnd]; exact congrArg jsRound (by ring)
  obtain ⟨hMx0, hMx255⟩ : (0 : ℤ) ≤ Mx ∧ Mx ≤ 255 := by
    rw [hMx']; exact jsRound_range (by push_cast; linarith) (by push_cast; linarith)
  obtain ⟨hMid0, hMid255⟩ : (0 : ℤ) ≤ Mid ∧ Mid ≤ 255 := by
    rw [hMid']; exact jsRound_range (by push_cast; linarith) (by push_cast; linarith)
  obtain ⟨hmn0, hmn255⟩ : (0 : ℤ) ≤ mn ∧ mn ≤ 255 := by
    rw [hmn']; exact jsRound_range (by push_cast; linarith) (by push_cast; linarith)
  have hmnMid : mn ≤ Mid := by
    rw [hmn', hMid']; exact jsRound_mono (by linarith)
  have hMidMx : Mid ≤ Mx := by
    rw [hMid', hMx']; exact jsRound_mono (by linarith)
  have hα : |((Mx : ℚ) - (mn : ℚ)) - 255 * cq| ≤ 1 := by
    have h0 := jsRound_diff_err (255 * (cq + mq)) (255 * mq)
    rw [← hMx', ← hmn'] at h0
    rwa [show 255 * (cq + mq) - 255 * mq = 255 * cq from by ring] at h0
  have hA : |((Mid : ℚ) - (mn : ℚ)) - 255 * xq| ≤ 1 := by
    have h0 := jsRound_diff_err (255 * (xq + mq)) (255 * mq)
    rw [← hMid', ← hmn'] at h0
    rwa [show 255 * (xq + mq) - 255 * mq = 255 * xq from by ring] at h0
  have hsep : (90 : ℚ) ≤ (Mx : ℚ) - (mn : ℚ) := by
    have h1 := (abs_le.mp hα).1
    linarith
  have hclmn : clampQ 0 255 ((mn : ℚ)) = (mn : ℚ) :=
    clampQ_of_mem (by exact_mod_cast hmn0) (by exact_mod_cast hmn255)
  have hclMx : clampQ 0 255 ((Mx : ℚ)) = (Mx : ℚ) :=
    clampQ_of_mem (by exact_mod_cast hMx0) (by exact_mod_cast hMx255)
  have hclMid : clampQ 0 255 ((Mid : ℚ)) = (Mid : ℚ) :=
    clampQ_of_mem (by exact_mod_cast hMid0) (by exact_mod_cast hMid255)
  have hmidQ : (mn : ℚ) / 255 ≤ (Mid : ℚ) / 255 := by
    have h1 : (mn : ℚ) ≤ (Mid : ℚ) := by exact_mod_cast hmnMid
    linarith
  have hmxQ : (Mid : ℚ) / 255 ≤ (Mx : ℚ) / 255 := by
    have h1 : (Mid : ℚ) ≤ (Mx : ℚ) := by exact_mod_cast hMidMx
    linarith
  have hmaxeq : max ((mn : ℚ) / 255) (max ((Mx : ℚ) / 255) ((Mid : ℚ) / 255)) =
      (Mx : ℚ) / 255 := by
    rw [max_eq_left hmxQ, max_eq_right (le_trans hmidQ hmxQ)]
  have hmineq : min ((mn : ℚ) / 255) (min ((Mx : ℚ) / 255) ((Mid : ℚ) / 255)) =
      (mn : ℚ) / 255 := by
    rw [min_eq_right hmxQ, min_eq_left hmidQ]
  have hdne : ¬ ((Mx : ℚ) / 255 - (mn : ℚ) / 255 = 0) := by
    intro h0
    linarith
  have hrneq : ¬ ((Mx : ℚ) / 255 = (mn : ℚ) / 255) := by
    intro h0
    linarith
  have hcls : clampQ 0 100 ((s : ℚ)) = (s : ℚ) :=
    clampQ_of_mem (Nat.cast_nonneg s) (by exact_mod_cast hs2)
  have hcll : clampQ 0 100 ((l : ℚ)) = (l : ℚ) :=
    clampQ_of_mem (Nat.cast_nonneg l) (by exact_mod_cast hl2.trans (by norm_num))
  have hnorm : jsMod (jsMod ((h : ℚ)) 360 + 360) 360 = (h : ℚ) :=
    hueNorm_eq h (by omega)
  have heval : ColorConverter.hslToRgb (h : ℚ) (s : ℚ) (l : ℚ) =
      ⟨(mn : ℚ), (Mx : ℚ), (Mid : ℚ)⟩ := by
    have hsec0 : ¬ ((0 : ℚ) ≤ (h : ℚ) ∧ (h : ℚ) < 60) := by
      rintro ⟨-, hlt⟩
      linarith
    have hsec1 : ¬ ((60 : ℚ) ≤ (h : ℚ) ∧ (h : ℚ) < 120) := by
      rintro ⟨-, hlt⟩
      linarith
    by_cases h179 : h ≤ 179
    · have hh179 : (h : ℚ) ≤ 179 := by exact_mod_cast h179
      have hsec2 : (120 : ℚ) ≤ (h : ℚ) ∧ (h : ℚ) < 180 := ⟨by linarith, by linarith⟩
      have hjm : jsMod ((h : ℚ) / 60) 2 = (h : ℚ) / 60 - 2 := by
        have h0 := jsMod_div60 h 1 (by norm_num) (by push_cast; linarith)
          (by push_cast; linarith)
        rwa [show (2 : ℚ) * ((1 : ℤ) : ℚ) = 2 from by norm_num] at h0
      have habs : |jsMod ((h : ℚ) / 60) 2 - 1| = 3 - (h : ℚ) / 60 := by
        rw [hjm, show (h : ℚ) / 60 - 2 - 1 = (h : ℚ) / 60 - 3 from by ring,
          abs_of_nonpos (by linarith : (h : ℚ) / 60 - 3 ≤ 0)]
        ring
      simp only [ColorConverter.hslToRgb, hcls, hcll, hnorm, habs]
      rw [if_neg hsec0, if_neg hsec1, if_pos hsec2]
      simp only [Rgb.mk.injEq]
      rw [← hcq, ← hmq]
      refine ⟨?_, ?_, ?_⟩
      · rw [hmnd]
      · rw [hMxd]
      · rw [hMidd, hxq]
        exact congrArg (fun z : ℤ => (z : ℚ)) (congrArg jsRound (by push_cast; ring))
    · have h180e : h = 180 := by omega
      subst h180e
      have hsec2 : ¬ ((120 : ℚ) ≤ ((180 : ℕ) : ℚ) ∧ ((180 : ℕ) : ℚ) < 180) := by
        rintro ⟨-, hlt⟩
        push_cast at hlt
        norm_num at hlt
      have hsec3 : (180 : ℚ) ≤ ((180 : ℕ) : ℚ) ∧ ((180 : ℕ) : ℚ) < 240 := by
        constructor <;> norm_num
      have hjm : jsMod (((180 : ℕ) : ℚ) / 60) 2 = ((180 : ℕ) : ℚ) / 60 - 2 := by
        have h0 := jsMod_div60 180 1 (by norm_num) (by push_cast; norm_num)
          (by push_cast; norm_num)
        rwa [show (2 : ℚ) * ((1 : ℤ) : ℚ) = 2 from by norm_num] at h0
      have habs : |jsMod (((180 : ℕ) : ℚ) / 60) 2 - 1| = 0 := by
        rw [hjm]
        push_cast
        norm_num
      simp only [ColorConverter.hslToRgb, hcls, hcll, hnorm, habs]
      rw [if_neg hsec0, if_neg hsec1, if_neg hsec2, if_pos hsec3]
      simp only [Rgb.mk.injEq]
      rw [← hcq, ← hmq]
      refine ⟨?_, ?_, ?_⟩
      · rw [hmnd]
      · rw [hMxd]
        exact congrArg (fun z : ℤ => (z : ℚ)) (congrArg jsRound (by push_cast; ring))
      · rw [hMidd, hxq]
        exact congrArg (fun z : ℤ => (z : ℚ)) (congrArg jsRound (by push_cast; ring))
  have hne : ((Mx : ℚ) - (mn : ℚ)) ≠ 0 := by
    intro h0
    rw [h0] at hsep
    norm_num at hsep
  have hcore := hue_core (Mid - mn) (Mx - mn) ((h : ℤ)) 120 (255 * cq)
    (255 * cq * (((h : ℤ) : ℚ) - ((120 : ℤ) : ℚ)) / 60)
    (by linarith)
    rfl
    (by
      have heq : (((Mid - mn : ℤ)) : ℚ) -
          255 * cq * (((h : ℤ) : ℚ) - ((120 : ℤ) : ℚ)) / 60 =
          ((Mid : ℚ) - (mn : ℚ)) - 255 * xq := by
        rw [hxq]
        push_cast
        ring
      rw [heq]
      exact hA)
    (by push_cast; exact hα)
    (by
      push_cast
      rw [abs_le]
      constructor <;> linarith)
  have hargeq : (((Mid : ℚ) / 255 - (mn : ℚ) / 255) /
      ((Mx : ℚ) / 255 - (mn : ℚ) / 255) + 2) / 6 * 360 =
      60 * (((Mid - mn : ℤ)) : ℚ) / (((Mx - mn : ℤ)) : ℚ) + (((120 : ℤ)) : ℚ) := by
    push_cast
    field_simp
    ring
  have hokRgb := hexToRgb_rgbToHex_int mn Mx Mid hmn0 hmn255 hMx0 hMx255 hMid0 hMid255
  have hok : ColorConverter.hexToHsl
      (ColorConverter.rgbToHex ((mn : ℚ)) ((Mx : ℚ)) ((Mid : ℚ))) =
      .ok (ColorConverter.rgbToHsl ((mn : ℚ)) ((Mx : ℚ)) ((Mid : ℚ))) := by
    unfold ColorConverter.hexToHsl
    rw [hokRgb]
    rfl
  have heval2 : ColorConverter.rgbToHsl ((mn : ℚ)) ((Mx : ℚ)) ((Mid : ℚ)) =
      ⟨(jsRound ((((Mid : ℚ) / 255 - (mn : ℚ) / 255) /
          ((Mx : ℚ) / 255 - (mn : ℚ) / 255) + 2) / 6 * 360) : ℚ),
       (jsRound ((if 1 / 2 < ((Mx : ℚ) / 255 + (mn : ℚ) / 255) / 2
          then ((Mx : ℚ) / 255 - (mn : ℚ) / 255) /
            (2 - (Mx : ℚ) / 255 - (mn : ℚ) / 255)
          else ((Mx : ℚ) / 255 - (mn : ℚ) / 255) /
            ((Mx : ℚ) / 255 + (mn : ℚ) / 255)) * 100) : ℚ),
       (jsRound (((Mx : ℚ) / 255 + (mn : ℚ) / 255) / 2 * 100) : ℚ)⟩ := by
    simp only [ColorConverter.rgbToHsl, hclmn, hclMx, hclMid, hmaxeq, hmineq, if_true]
    rw [if_neg hdne, if_neg hrneq]
  refine ⟨ColorConverter.rgbToHsl ((mn : ℚ)) ((Mx : ℚ)) ((Mid : ℚ)),
    by rw [heval]; exact hok, ?_, ?_, ?_⟩
  · rw [heval2]
    dsimp only
    rw [hargeq]
    exact_mod_cast hcore
  · rw [heval2]
    dsimp only
    exact sat_core s l cq mq Mx mn hs1 hs2 hl1 hl2 hcq hmq hMx' hmn'
  · rw [heval2]
    dsimp only
    exact light_core l cq mq Mx mn hsum hMx' hmn'

/-- Round-trip accuracy through HEX for hues in `[181, 239]` (blue-maximal
sector, green middle channel). -/
theorem zoneD_roundtrip (h s l : ℕ) (h181 : 181 ≤ h) (h239 : h ≤ 239)
    (hs1 : 60 ≤ s) (hs2 : s ≤ 100) (hl1 : 40 ≤ l) (hl2 : l ≤ 70) :
    ∃ out : Hsl,
      ColorConverter.hexToHsl (ColorConverter.rgbToHex
          (ColorConverter.hslToRgb (h : ℚ) (s : ℚ) (l : ℚ)).r
          (ColorConverter.hslToRgb (h : ℚ) (s : ℚ) (l : ℚ)).g
          (ColorConverter.hslToRgb (h : ℚ) (s : ℚ) (l : ℚ)).b) = .ok out ∧
      |out.h - (h : ℚ)| ≤ 1 ∧ |out.s - (s : ℚ)| ≤ 2 ∧ |out.l - (l : ℚ)| ≤ 2 := by
  obtain ⟨cq, hcq⟩ : ∃ q : ℚ, q = (1 - |2 * ((l : ℚ) / 100) - 1|) * ((s : ℚ) / 100) :=
    ⟨_, rfl⟩
  obtain ⟨mq, hmq⟩ : ∃ q : ℚ, q = (l : ℚ) / 100 - cq / 2 := ⟨_, rfl⟩
  obtain ⟨xq, hxq⟩ : ∃ q : ℚ, q = cq * (240 - (h : ℚ)) / 60 := ⟨_, rfl⟩
  obtain ⟨Mx, hMxd⟩ : ∃ z : ℤ, z = jsRound ((cq + mq) * 255) := ⟨_, rfl⟩
  obtain ⟨Mid, hMidd⟩ : ∃ z : ℤ, z = jsRound ((xq + mq) * 255) := ⟨_, rfl⟩
  obtain ⟨mn, hmnd⟩ : ∃ z : ℤ, z = jsRound ((0 + mq) * 255) := ⟨_, rfl⟩
  obtain ⟨hc1, hc2, hm0, hcm1, hsum⟩ := chroma_facts s l cq mq hs1 hs2 hl1 hl2 hcq hmq
  have hc0 : (0 : ℚ) < cq := by linarith
  have hh181 : (181 : ℚ) ≤ (h : ℚ) := by exact_mod_cast h181
  have hh239 : (h : ℚ) ≤ 239 := by exact_mod_cast h239
  have hx0 : 0 ≤ xq := by
    rw [hxq]
    exact div_nonneg (mul_nonneg hc0.le (by linarith)) (by norm_num)
  have hxc : xq ≤ cq := by
    rw [hxq, div_le_iff (by norm_num : (0 : ℚ) < 60)]
    nlinarith
  have hMx' : Mx = jsRound (255 * (cq + mq)) := by
    rw [hMxd]; exact congrArg jsRound (by ring)
  have hMid' : Mid = jsRound (255 * (xq + mq)) := by
    rw [hMidd]; exact congrArg jsRound (by ring)
  have hmn' : mn = jsRound (255 * mq) := by
    rw [hmnd]; exact congrArg jsRound (by ring)
  obtain ⟨hMx0, hMx255⟩ : (0 : ℤ) ≤ Mx ∧ Mx ≤ 255 := by
    rw [hMx']; exact jsRound_range (by push_cast; linarith) (by push_cast; linarith)
  obtain ⟨hMid0, hMid255⟩ : (0 : ℤ) ≤ Mid ∧ Mid ≤ 255 := by
    rw [hMid']; exact jsRound_range (by push_cast; linarith) (by push_cast; linarith)
  obtain ⟨hmn0, hmn255⟩ : (0 : ℤ) ≤ mn ∧ mn ≤ 255 := by
    rw [hmn']; exact jsRound_range (by push_cast; linarith) (by push_cast; linarith)
  have hmnMid : mn ≤ Mid := by
    rw [hmn', hMid']; exact jsRound_mono (by linarith)
  have hMidMx : Mid ≤ Mx := by
    rw [hMid', hMx']; exact jsRound_mono (by linarith)
  have hα : |((Mx : ℚ) - (mn : ℚ)) - 255 * cq| ≤ 1 := by
    have h0 := jsRound_diff_err (255 * (cq + mq)) (255 * mq)
    rw [← hMx', ← hmn'] at h0
    rwa [show 255 * (cq + mq) - 255 * mq = 255 * cq from by ring] at h0
  have hA0 : |((mn : ℚ) - (Mid : ℚ)) + 255 * xq| ≤ 1 := by
    have h0 := jsRound_diff_err (255 * mq) (255 * (xq + mq))
    rw [← hmn', ← hMid'] at h0
    rwa [show 255 * mq - 255 * (xq + mq) = -(255 * xq) from by ring,
      sub_neg_eq_add] at h0
  have hsep : (90 : ℚ) ≤ (Mx : ℚ) - (mn : ℚ) := by
    have h1 := (abs_le.mp hα).1
    linarith
  have hprod : (9 : ℚ) / 25 * 1 ≤ cq * ((h : ℚ) - 180) :=
    mul_le_mul hc1 (by linarith) (by norm_num) hc0.le
  have hsepB : (153 : ℚ) / 100 ≤ 255 * (cq - xq) := by
    rw [hxq]
    nlinarith [hprod]
  have hMidltMx : (Mid : ℚ) < (Mx : ℚ) := by
    have h0 := jsRound_diff_err (255 * (cq + mq)) (255 * (xq + mq))
    rw [← hMx', ← hMid'] at h0
    rw [show 255 * (cq + mq) - 255 * (xq + mq) = 255 * (cq - xq) from by ring] at h0
    have h1 := (abs_le.mp h0).1
    linarith
  have hclmn : clampQ 0 255 ((mn : ℚ)) = (mn : ℚ) :=
    clampQ_of_mem (by exact_mod_cast hmn0) (by exact_mod_cast hmn255)
  have hclMid : clampQ 0 255 ((Mid : ℚ)) = (Mid : ℚ) :=
    clampQ_of_mem (by exact_mod_cast hMid0) (by exact_mod_cast hMid255)
  have hclMx : clampQ 0 255 ((Mx : ℚ)) = (Mx : ℚ) :=
    clampQ_of_mem (by exact_mod_cast hMx0) (by exact_mod_cast hMx255)
  have hmidQ : (mn : ℚ) / 255 ≤ (Mid : ℚ) / 255 := by
    have h1 : (mn : ℚ) ≤ (Mid : ℚ) := by exact_mod_cast hmnMid
    linarith
  have hmxQ : (Mid : ℚ) / 255 ≤ (Mx : ℚ) / 255 := by
    have h1 : (Mid : ℚ) ≤ (Mx : ℚ) := by exact_mod_cast hMidMx
    linarith
  have hmaxeq : max ((mn : ℚ) / 255) (max ((Mid : ℚ) / 255) ((Mx : ℚ) / 255)) =
      (Mx : ℚ) / 255 := by
    rw [max_eq_right hmxQ, max_eq_right (le_trans hmidQ hmxQ)]
  have hmineq : min ((mn : ℚ) / 255) (min ((Mid : ℚ) / 255) ((Mx : ℚ) / 255)) =
      (mn : ℚ) / 255 := by
    rw [min_eq_left hmxQ, min_eq_left hmidQ]
  have hdne : ¬ ((Mx : ℚ) / 255 - (mn : ℚ) / 255 = 0) := by
    intro h0
    linarith
  have hrneq : ¬ ((Mx : ℚ) / 255 = (mn : ℚ) / 255) := by
    intro h0
    linarith
  have hgneq : ¬ ((Mx : ℚ) / 255 = (Mid : ℚ) / 255) := by
    intro h0
    linarith
  have hcls : clampQ 0 100 ((s : ℚ)) = (s : ℚ) :=
    clampQ_of_mem (Nat.cast_nonneg s) (by exact_mod_cast hs2)
  have hcll : clampQ 0 100 ((l : ℚ)) = (l : ℚ) :=
    clampQ_of_mem (Nat.cast_nonneg l) (by exact_mod_cast hl2.trans (by norm_num))
  have hnorm : jsMod (jsMod ((h : ℚ)) 360 + 360) 360 = (h : ℚ) :=
    hueNorm_eq h (by omega)
  have heval : ColorConverter.hslToRgb (h : ℚ) (s : ℚ) (l : ℚ) =
      ⟨(mn : ℚ), (Mid : ℚ), (Mx : ℚ)⟩ := by
    have hsec0 : ¬ ((0 : ℚ) ≤ (h : ℚ) ∧ (h : ℚ) < 60) := by
      rintro ⟨-, hlt⟩
      linarith
    have hsec1 : ¬ ((60 : ℚ) ≤ (h : ℚ) ∧ (h : ℚ) < 120) := by
      rintro ⟨-, hlt⟩
      linarith
    have hsec2 : ¬ ((120 : ℚ) ≤ (h : ℚ) ∧ (h : ℚ) < 180) := by
      rintro ⟨-, hlt⟩
      linarith
    have hsec3 : (180 : ℚ) ≤ (h : ℚ) ∧ (h : ℚ) < 240 := ⟨by linarith, by linarith⟩
    have hjm : jsMod ((h : ℚ) / 60) 2 = (h : ℚ) / 60 - 2 := by
      have h0 := jsMod_div60 h 1 (by norm_num) (by push_cast; linarith)
        (by push_cast; linarith)
      rwa [show (2 : ℚ) * ((1 : ℤ) : ℚ) = 2 from by norm_num] at h0
    have habs : |jsMod ((h : ℚ) / 60) 2 - 1| = (h : ℚ) / 60 - 3 := by
      rw [hjm, show (h : ℚ) / 60 - 2 - 1 = (h : ℚ) / 60 - 3 from by ring,
        abs_of_nonneg (by linarith : (0 : ℚ) ≤ (h : ℚ) / 60 - 3)]
    simp only [ColorConverter.hslToRgb, hcls, hcll, hnorm, habs]
    rw [if_neg hsec0, if_neg hsec1, if_neg hsec2, if_pos hsec3]
    simp only [Rgb.mk.injEq]
    rw [← hcq, ← hmq]
    refine ⟨?_, ?_, ?_⟩
    · rw [hmnd]
    · rw [hMidd, hxq]
      exact congrArg (fun z : ℤ => (z : ℚ)) (congrArg jsRound (by push_cast; ring))
    · rw [hMxd]
  have hne : ((Mx : ℚ) - (mn : ℚ)) ≠ 0 := by
    intro h0
    rw [h0] at hsep
    norm_num at hsep
  have hcore := hue_core (mn - Mid) (Mx - mn) ((h : ℤ)) 240 (255 * cq)
    (255 * cq * (((h : ℤ) : ℚ) - ((240 : ℤ) : ℚ)) / 60)
    (by linarith)
    rfl
    (by
      have heq : (((mn - Mid : ℤ)) : ℚ) -
          255 * cq * (((h : ℤ) : ℚ) - ((240 : ℤ) : ℚ)) / 60 =
          ((mn : ℚ) - (Mid : ℚ)) + 255 * xq := by
        rw [hxq]
        push_cast
        ring
      rw [heq]
      exact hA0)
    (by push_cast; exact hα)
    (by
      push_cast
      rw [abs_le]
      constructor <;> linarith)
  have hargeq : (((mn : ℚ) / 255 - (Mid : ℚ) / 255) /
      ((Mx : ℚ) / 255 - (mn : ℚ) / 255) + 4) / 6 * 360 =
      60 * (((mn - Mid : ℤ)) : ℚ) / (((Mx - mn : ℤ)) : ℚ) + (((240 : ℤ)) : ℚ) := by
    push_cast
    field_simp
    ring
  have hokRgb := hexToRgb_rgbToHex_int mn Mid Mx hmn0 hmn255 hMid0 hMid255 hMx0 hMx255
  have hok : ColorConverter.hexToHsl
      (ColorConverter.rgbToHex ((mn : ℚ)) ((Mid : ℚ)) ((Mx : ℚ))) =
      .ok (ColorConverter.rgbToHsl ((mn : ℚ)) ((Mid : ℚ)) ((Mx : ℚ))) := by
    unfold ColorConverter.hexToHsl
    rw [hokRgb]
    rfl
  have heval2 : ColorConverter.rgbToHsl ((mn : ℚ)) ((Mid : ℚ)) ((Mx : ℚ)) =
      ⟨(jsRound ((((mn : ℚ) / 255 - (Mid : ℚ) / 255) /
          ((Mx : ℚ) / 255 - (mn : ℚ) / 255) + 4) / 6 * 360) : ℚ),
       (jsRound ((if 1 / 2 < ((Mx : ℚ) / 255 + (mn : ℚ) / 255) / 2
          then ((Mx : ℚ) / 255 - (mn : ℚ) / 255) /
            (2 - (Mx : ℚ) / 255 - (mn : ℚ) / 255)
          else ((Mx : ℚ) / 255 - (mn : ℚ) / 255) /
            ((Mx : ℚ) / 255 + (mn : ℚ) / 255)) * 100) : ℚ),
       (jsRound (((Mx : ℚ) / 255 + (mn : ℚ) / 255) / 2 * 100) : ℚ)⟩ := by
    simp only [ColorConverter.rgbToHsl, hclmn, hclMid, hclMx, hmaxeq, hmineq, if_true]
    rw [if_neg hdne, if_neg hrneq, if_neg hgneq]
  refine ⟨ColorConverter.rgbToHsl ((mn : ℚ)) ((Mid : ℚ)) ((Mx : ℚ)),
    by rw [heval]; exact hok, ?_, ?_, ?_⟩
  · rw [heval2]
    dsimp only
    rw [hargeq]
    exact_mod_cast hcore
  · rw [heval2]
    dsimp only
    exact sat_core s l cq mq Mx mn hs1 hs2 hl1 hl2 hcq hmq hMx' hmn'
  · rw [heval2]
    dsimp only
    exact light_core l cq mq Mx mn hsum hMx' hmn'

/-- Round-trip accuracy through HEX for hues in `[240, 299]` (blue-maximal
sector, red middle channel). -/
theorem zoneE_roundtrip (h s l : ℕ) (h240 : 240 ≤ h) (h299 : h ≤ 299)
    (hs1 : 60 ≤ s) (hs2 : s ≤ 100) (hl1 : 40 ≤ l) (hl2 : l ≤ 70) :
    ∃ out : Hsl,
      ColorConverter.hexToHsl (ColorConverter.rgbToHex
          (ColorConverter.hslToRgb (h : ℚ) (s : ℚ) (l : ℚ)).r
          (ColorConverter.hslToRgb (h : ℚ) (s : ℚ) (l : ℚ)).g
          (ColorConverter.hslToRgb (h : ℚ) (s : ℚ) (l : ℚ)).b) = .ok out ∧
      |out.h - (h : ℚ)| ≤ 1 ∧ |out.s - (s : ℚ)| ≤ 2 ∧ |out.l - (l : ℚ)| ≤ 2 := by
  obtain ⟨cq, hcq⟩ : ∃ q : ℚ, q = (1 - |2 * ((l : ℚ) / 100) - 1|) * ((s : ℚ) / 100) :=
    ⟨_, rfl⟩
  obtain ⟨mq, hmq⟩ : ∃ q : ℚ, q = (l : ℚ) / 100 - cq / 2 := ⟨_, rfl⟩
  obtain ⟨xq, hxq⟩ : ∃ q : ℚ, q = cq * ((h : ℚ) - 240) / 60 := ⟨_, rfl⟩
  obtain ⟨Mx, hMxd⟩ : ∃ z : ℤ, z = jsRound ((cq + mq) * 255) := ⟨_, rfl⟩
  obtain ⟨Mid, hMidd⟩ : ∃ z : ℤ, z = jsRound ((xq + mq) * 255) := ⟨_, rfl⟩
  obtain ⟨mn, hmnd⟩ : ∃ z : ℤ, z = jsRound ((0 + mq) * 255) := ⟨_, rfl⟩
  obtain ⟨hc1, hc2, hm0, hcm1, hsum⟩ := chroma_facts s l cq mq hs1 hs2 hl1 hl2 hcq hmq
  have hc0 : (0 : ℚ) < cq := by linarith
  have hh240 : (240 : ℚ) ≤ (h : ℚ) := by exact_mod_cast h240
  have hh299 : (h : ℚ) ≤ 299 := by exact_mod_cast h299
  have hx0 : 0 ≤ xq := by
    rw [hxq]
    exact div_nonneg (mul_nonneg hc0.le (by linarith)) (by norm_num)
  have hxc : xq ≤ cq := by
    rw [hxq, div_le_iff (by norm_num : (0 : ℚ) < 60)]
    nlinarith
  have hMx' : Mx = jsRound (255 * (cq + mq)) := by
    rw [hMxd]; exact congrArg jsRound (by ring)
  have hMid' : Mid = jsRound (255 * (xq + mq)) := by
    rw [hMidd]; exact congrArg jsRound (by ring)
  have hmn' : mn = jsRound (255 * mq) := by
    rw [hmnd]; exact congrArg jsRound (by ring)
  obtain ⟨hMx0, hMx255⟩ : (0 : ℤ) ≤ Mx ∧ Mx ≤ 255 := by
    rw [hMx']; exact jsRound_range (by push_cast; linarith) (by push_cast; linarith)
  obtain ⟨hMid0, hMid255⟩ : (0 : ℤ) ≤ Mid ∧ Mid ≤ 255 := by
    rw [hMid']; exact jsRound_range (by push_cast; linarith) (by push_cast; linarith)
  obtain ⟨hmn0, hmn255⟩ : (0 : ℤ) ≤ mn ∧ mn ≤ 255 := by
    rw [hmn']; exact jsRound_range (by push_cast; linarith) (by push_cast; linarith)
  have hmnMid : mn ≤ Mid := by
    rw [hmn', hMid']; exact jsRound_mono (by linarith)
  have hMidMx : Mid ≤ Mx := by
    rw [hMid', hMx']; exact jsRound_mono (by linarith)
  have hα : |((Mx : ℚ) - (mn : ℚ)) - 255 * cq| ≤ 1 := by
    have h0 := jsRound_diff_err (255 * (cq + mq)) (255 * mq)
    rw [← hMx', ← hmn'] at h0
    rwa [show 255 * (cq + mq) - 255 * mq = 255 * cq from by ring] at h0
  have hA : |((Mid : ℚ) - (mn : ℚ)) - 255 * xq| ≤ 1 := by
    have h0 := jsRound_diff_err (255 * (xq + mq)) (255 * mq)
    rw [← hMid', ← hmn'] at h0
    rwa [show 255 * (xq + mq) - 255 * mq = 255 * xq from by ring] at h0
  have hsep : (90 : ℚ) ≤ (Mx : ℚ) - (mn : ℚ) := by
    have h1 := (abs_le.mp hα).1
    linarith
  have hprod : (9 : ℚ) / 25 * 1 ≤ cq * (300 - (h : ℚ)) :=
    mul_le_mul hc1 (by linarith) (by norm_num) hc0.le
  have hsepB : (153 : ℚ) / 100 ≤ 255 * (cq - xq) := by
    rw [hxq]
    nlinarith [hprod]
  have hMidltMx : (Mid : ℚ) < (Mx : ℚ) := by
    have h0 := jsRound_diff_err (255 * (cq + mq)) (255 * (xq + mq))
    rw [← hMx', ← hMid'] at h0
    rw [show 255 * (cq + mq) - 255 * (xq + mq) = 255 * (cq - xq) from by ring] at h0
    have h1 := (abs_le.mp h0).1
    linarith
  have hclMid : clampQ 0 255 ((Mid : ℚ)) = (Mid : ℚ) :=
    clampQ_of_mem (by exact_mod_cast hMid0) (by exact_mod_cast hMid255)
  have hclmn : clampQ 0 255 ((mn : ℚ)) = (mn : ℚ) :=
    clampQ_of_mem (by exact_mod_cast hmn0) (by exact_mod_cast hmn255)
  have hclMx : clampQ 0 255 ((Mx : ℚ)) = (Mx : ℚ) :=
    clampQ_of_mem (by exact_mod_cast hMx0) (by exact_mod_cast hMx255)
  have hmidQ : (mn : ℚ) / 255 ≤ (Mid : ℚ) / 255 := by
    have h1 : (mn : ℚ) ≤ (Mid : ℚ) := by exact_mod_cast hmnMid
    linarith
  have hmxQ : (Mid : ℚ) / 255 ≤ (Mx : ℚ) / 255 := by
    have h1 : (Mid : ℚ) ≤ (Mx : ℚ) := by exact_mod_cast hMidMx
    linarith
  have hmaxeq : max ((Mid : ℚ) / 255) (max ((mn : ℚ) / 255) ((Mx : ℚ) / 255)) =
      (Mx : ℚ) / 255 := by
    rw [max_eq_right (le_trans hmidQ hmxQ), max_eq_right hmxQ]
  have hmineq : min ((Mid : ℚ) / 255) (min ((mn : ℚ) / 255) ((Mx : ℚ) / 255)) =
      (mn : ℚ) / 255 := by
    rw [min_eq_left (le_trans hmidQ hmxQ), min_eq_right hmidQ]
  have hdne : ¬ ((Mx : ℚ) / 255 - (mn : ℚ) / 255 = 0) := by
    intro h0
    linarith
  have hrneq : ¬ ((Mx : ℚ) / 255 = (Mid : ℚ) / 255) := by
    intro h0
    linarith
  have hgneq : ¬ ((Mx : ℚ) / 255 = (mn : ℚ) / 255) := by
    intro h0
    linarith
  have hcls : clampQ 0 100 ((s : ℚ)) = (s : ℚ) :=
    clampQ_of_mem (Nat.cast_nonneg s) (by exact_mod_cast hs2)
  have hcll : clampQ 0 100 ((l : ℚ)) = (l : ℚ) :=
    clampQ_of_mem (Nat.cast_nonneg l) (by exact_mod_cast hl2.trans (by norm_num))
  have hnorm : jsMod (jsMod ((h : ℚ)) 360 + 360) 360 = (h : ℚ) :=
    hueNorm_eq h (by omega)
  have heval : ColorConverter.hslToRgb (h : ℚ) (s : ℚ) (l : ℚ) =
      ⟨(Mid : ℚ), (mn : ℚ), (Mx : ℚ)⟩ := by
    have hsec0 : ¬ ((0 : ℚ) ≤ (h : ℚ) ∧ (h : ℚ) < 60) := by
      rintro ⟨-, hlt⟩
      linarith
    have hsec1 : ¬ ((60 : ℚ) ≤ (h : ℚ) ∧ (h : ℚ) < 120) := by
      rintro ⟨-, hlt⟩
      linarith
    have hsec2 : ¬ ((120 : ℚ) ≤ (h : ℚ) ∧ (h : ℚ) < 180) := by
      rintro ⟨-, hlt⟩
      linarith
    have hsec3 : ¬ ((180 : ℚ) ≤ (h : ℚ) ∧ (h : ℚ) < 240) := by
      rintro ⟨-, hlt⟩
      linarith
    have hsec4 : (240 : ℚ) ≤ (h : ℚ) ∧ (h : ℚ) < 300 := ⟨by linarith, by linarith⟩
    have hjm : jsMod ((h : ℚ) / 60) 2 = (h : ℚ) / 60 - 4 := by
      have h0 := jsMod_div60 h 2 (by norm_num) (by push_cast; linarith)
        (by push_cast; linarith)
      rwa [show (2 : ℚ) * ((2 : ℤ) : ℚ) = 4 from by norm_num] at h0
    have habs : |jsMod ((h : ℚ) / 60) 2 - 1| = 5 - (h : ℚ) / 60 := by
      rw [hjm, show (h : ℚ) / 60 - 4 - 1 = (h : ℚ) / 60 - 5 from by ring,
        abs_of_nonpos (by linarith : (h : ℚ) / 60 - 5 ≤ 0)]
      ring
    simp only [ColorConverter.hslToRgb, hcls, hcll, hnorm, habs]
    rw [if_neg hsec0, if_neg hsec1, if_neg hsec2, if_neg hsec3, if_pos hsec4]
    simp only [Rgb.mk.injEq]
    rw [← hcq, ← hmq]
    refine ⟨?_, ?_, ?_⟩
    · rw [hMidd, hxq]
      exact congrArg (fun z : ℤ => (z : ℚ)) (congrArg jsRound (by push_cast; ring))
    · rw [hmnd]
    · rw [hMxd]
  have hne : ((Mx : ℚ) - (mn : ℚ)) ≠ 0 := by
    intro h0
    rw [h0] at hsep
    norm_num at hsep
  have hcore := hue_core (Mid - mn) (Mx - mn) ((h : ℤ)) 240 (255 * cq)
    (255 * cq * (((h : ℤ) : ℚ) - ((240 : ℤ) : ℚ)) / 60)
    (by linarith)
    rfl
    (by
      have heq : (((Mid - mn : ℤ)) : ℚ) -
          255 * cq * (((h : ℤ) : ℚ) - ((240 : ℤ) : ℚ)) / 60 =
          ((Mid : ℚ) - (mn : ℚ)) - 255 * xq := by
        rw [hxq]
        push_cast
        ring
      rw [heq]
      exact hA)
    (by push_cast; exact hα)
    (by
      push_cast
      rw [abs_le]
      constructor <;> linarith)
  have hargeq : (((Mid : ℚ) / 255 - (mn : ℚ) / 255) /
      ((Mx : ℚ) / 255 - (mn : ℚ) / 255) + 4) / 6 * 360 =
      60 * (((Mid - mn : ℤ)) : ℚ) / (((Mx - mn : ℤ)) : ℚ) + (((240 : ℤ)) : ℚ) := by
    push_cast
    field_simp
    ring
  have hokRgb := hexToRgb_rgbToHex_int Mid mn Mx hMid0 hMid255 hmn0 hmn255 hMx0 hMx255
  have hok : ColorConverter.hexToHsl
      (ColorConverter.rgbToHex ((Mid : ℚ)) ((mn : ℚ)) ((Mx : ℚ))) =
      .ok (ColorConverter.rgbToHsl ((Mid : ℚ)) ((mn : ℚ)) ((Mx : ℚ))) := by
    unfold ColorConverter.hexToHsl
    rw [hokRgb]
    rfl
  have heval2 : ColorConverter.rgbToHsl ((Mid : ℚ)) ((mn : ℚ)) ((Mx : ℚ)) =
      ⟨(jsRound ((((Mid : ℚ) / 255 - (mn : ℚ) / 255) /
          ((Mx : ℚ) / 255 - (mn : ℚ) / 255) + 4) / 6 * 360) : ℚ),
       (jsRound ((if 1 / 2 < ((Mx : ℚ) / 255 + (mn : ℚ) / 255) / 2
          then ((Mx : ℚ) / 255 - (mn : ℚ) / 255) /
            (2 - (Mx : ℚ) / 255 - (mn : ℚ) / 255)
          else ((Mx : ℚ) / 255 - (mn : ℚ) / 255) /
            ((Mx : ℚ) / 255 + (mn : ℚ) / 255)) * 100) : ℚ),
       (jsRound (((Mx : ℚ) / 255 + (mn : ℚ) / 255) / 2 * 100) : ℚ)⟩ := by
    simp only [ColorConverter.rgbToHsl, hclMid, hclmn, hclMx, hmaxeq, hmineq, if_true]
    rw [if_neg hdne, if_neg hrneq, if_neg hgneq]
  refine ⟨ColorConverter.rgbToHsl ((Mid : ℚ)) ((mn : ℚ)) ((Mx : ℚ)),
    by rw [heval]; exact hok, ?_, ?_, ?_⟩
  · rw [heval2]
    dsimp only
    rw [hargeq]
    exact_mod_cast hcore
  · rw [heval2]
    dsimp only
    exact sat_core s l cq mq Mx mn hs1 hs2 hl1 hl2 hcq hmq hMx' hmn'
  · rw [heval2]
    dsimp only
    exact light_core l cq mq Mx mn hsum hMx' hmn'

/-- Round-trip accuracy through HEX for hues in `[300, 359]` (red-maximal
sector with the `+6` wrap in the recovered hue). -/
theorem zoneF_roundtrip (h s l : ℕ) (h300 : 300 ≤ h) (h359 : h ≤ 359)
    (hs1 : 60 ≤ s) (hs2 : s ≤ 100) (hl1 : 40 ≤ l) (hl2 : l ≤ 70) :
    ∃ out : Hsl,
      ColorConverter.hexToHsl (ColorConverter.rgbToHex
          (ColorConverter.hslToRgb (h : ℚ) (s : ℚ) (l : ℚ)).r
          (ColorConverter.hslToRgb (h : ℚ) (s : ℚ) (l : ℚ)).g
          (ColorConverter.hslToRgb (h : ℚ) (s : ℚ) (l : ℚ)).b) = .ok out ∧
      |out.h - (h : ℚ)| ≤ 1 ∧ |out.s - (s : ℚ)| ≤ 2 ∧ |out.l - (l : ℚ)| ≤ 2 := by
  obtain ⟨cq, hcq⟩ : ∃ q : ℚ, q = (1 - |2 * ((l : ℚ) / 100) - 1|) * ((s : ℚ) / 100) :=
    ⟨_, rfl⟩
  obtain ⟨mq, hmq⟩ : ∃ q : ℚ, q = (l : ℚ) / 100 - cq / 2 := ⟨_, rfl⟩
  obtain ⟨xq, hxq⟩ : ∃ q : ℚ, q = cq * (360 - (h : ℚ)) / 60 := ⟨_, rfl⟩
  obtain ⟨Mx, hMxd⟩ : ∃ z : ℤ, z = jsRound ((cq + mq) * 255) := ⟨_, rfl⟩
  obtain ⟨Mid, hMidd⟩ : ∃ z : ℤ, z = jsRound ((xq + mq) * 255) := ⟨_, rfl⟩
  obtain ⟨mn, hmnd⟩ : ∃ z : ℤ, z = jsRound ((0 + mq) * 255) := ⟨_, rfl⟩
  obtain ⟨hc1, hc2, hm0, hcm1, hsum⟩ := chroma_facts s l cq mq hs1 hs2 hl1 hl2 hcq hmq
  have hc0 : (0 : ℚ) < cq := by linarith
  have hh300 : (300 : ℚ) ≤ (h : ℚ) := by exact_mod_cast h300
  have hh359 : (h : ℚ) ≤ 359 := by exact_mod_cast h359
  have hx0 : 0 ≤ xq := by
    rw [hxq]
    exact div_nonneg (mul_nonneg hc0.le (by linarith)) (by norm_num)
  have hxc : xq ≤ cq := by
    rw [hxq, div_le_iff (by norm_num : (0 : ℚ) < 60)]
    nlinarith
  have hMx' : Mx = jsRound (255 * (cq + mq)) := by
    rw [hMxd]; exact congrArg jsRound (by ring)
  have hMid' : Mid = jsRound (255 * (xq + mq)) := by
    rw [hMidd]; exact congrArg jsRound (by ring)
  have hmn' : mn = jsRound (255 * mq) := by
    rw [hmnd]; exact congrArg jsRound (by ring)
  obtain ⟨hMx0, hMx255⟩ : (0 : ℤ) ≤ Mx ∧ Mx ≤ 255 := by
    rw [hMx']; exact jsRound_range (by push_cast; linarith) (by push_cast; linarith)
  obtain ⟨hMid0, hMid255⟩ : (0 : ℤ) ≤ Mid ∧ Mid ≤ 255 := by
    rw [hMid']; exact jsRound_range (by push_cast; linarith) (by push_cast; linarith)
  obtain ⟨hmn0, hmn255⟩ : (0 : ℤ) ≤ mn ∧ mn ≤ 255 := by
    rw [hmn']; exact jsRound_range (by push_cast; linarith) (by push_cast; linarith)
  have hmnMid : mn ≤ Mid := by
    rw [hmn', hMid']; exact jsRound_mono (by linarith)
  have hMidMx : Mid ≤ Mx := by
    rw [hMid', hMx']; exact jsRound_mono (by linarith)
  have hα : |((Mx : ℚ) - (mn : ℚ)) - 255 * cq| ≤ 1 := by
    have h0 := jsRound_diff_err (255 * (cq + mq)) (255 * mq)
    rw [← hMx', ← hmn'] at h0
    rwa [show 255 * (cq + mq) - 255 * mq = 255 * cq from by ring] at h0
  have hA0 : |((mn : ℚ) - (Mid : ℚ)) + 255 * xq| ≤ 1 := by
    have h0 := jsRound_diff_err (255 * mq) (255 * (xq + mq))
    rw [← hmn', ← hMid'] at h0
    rwa [show 255 * mq - 255 * (xq + mq) = -(255 * xq) from by ring,
      sub_neg_eq_add] at h0
  have hsep : (90 : ℚ) ≤ (Mx : ℚ) - (mn : ℚ) := by
    have h1 := (abs_le.mp hα).1
    linarith
  have hprod : (9 : ℚ) / 25 * 1 ≤ cq * (360 - (h : ℚ)) :=
    mul_le_mul hc1 (by linarith) (by norm_num) hc0.le
  have hsepF : (153 : ℚ) / 100 ≤ 255 * xq := by
    rw [hxq]
    nlinarith [hprod]
  have hmnltMid : (mn : ℚ) < (Mid : ℚ) := by
    have h1 := (abs_le.mp hA0).2
    linarith
  have hclMx : clampQ 0 255 ((Mx : ℚ)) = (Mx : ℚ) :=
    clampQ_of_mem (by exact_mod_cast hMx0) (by exact_mod_cast hMx255)
  have hclmn : clampQ 0 255 ((mn : ℚ)) = (mn : ℚ) :=
    clampQ_of_mem (by exact_mod_cast hmn0) (by exact_mod_cast hmn255)
  have hclMid : clampQ 0 255 ((Mid : ℚ)) = (Mid : ℚ) :=
    clampQ_of_mem (by exact_mod_cast hMid0) (by exact_mod_cast hMid255)
  have hmidQ : (mn : ℚ) / 255 ≤ (Mid : ℚ) / 255 := by
    have h1 : (mn : ℚ) ≤ (Mid : ℚ) := by exact_mod_cast hmnMid
    linarith
  have hmxQ : (Mid : ℚ) / 255 ≤ (Mx : ℚ) / 255 := by
    have h1 : (Mid : ℚ) ≤ (Mx : ℚ) := by exact_mod_cast hMidMx
    linarith
  have hgb : (mn : ℚ) / 255 < (Mid : ℚ) / 255 := by linarith
  have hmaxeq : max ((Mx : ℚ) / 255) (max ((mn : ℚ) / 255) ((Mid : ℚ) / 255)) =
      (Mx : ℚ) / 255 := by
    rw [max_eq_right hmidQ, max_eq_left hmxQ]
  have hmineq : min ((Mx : ℚ) / 255) (min ((mn : ℚ) / 255) ((Mid : ℚ) / 255)) =
      (mn : ℚ) / 255 := by
    rw [min_eq_left hmidQ, min_eq_right (le_trans hmidQ hmxQ)]
  have hdne : ¬ ((Mx : ℚ) / 255 - (mn : ℚ) / 255 = 0) := by
    intro h0
    linarith
  have hcls : clampQ 0 100 ((s : ℚ)) = (s : ℚ) :=
    clampQ_of_mem (Nat.cast_nonneg s) (by exact_mod_cast hs2)
  have hcll : clampQ 0 100 ((l : ℚ)) = (l : ℚ) :=
    clampQ_of_mem (Nat.cast_nonneg l) (by exact_mod_cast hl2.trans (by norm_num))
  have hnorm : jsMod (jsMod ((h : ℚ)) 360 + 360) 360 = (h : ℚ) :=
    hueNorm_eq h (by omega)
  have heval : ColorConverter.hslToRgb (h : ℚ) (s : ℚ) (l : ℚ) =
      ⟨(Mx : ℚ), (mn : ℚ), (Mid : ℚ)⟩ := by
    have hsec0 : ¬ ((0 : ℚ) ≤ (h : ℚ) ∧ (h : ℚ) < 60) := by
      rintro ⟨-, hlt⟩
      linarith
    have hsec1 : ¬ ((60 : ℚ) ≤ (h : ℚ) ∧ (h : ℚ) < 120) := by
      rintro ⟨-, hlt⟩
      linarith
    have hsec2 : ¬ ((120 : ℚ) ≤ (h : ℚ) ∧ (h : ℚ) < 180) := by
      rintro ⟨-, hlt⟩
      linarith
    have hsec3 : ¬ ((180 : ℚ) ≤ (h : ℚ) ∧ (h : ℚ) < 240) := by
      rintro ⟨-, hlt⟩
      linarith
    have hsec4 : ¬ ((240 : ℚ) ≤ (h : ℚ) ∧ (h : ℚ) < 300) := by
      rintro ⟨-, hlt⟩
      linarith
    have hsec5 : (300 : ℚ) ≤ (h : ℚ) ∧ (h : ℚ) < 360 := ⟨by linarith, by linarith⟩
    have hjm : jsMod ((h : ℚ) / 60) 2 = (h : ℚ) / 60 - 4 := by
      have h0 := jsMod_div60 h 2 (by norm_num) (by push_cast; linarith)
        (by push_cast; linarith)
      rwa [show (2 : ℚ) * ((2 : ℤ) : ℚ) = 4 from by norm_num] at h0
    have habs : |jsMod ((h : ℚ) / 60) 2 - 1| = (h : ℚ) / 60 - 5 := by
      rw [hjm, show (h : ℚ) / 60 - 4 - 1 = (h : ℚ) / 60 - 5 from by ring,
        abs_of_nonneg (by linarith : (0 : ℚ) ≤ (h : ℚ) / 60 - 5)]
    simp only [ColorConverter.hslToRgb, hcls, hcll, hnorm, habs]
    rw [if_neg hsec0, if_neg hsec1, if_neg hsec2, if_neg hsec3, if_neg hsec4,
      if_pos hsec5]
    simp only [Rgb.mk.injEq]
    rw [← hcq, ← hmq]
    refine ⟨?_, ?_, ?_⟩
    · rw [hMxd]
    · rw [hmnd]
    · rw [hMidd, hxq]
      exact congrArg (fun z : ℤ => (z : ℚ)) (congrArg jsRound (by push_cast; ring))
  have hne : ((Mx : ℚ) - (mn : ℚ)) ≠ 0 := by
    intro h0
    rw [h0] at hsep
    norm_num at hsep
  have hcore := hue_core (mn - Mid) (Mx - mn) ((h : ℤ)) 360 (255 * cq)
    (255 * cq * (((h : ℤ) : ℚ) - ((360 : ℤ) : ℚ)) / 60)
    (by linarith)
    rfl
    (by
      have heq : (((mn - Mid : ℤ)) : ℚ) -
          255 * cq * (((h : ℤ) : ℚ) - ((360 : ℤ) : ℚ)) / 60 =
          ((mn : ℚ) - (Mid : ℚ)) + 255 * xq := by
        rw [hxq]
        push_cast
        ring
      rw [heq]
      exact hA0)
    (by push_cast; exact hα)
    (by
      push_cast
      rw [abs_le]
      constructor <;> linarith)
  have hargeq : (((mn : ℚ) / 255 - (Mid : ℚ) / 255) /
      ((Mx : ℚ) / 255 - (mn : ℚ) / 255) + 6) / 6 * 360 =
      60 * (((mn - Mid : ℤ)) : ℚ) / (((Mx - mn : ℤ)) : ℚ) + (((360 : ℤ)) : ℚ) := by
    push_cast
    field_simp
    ring
  have hokRgb := hexToRgb_rgbToHex_int Mx mn Mid hMx0 hMx255 hmn0 hmn255 hMid0 hMid255
  have hok : ColorConverter.hexToHsl
      (ColorConverter.rgbToHex ((Mx : ℚ)) ((mn : ℚ)) ((Mid : ℚ))) =
      .ok (ColorConverter.rgbToHsl ((Mx : ℚ)) ((mn : ℚ)) ((Mid : ℚ))) := by
    unfold ColorConverter.hexToHsl
    rw [hokRgb]
    rfl
  have heval2 : ColorConverter.rgbToHsl ((Mx : ℚ)) ((mn : ℚ)) ((Mid : ℚ)) =
      ⟨(jsRound ((((mn : ℚ) / 255 - (Mid : ℚ) / 255) /
          ((Mx : ℚ) / 255 - (mn : ℚ) / 255) + 6) / 6 * 360) : ℚ),
       (jsRound ((if 1 / 2 < ((Mx : ℚ) / 255 + (mn : ℚ) / 255) / 2
          then ((Mx : ℚ) / 255 - (mn : ℚ) / 255) /
            (2 - (Mx : ℚ) / 255 - (mn : ℚ) / 255)
          else ((Mx : ℚ) / 255 - (mn : ℚ) / 255) /
            ((Mx : ℚ) / 255 + (mn : ℚ) / 255)) * 100) : ℚ),
       (jsRound (((Mx : ℚ) / 255 + (mn : ℚ) / 255) / 2 * 100) : ℚ)⟩ := by
    simp only [ColorConverter.rgbToHsl, hclMx, hclmn, hclMid, hmaxeq, hmineq, if_true]
    rw [if_neg hdne, if_pos hgb]
  refine ⟨ColorConverter.rgbToHsl ((Mx : ℚ)) ((mn : ℚ)) ((Mid : ℚ)),
    by rw [heval]; exact hok, ?_, ?_, ?_⟩
  · rw [heval2]
    dsimp only
    rw [hargeq]
    exact_mod_cast hcore
  · rw [heval2]
    dsimp only
    exact sat_core s l cq mq Mx mn hs1 hs2 hl1 hl2 hcq hmq hMx' hmn'
  · rw [heval2]
    dsimp only
    exact light_core l cq mq Mx mn hsum hMx' hmn'

/-- C7: for every integer HSL triple with hue in `[0, 360]`, saturation in
`[60, 100]`, and lightness in `[40, 70]`, converting to RGB with
`hslToRgb`, rendering the HEX string with `rgbToHex`, and parsing it back
with `hexToHsl` succeeds and returns a triple that differs from the
original by at most 2 in each component, the hue compared circularly. -/
theorem c7_hsl_hex_roundtrip_within_two (h s l : ℕ) (hh : h ≤ 360)
    (hs1 : 60 ≤ s) (hs2 : s ≤ 100) (hl1 : 40 ≤ l) (hl2 : l ≤ 70) :
    ∃ out : Hsl,
      ColorConverter.hexToHsl (ColorConverter.rgbToHex
          (ColorConverter.hslToRgb (h : ℚ) (s : ℚ) (l : ℚ)).r
          (ColorConverter.hslToRgb (h : ℚ) (s : ℚ) (l : ℚ)).g
          (ColorConverter.hslToRgb (h : ℚ) (s : ℚ) (l : ℚ)).b) = .ok out ∧
      PaletteGenerator.hueDist out.h (h : ℚ) ≤ 2 ∧
      |out.s - (s : ℚ)| ≤ 2 ∧ |out.l - (l : ℚ)| ≤ 2 := by
  by_cases h360 : h = 360
  · subst h360
    have e1 : jsMod (jsMod (((360 : ℕ)) : ℚ) 360 + 360) 360 = 0 := by
      have h0 : (((360 : ℕ)) : ℚ) = (360 : ℚ) := by norm_num
      rw [h0]
      exact hueNorm_360
    have e2 : jsMod (jsMod (((0 : ℕ)) : ℚ) 360 + 360) 360 = 0 := by
      have h0 := hueNorm_eq 0 (by norm_num)
      simpa using h0
    have h36 : ColorConverter.hslToRgb (((360 : ℕ)) : ℚ) (s : ℚ) (l : ℚ) =
        ColorConverter.hslToRgb (((0 : ℕ)) : ℚ) (s : ℚ) (l : ℚ) := by
      simp only [ColorConverter.hslToRgb, e1, e2]
    obtain ⟨out, hok, hhue, hsat, hlight⟩ :=
      zoneA_roundtrip 0 s l (by norm_num) hs1 hs2 hl1 hl2
    refine ⟨out, ?_, ?_, hsat, hlight⟩
    · rw [h36]
      exact hok
    · have h1 : |out.h| ≤ 1 := by simpa using hhue
      have h2 := abs_le.mp h1
      unfold PaletteGenerator.hueDist
      have habs : |out.h - (((360 : ℕ)) : ℚ)| = (((360 : ℕ)) : ℚ) - out.h := by
        rw [abs_sub_comm, abs_of_nonneg (by push_cast; linarith)]
      rw [habs]
      have h3 : min ((((360 : ℕ)) : ℚ) - out.h)
          (360 - ((((360 : ℕ)) : ℚ) - out.h)) ≤
          360 - ((((360 : ℕ)) : ℚ) - out.h) := min_le_right _ _
      push_cast at h3 ⊢
      linarith
  · have h359 : h ≤ 359 := by omega
    rcases Nat.lt_or_ge h 61 with hz | hz1
    · obtain ⟨out, hok, hhue, hsat, hlight⟩ :=
        zoneA_roundtrip h s l (by omega) hs1 hs2 hl1 hl2
      exact ⟨out, hok, hueDist_le_of_abs_le (le_trans hhue (by norm_num)),
        hsat, hlight⟩
    · rcases Nat.lt_or_ge h 120 with hz2 | hz2
      · obtain ⟨out, hok, hhue, hsat, hlight⟩ :=
          zoneB_roundtrip h s l (by omega) (by omega) hs1 hs2 hl1 hl2
        exact ⟨out, hok, hueDist_le_of_abs_le (le_trans hhue (by norm_num)),
          hsat, hlight⟩
      · rcases Nat.lt_or_ge h 181 with hz3 | hz3
        · obtain ⟨out, hok, hhue, hsat, hlight⟩ :=
            zoneC_roundtrip h s l (by omega) (by omega) hs1 hs2 hl1 hl2
          exact ⟨out, hok, hueDist_le_of_abs_le (le_trans hhue (by norm_num)),
            hsat, hlight⟩
        · rcases Nat.lt_or_ge h 240 with hz4 | hz4
          · obtain ⟨out, hok, hhue, hsat, hlight⟩ :=
              zoneD_roundtrip h s l (by omega) (by omega) hs1 hs2 hl1 hl2
            exact ⟨out, hok, hueDist_le_of_abs_le (le_trans hhue (by norm_num)),
              hsat, hlight⟩
          · rcases Nat.lt_or_ge h 300 with hz5 | hz5
            · obtain ⟨out, hok, hhue, hsat, hlight⟩ :=
                zoneE_roundtrip h s l (by omega) (by omega) hs1 hs2 hl1 hl2
              exact ⟨out, hok, hueDist_le_of_abs_le (le_trans hhue (by norm_num)),
                hsat, hlight⟩
            · obtain ⟨out, hok, hhue, hsat, hlight⟩ :=
                zoneF_roundtrip h s l (by omega) (by omega) hs1 hs2 hl1 hl2
              exact ⟨out, hok, hueDist_le_of_abs_le (le_trans hhue (by norm_num)),
                hsat, hlight⟩

/-- Witness for C7 at the concrete triple `(90, 80, 50)`. -/
theorem c7_hsl_hex_roundtrip_within_two_witness :
    ((90 : ℕ) ≤ 360 ∧ (60 : ℕ) ≤ 80 ∧ (80 : ℕ) ≤ 100 ∧
      (40 : ℕ) ≤ 50 ∧ (50 : ℕ) ≤ 70) ∧
    (∃ out : Hsl,
      ColorConverter.hexToHsl (ColorConverter.rgbToHex
          (ColorConverter.hslToRgb (((90 : ℕ)) : ℚ) (((80 : ℕ)) : ℚ)
            (((50 : ℕ)) : ℚ)).r
          (ColorConverter.hslToRgb (((90 : ℕ)) : ℚ) (((80 : ℕ)) : ℚ)
            (((50 : ℕ)) : ℚ)).g
          (ColorConverter.hslToRgb (((90 : ℕ)) : ℚ) (((80 : ℕ)) : ℚ)
            (((50 : ℕ)) : ℚ)).b) = .ok out ∧
      PaletteGenerator.hueDist out.h (((90 : ℕ)) : ℚ) ≤ 2 ∧
      |out.s - (((80 : ℕ)) : ℚ)| ≤ 2 ∧ |out.l - (((50 : ℕ)) : ℚ)| ≤ 2) :=
  ⟨by decide, c7_hsl_hex_roundtrip_within_two 90 80 50 (by decide) (by decide)
    (by decide) (by decide) (by decide)⟩

/-- Counterexample to C3 as stated: with the all-zero draw stream every
search attempt repeats hue 0, so after the first color each
`generateDistinctColor` exhausts its 50 attempts and falls back to an
unconstrained draw — all five hues are 0 and the pairwise 30-degree
separation fails. -/
theorem c3_distinctness_counterexample :
    ¬ List.Pairwise (fun a b => 30 ≤ PaletteGenerator.hueDist a.hsl.h b.hsl.h)
      (PaletteGenerator.generateFreshPalette ⟨fun _ => 0, fun _ => "", 0, 0⟩).1.colors := by
  intro hpair
  have hcond : (((some (⟨some false⟩ : PaletteGenerator.GenOptions)).bind
      fun o => o.preserveLocked).getD true) = false := rfl
  have hlen : (PaletteGenerator.generateFreshPalette
      (⟨fun _ => 0, fun _ => "", 0, 0⟩ : Rnd)).1.colors.length = 5 :=
    PaletteGenerator.generateHarmoniousPalette_length _ _ _
  have hzero : ∀ c ∈ (PaletteGenerator.generateFreshPalette
      (⟨fun _ => 0, fun _ => "", 0, 0⟩ : Rnd)).1.colors, c.hsl.h = 0 := by
    intro c hc
    unfold PaletteGenerator.generateFreshPalette
      PaletteGenerator.generateHarmoniousPalette at hc
    rw [hcond] at hc
    simp only [Bool.false_eq_true, if_false] at hc
    rcases PaletteGenerator.allzero_genColors _ [] _ rfl c
        (List.take_subset _ _ hc) with habs | hgood
    · exact absurd habs (List.not_mem_nil c)
    · exact hgood
  rcases hcols : (PaletteGenerator.generateFreshPalette
      (⟨fun _ => 0, fun _ => "", 0, 0⟩ : Rnd)).1.colors with _ | ⟨c1, _ | ⟨c2, rest⟩⟩
  · rw [hcols] at hlen
    simp at hlen
  · rw [hcols] at hlen
    simp at hlen
  · rw [hcols] at hpair
    have hrel : 30 ≤ PaletteGenerator.hueDist c1.hsl.h c2.hsl.h :=
      (List.pairwise_cons.mp hpair).1 c2 (List.mem_cons_self c2 rest)
    have h1 : c1.hsl.h = 0 := hzero c1 (hcols ▸ List.mem_cons_self _ _)
    have h2 : c2.hsl.h = 0 := hzero c2
      (hcols ▸ List.mem_cons_of_mem _ (List.mem_cons_self _ _))
    rw [h1, h2] at hrel
    norm_num [PaletteGenerator.hueDist] at hrel

/-- C3 amended: pairwise 30-degree hue separation holds for every fresh
palette generated by a draw sequence under which each of the five bounded
searches accepts within its 50 attempts; draw sequences that force the
fallback (see `c3_distinctness_counterexample`) can violate it. -/
theorem c3_distinctness_no_fallback (g : Rnd)
    (hacc : fillLoopAccepts 5 [] g = true) :
    List.Pairwise (fun a b => 30 ≤ PaletteGenerator.hueDist a.hsl.h b.hsl.h)
      (PaletteGenerator.generateFreshPalette g).1.colors := by
  have hcond : (((some (⟨some false⟩ : PaletteGenerator.GenOptions)).bind
      fun o => o.preserveLocked).getD true) = false := rfl
  unfold PaletteGenerator.generateFreshPalette PaletteGenerator.generateHarmoniousPalette
  rw [hcond]
  simp only [Bool.false_eq_true, if_false]
  exact List.Pairwise.sublist (List.take_sublist _ _)
    (PaletteGenerator.genColors_pairwise _ [] g hacc List.Pairwise.nil)

/-- Witness for the amended C3: a stream whose hue draws are 0, 72, 144,
216, 288 accepts every first attempt. -/
theorem c3_distinctness_no_fallback_witness :
    List.Pairwise (fun a b => 30 ≤ PaletteGenerator.hueDist a.hsl.h b.hsl.h)
      (PaletteGenerator.generateFreshPalette
        ⟨fun i => if i % 4 == 0 then (i / 4) * 72 else 0, fun _ => "", 0, 0⟩).1.colors :=
  c3_distinctness_no_fallback
    ⟨fun i => if i % 4 == 0 then (i / 4) * 72 else 0, fun _ => "", 0, 0⟩ (by
      set d : ℕ → ℕ := (fun i => if i % 4 == 0 then (i / 4) * 72 else 0) with hd
      refine PaletteGenerator.fillLoopAccepts_step
        (PaletteGenerator.searchAccepts_accept ?_) ?_
      · norm_num [PaletteGenerator.getMinHueDifference,
          PaletteGenerator.MIN_HUE_DIFFERENCE]
      rw [PaletteGenerator.generateDistinctColor_accept_eq []
        ⟨d, fun _ => "", 0, 0⟩ (by
          norm_num [PaletteGenerator.getMinHueDifference,
            PaletteGenerator.MIN_HUE_DIFFERENCE])]
      norm_num [hd, mkColorHsl_hsl, PaletteGenerator.randomInRange]
      refine PaletteGenerator.fillLoopAccepts_step
        (PaletteGenerator.searchAccepts_accept ?_) ?_
      · norm_num [PaletteGenerator.randomInRange, PaletteGenerator.getMinHueDifference,
          PaletteGenerator.hueDist, PaletteGenerator.MIN_HUE_DIFFERENCE, mkColorHsl_hsl]
      rw [PaletteGenerator.generateDistinctColor_accept_eq
        [ColorConverter.mkColorHsl "" 0 60 40 false]
        ⟨fun i => if i % 4 = 0 then i / 4 * 72 else 0, fun x => "", 4, 0⟩ (by
          norm_num [PaletteGenerator.randomInRange, PaletteGenerator.getMinHueDifference,
            PaletteGenerator.hueDist, PaletteGenerator.MIN_HUE_DIFFERENCE, mkColorHsl_hsl])]
      norm_num [mkColorHsl_hsl, PaletteGenerator.randomInRange]
      refine PaletteGenerator.fillLoopAccepts_step
        (PaletteGenerator.searchAccepts_accept ?_) ?_
      · norm_num [PaletteGenerator.randomInRange, PaletteGenerator.getMinHueDifference,
          PaletteGenerator.hueDist, PaletteGenerator.MIN_HUE_DIFFERENCE, mkColorHsl_hsl]
      rw [PaletteGenerator.generateDistinctColor_accept_eq
        [ColorConverter.mkColorHsl "" 0 60 40 false,
         ColorConverter.mkColorHsl "" 72 60 40 false]
        ⟨fun i => if i % 4 = 0 then i / 4 * 72 else 0, fun x => "", 8, 0⟩ (by
          norm_num [PaletteGenerator.randomInRange, PaletteGenerator.getMinHueDifference,
            PaletteGenerator.hueDist, PaletteGenerator.MIN_HUE_DIFFERENCE, mkColorHsl_hsl])]
      norm_num [mkColorHsl_hsl, PaletteGenerator.randomInRange]
      refine PaletteGenerator.fillLoopAccepts_step
        (PaletteGenerator.searchAccepts_accept ?_) ?_
      · norm_num [PaletteGenerator.randomInRange, PaletteGenerator.getMinHueDifference,
          PaletteGenerator.hueDist, PaletteGenerator.MIN_HUE_DIFFERENCE, mkColorHsl_hsl]
      rw [PaletteGenerator.generateDistinctColor_accept_eq
        [ColorConverter.mkColorHsl "" 0 60 40 false,
         ColorConverter.mkColorHsl "" 72 60 40 false,
         ColorConverter.mkColorHsl "" 144 60 40 false]
        ⟨fun i => if i % 4 = 0 then i / 4 * 72 else 0, fun x => "", 12, 0⟩ (by
          norm_num [PaletteGenerator.randomInRange, PaletteGenerator.getMinHueDifference,
            PaletteGenerator.hueDist, PaletteGenerator.MIN_HUE_DIFFERENCE, mkColorHsl_hsl])]
      norm_num [mkColorHsl_hsl, PaletteGenerator.randomInRange]
      refine PaletteGenerator.fillLoopAccepts_step
        (PaletteGenerator.searchAccepts_accept ?_) ?_
      · norm_num [PaletteGenerator.randomInRange, PaletteGenerator.getMinHueDifference,
          PaletteGenerator.hueDist, PaletteGenerator.MIN_HUE_DIFFERENCE, mkColorHsl_hsl]
      rw [PaletteGenerator.generateDistinctColor_accept_eq
        [ColorConverter.mkColorHsl "" 0 60 40 false,
         ColorConverter.mkColorHsl "" 72 60 40 false,
         ColorConverter.mkColorHsl "" 144 60 40 false,
         ColorConverter.mkColorHsl "" 216 60 40 false]
        ⟨fun i => if i % 4 = 0 then i / 4 * 72 else 0, fun x => "", 16, 0⟩ (by
          norm_num [PaletteGenerator.randomInRange, PaletteGenerator.getMinHueDifference,
            PaletteGenerator.hueDist, PaletteGenerator.MIN_HUE_DIFFERENCE, mkColorHsl_hsl])]
      rfl)

/-- Counterexample to C5: `isValidHsl` admits hue 360, so
`createColorFromHsl(360, 50, 50)` succeeds and stores `hsl.h = 360`,
refuting the claimed strict invariant `0 ≤ h < 360`. -/
theorem c5_hue_360_counterexample :
    (ColorConverter.createColorFromHsl 360 50 50 false
        ⟨fun _ => 0, fun _ => "id", 0, 0⟩).1 =
      .ok (ColorConverter.mkColorHsl "id" 360 50 50 false) ∧
    (ColorConverter.mkColorHsl "id" 360 50 50 false).hsl.h = 360 ∧
    ¬ (ColorConverter.mkColorHsl "id" 360 50 50 false).hsl.h < 360 := by
  refine ⟨?_, rfl, ?_⟩
  · unfold ColorConverter.createColorFromHsl freshId
    rw [if_pos (by decide)]
  · rw [show (ColorConverter.mkColorHsl "id" 360 50 50 false).hsl.h = (360 : ℚ)
      from rfl]
    norm_num

/-- C5 amended: every constructor-produced color has hue in `[0, 360]` —
with 360 attainable, as `c5_hue_360_counterexample` shows — and every
color of a freshly generated palette has an integer hue in `[0, 359]`. -/
theorem c5_hue_range_amended :
    (∀ (h s l : ℚ) (lock : Bool) (g : Rnd) (c : Color) (g' : Rnd),
      ColorConverter.createColorFromHsl h s l lock g = (.ok c, g') →
        c.hsl.h = h ∧ 0 ≤ c.hsl.h ∧ c.hsl.h ≤ 360) ∧
    (∀ (r gc b : ℚ) (lock : Bool) (g : Rnd) (c : Color) (g' : Rnd),
      ColorConverter.createColorFromRgb r gc b lock g = (.ok c, g') →
        ∃ k : ℤ, c.hsl.h = (k : ℚ) ∧ 0 ≤ k ∧ k ≤ 360) ∧
    (∀ (hex : String) (lock : Bool) (g : Rnd) (c : Color) (g' : Rnd),
      ColorConverter.createColorFromHex hex lock g = (.ok c, g') →
        ∃ k : ℤ, c.hsl.h = (k : ℚ) ∧ 0 ≤ k ∧ k ≤ 360) ∧
    (∀ (g : Rnd), ∀ c ∈ (PaletteGenerator.generateFreshPalette g).1.colors,
      ∃ k : ℕ, c.hsl.h = (k : ℚ) ∧ k ≤ 359) := by
  refine ⟨?_, ?_, ?_, ?_⟩
  · intro h s l lock g c g' hc
    simp only [ColorConverter.createColorFromHsl, freshId] at hc
    by_cases hv : ColorConverter.isValidHsl h s l = true
    · rw [if_pos hv] at hc
      have hcc : ColorConverter.mkColorHsl (g.ids g.idx) h s l lock = c := by
        have := congrArg Prod.fst hc
        simpa using this
      unfold ColorConverter.isValidHsl at hv
      rw [decide_eq_true_eq] at hv
      rw [← hcc]
      exact ⟨rfl, hv.1, hv.2.1⟩
    · rw [if_neg hv] at hc
      exact absurd (congrArg Prod.fst hc) (by simp)
  · intro r gc b lock g c g' hc
    simp only [ColorConverter.createColorFromRgb, freshId] at hc
    by_cases hv : ColorConverter.isValidRgb r gc b = true
    · rw [if_pos hv] at hc
      have hcc : ColorConverter.mkColorRgb (g.ids g.idx) r gc b lock = c := by
        have := congrArg Prod.fst hc
        simpa using this
      rw [← hcc]
      exact rgbToHsl_h_range r gc b
    · rw [if_neg hv] at hc
      exact absurd (congrArg Prod.fst hc) (by simp)
  · intro hex lock g c g' hc
    simp only [ColorConverter.createColorFromHex, freshId] at hc
    by_cases hv : ColorConverter.isValidHex hex = true
    · rw [if_pos hv] at hc
      rcases hx : ColorConverter.hexToRgb hex with e | rgb
      · rw [hx] at hc
        have hcc : badColor = c := by
          have := congrArg Prod.fst hc
          simpa using this
        exact ⟨0, by rw [← hcc]; exact ⟨rfl, le_refl 0, by norm_num⟩⟩
      · rw [hx] at hc
        have hcc : (⟨g.ids g.idx, String.mk (hex.data.map asciiUpper), rgb,
            ColorConverter.rgbToHsl rgb.r rgb.g rgb.b, lock⟩ : Color) = c := by
          have := congrArg Prod.fst hc
          simpa using this
        rw [← hcc]
        exact rgbToHsl_h_range rgb.r rgb.g rgb.b
    · rw [if_neg hv] at hc
      exact absurd (congrArg Prod.fst hc) (by simp)
  · intro g c hc
    have hcond : (((some (⟨some false⟩ : PaletteGenerator.GenOptions)).bind
        fun o => o.preserveLocked).getD true) = false := rfl
    unfold PaletteGenerator.generateFreshPalette
      PaletteGenerator.generateHarmoniousPalette at hc
    rw [hcond] at hc
    simp only [Bool.false_eq_true, if_false] at hc
    rcases PaletteGenerator.genColors_mem_h _ [] g c
        (List.take_subset _ _ hc) with habs | hgood
    · exact absurd habs (List.not_mem_nil c)
    · exact hgood

/-- Witness for the amended C5: `createColorFromHsl(10, 50, 50)` stores
hue 10, inside `[0, 360]`. -/
theorem c5_hue_range_amended_witness :
    (ColorConverter.mkColorHsl "u" 10 50 50 false).hsl.h = 10 ∧
    0 ≤ (ColorConverter.mkColorHsl "u" 10 50 50 false).hsl.h ∧
    (ColorConverter.mkColorHsl "u" 10 50 50 false).hsl.h ≤ 360 :=
  c5_hue_range_amended.1 10 50 50 false ⟨fun _ => 0, fun _ => "u", 0, 0⟩
    (ColorConverter.mkColorHsl "u" 10 50 50 false)
    (Rnd.next ⟨fun _ => 0, fun _ => "u", 0, 0⟩) rfl

/-- C9: `toggleColorLock` keeps the number and the positions of colors; at
each position, a color whose `id` matches has exactly its `isLocked` flag
inverted and every other field unchanged, and a non-matching color is
entirely unchanged; when no color matches, the color list is returned
unchanged (a silent no-op). -/
theorem c9_toggle_lock_isolation (p : Palette) (colorId : String) :
    (PaletteGenerator.toggleColorLock p colorId).colors.length = p.colors.length ∧
    (∀ i : ℕ, (PaletteGenerator.toggleColorLock p colorId).colors.get? i =
      (p.colors.get? i).map fun c =>
        if c.id = colorId then ⟨c.id, c.hex, c.rgb, c.hsl, !c.isLocked⟩ else c) ∧
    ((∀ c ∈ p.colors, c.id ≠ colorId) →
      (PaletteGenerator.toggleColorLock p colorId).colors = p.colors) := by
  refine ⟨by simp [PaletteGenerator.toggleColorLock], fun i => ?_, fun hnone => ?_⟩
  · simp [PaletteGenerator.toggleColorLock, List.get?_map]
  · show p.colors.map _ = p.colors
    conv_rhs => rw [← List.map_id p.colors]
    exact List.map_congr_left fun c hc => by simp [hnone c hc]

/-- Witness for C9 at a concrete two-color palette and an absent id. -/
theorem c9_toggle_lock_isolation_witness :
    (PaletteGenerator.toggleColorLock
        ⟨[⟨"a", "#000000", ⟨0, 0, 0⟩, ⟨0, 0, 0⟩, false⟩,
          ⟨"b", "#FFFFFF", ⟨255, 255, 255⟩, ⟨0, 0, 100⟩, true⟩], none, 0⟩
        "zzz").colors =
      [⟨"a", "#000000", ⟨0, 0, 0⟩, ⟨0, 0, 0⟩, false⟩,
       ⟨"b", "#FFFFFF", ⟨255, 255, 255⟩, ⟨0, 0, 100⟩, true⟩] :=
  (c9_toggle_lock_isolation
      ⟨[⟨"a", "#000000", ⟨0, 0, 0⟩, ⟨0, 0, 0⟩, false⟩,
        ⟨"b", "#FFFFFF", ⟨255, 255, 255⟩, ⟨0, 0, 100⟩, true⟩], none, 0⟩
      "zzz").2.2 (by decide)

namespace ToneGenerator

/-- The scan loop returns its seed or a strictly better list element, and
its result is at least as close as every list element. -/
theorem closestScan_min (l : ℚ) (ts : List ColorTone) :
    ∀ best : ColorTone,
      (closestScan l ts best |l - best.lightness| = best ∨
        (closestScan l ts best |l - best.lightness| ∈ ts ∧
          |l - (closestScan l ts best |l - best.lightness|).lightness| <
            |l - best.lightness|)) ∧
      (∀ t ∈ ts,
        |l - (closestScan l ts best |l - best.lightness|).lightness| ≤
          |l - t.lightness|) := by
  induction ts with
  | nil => intro best; exact ⟨Or.inl rfl, by simp⟩
  | cons t ts ih =>
    intro best
    simp only [closestScan]
    by_cases hlt : |l - t.lightness| < |l - best.lightness|
    · rw [if_pos hlt]
      obtain ⟨hmem, hmin⟩ := ih t
      have hle : |l - (closestScan l ts t |l - t.lightness|).lightness| ≤
          |l - t.lightness| := by
        rcases hmem with heq | ⟨_, hk⟩
        · rw [heq]
        · exact le_of_lt hk
      refine ⟨Or.inr ?_, fun u hu => ?_⟩
      · rcases hmem with heq | ⟨hin, hk⟩
        · exact ⟨by rw [heq]; exact List.mem_cons_self t ts, by rw [heq]; exact hlt⟩
        · exact ⟨List.mem_cons_of_mem t hin, lt_trans hk hlt⟩
      · rcases List.mem_cons.mp hu with rfl | hu'
        · exact hle
        · exact hmin u hu'
    · rw [if_neg hlt]
      push_neg at hlt
      obtain ⟨hmem, hmin⟩ := ih best
      have hle : |l - (closestScan l ts best |l - best.lightness|).lightness| ≤
          |l - best.lightness| := by
        rcases hmem with heq | ⟨_, hk⟩
        · rw [heq]
        · exact le_of_lt hk
      refine ⟨hmem.imp_right fun hx => ⟨List.mem_cons_of_mem t hx.1, hx.2⟩,
        fun u hu => ?_⟩
      rcases List.mem_cons.mp hu with rfl | hu'
      · exact le_trans hle hlt
      · exact hmin u hu'

/-- Over a table strictly descending in lightness, any element tied with
the scan result is at most as light: ties go to the earlier (lighter)
step. -/
theorem closestScan_tie (l : ℚ) (ts : List ColorTone) :
    ∀ best : ColorTone,
      (best :: ts).Pairwise (fun a b => b.lightness < a.lightness) →
      ∀ u ∈ best :: ts,
        |l - u.lightness| = |l - (closestScan l ts best |l - best.lightness|).lightness| →
        u.lightness ≤ (closestScan l ts best |l - best.lightness|).lightness := by
  induction ts with
  | nil =>
    intro best _ u hu _
    rcases List.mem_singleton.mp hu with rfl
    simp [closestScan]
  | cons t ts ih =>
    intro best hsort u hu htie
    rw [List.pairwise_cons] at hsort
    obtain ⟨hbestlt, htailsort⟩ := hsort
    simp only [closestScan] at htie ⊢
    by_cases hlt : |l - t.lightness| < |l - best.lightness|
    · rw [if_pos hlt] at htie ⊢
      obtain ⟨hmem, _⟩ := closestScan_min l ts t
      have hres : |l - (closestScan l ts t |l - t.lightness|).lightness| ≤
          |l - t.lightness| := by
        rcases hmem with heq | ⟨_, hk⟩
        · rw [heq]
        · exact le_of_lt hk
      rcases List.mem_cons.mp hu with rfl | hu'
      · exact absurd htie (by
          have : |l - (closestScan l ts t |l - t.lightness|).lightness| <
              |l - u.lightness| := lt_of_le_of_lt hres hlt
          exact ne_of_gt this)
      · exact ih t htailsort u hu' htie
    · rw [if_neg hlt] at htie ⊢
      push_neg at hlt
      have hsort' : (best :: ts).Pairwise (fun a b => b.lightness < a.lightness) := by
        rw [List.pairwise_cons]
        exact ⟨fun x hx => hbestlt x (List.mem_cons_of_mem t hx),
          (List.pairwise_cons.mp htailsort).2⟩
      obtain ⟨hmem, _⟩ := closestScan_min l ts best
      rcases List.mem_cons.mp hu with rfl | hu'
      · exact ih u hsort' u (List.mem_cons_self u ts) htie
      rcases List.mem_cons.mp hu' with rfl | hu''
      · rcases hmem with heq | ⟨_, hk⟩
        · rw [heq]
          exact le_of_lt (hbestlt u (List.mem_cons_self u ts))
        · exact absurd htie (by
            have : |l - (closestScan l ts best |l - best.lightness|).lightness| <
                |l - u.lightness| := lt_of_lt_of_le hk hlt
            exact ne_of_gt this)
      · exact ih best hsort' u (List.mem_cons_of_mem best hu'') htie

/-- The first scan iteration revisits the seed and never replaces it. -/
theorem closestScan_self (l : ℚ) (t : ColorTone) (ts : List ColorTone) :
    closestScan l (t :: ts) t |l - t.lightness| = closestScan l ts t |l - t.lightness| := by
  simp [closestScan]

/-- The standard tone table is strictly descending in lightness. -/
theorem tone_steps_sorted :
    TONE_STEPS.Pairwise (fun a b => b.lightness < a.lightness) := by
  decide

/-- In range, `findClosestTone` is the scan over the tail seeded with the
first step. -/
theorem findClosestTone_eq_scan (lq : ℚ) (h0 : 0 ≤ lq) (h100 : lq ≤ 100) :
    findClosestTone lq =
      .ok (closestScan lq (TONE_STEPS.drop 1) TONE_STEPS.headI
        |lq - TONE_STEPS.headI.lightness|) := by
  unfold findClosestTone
  rw [if_neg (show ¬(lq < 0 ∨ 100 < lq) by push_neg; exact ⟨h0, h100⟩)]
  exact congrArg Except.ok (closestScan_self lq TONE_STEPS.headI (TONE_STEPS.drop 1))

end ToneGenerator

/-- C8: `findClosestTone` errors exactly outside [0,100]; inside, it
returns a standard step minimizing the absolute lightness difference, with
ties resolved to the lighter (earlier-in-table) step; and
`findClosestTone 52` is the step "500" of lightness 50. -/
theorem c8_findClosestTone_minimizer (lq : ℚ) :
    (lq < 0 ∨ 100 < lq → ToneGenerator.findClosestTone lq =
      .error "Invalid lightness value") ∧
    (0 ≤ lq → lq ≤ 100 →
      ∃ r, ToneGenerator.findClosestTone lq = .ok r ∧
        r ∈ ToneGenerator.TONE_STEPS ∧
        (∀ t ∈ ToneGenerator.TONE_STEPS, |lq - r.lightness| ≤ |lq - t.lightness|) ∧
        (∀ t ∈ ToneGenerator.TONE_STEPS,
          |lq - t.lightness| = |lq - r.lightness| → t.lightness ≤ r.lightness)) ∧
    ToneGenerator.findClosestTone 52 = .ok ⟨"500", 50, ""⟩ := by
  refine ⟨fun hout => ?_, fun h0 h100 => ?_, ?_⟩
  case refine_3 =>
    rw [ToneGenerator.findClosestTone_eq_scan 52 (by norm_num) (by norm_num),
      show ToneGenerator.TONE_STEPS.headI = (⟨"50", 95, ""⟩ : ColorTone) from rfl,
      show ToneGenerator.TONE_STEPS.drop 1 =
        [⟨"100", 90, ""⟩, ⟨"200", 80, ""⟩, ⟨"300", 70, ""⟩, ⟨"400", 60, ""⟩,
         ⟨"500", 50, ""⟩, ⟨"600", 40, ""⟩, ⟨"700", 30, ""⟩, ⟨"800", 20, ""⟩,
         ⟨"900", 10, ""⟩] from rfl]
    exact congrArg Except.ok (by norm_num [ToneGenerator.closestScan])
  · unfold ToneGenerator.findClosestTone
    rw [if_pos hout]
  · obtain ⟨hmem, hmin⟩ := ToneGenerator.closestScan_min lq
      (ToneGenerator.TONE_STEPS.drop 1) ToneGenerator.TONE_STEPS.headI
    have htie := ToneGenerator.closestScan_tie lq
      (ToneGenerator.TONE_STEPS.drop 1) ToneGenerator.TONE_STEPS.headI
      ToneGenerator.tone_steps_sorted
    have hres : |lq - (ToneGenerator.closestScan lq (ToneGenerator.TONE_STEPS.drop 1)
        ToneGenerator.TONE_STEPS.headI |lq - ToneGenerator.TONE_STEPS.headI.lightness|).lightness| ≤
        |lq - ToneGenerator.TONE_STEPS.headI.lightness| := by
      rcases hmem with heq | ⟨_, hk⟩
      · rw [heq]
      · exact le_of_lt hk
    refine ⟨_, ToneGenerator.findClosestTone_eq_scan lq h0 h100, ?_, fun t ht => ?_, htie⟩
    · rcases hmem with heq | ⟨hin, _⟩
      · rw [heq]; exact List.mem_cons_self _ _
      · exact List.mem_cons_of_mem _ hin
    · rcases List.mem_cons.mp ht with rfl | ht'
      · exact hres
      · exact hmin t ht'

/-- Witness for C8 at lightness 37: the in-range branch produces a step,
and 37 is closest to the step of lightness 40. -/
theorem c8_findClosestTone_minimizer_witness :
    ∃ r, ToneGenerator.findClosestTone 37 = .ok r ∧
      r ∈ ToneGenerator.TONE_STEPS ∧
      (∀ t ∈ ToneGenerator.TONE_STEPS, |(37 : ℚ) - r.lightness| ≤ |(37 : ℚ) - t.lightness|) ∧
      (∀ t ∈ ToneGenerator.TONE_STEPS,
        |(37 : ℚ) - t.lightness| = |(37 : ℚ) - r.lightness| → t.lightness ≤ r.lightness) :=
  (c8_findClosestTone_minimizer 37).2.1 (by decide) (by decide)

/-- C10: the tone functions read only `hsl.h` and `hsl.s` of the base
color: two base colors agreeing on those two fields produce identical
results for `generateTones`, `generateAllTones` and (for equal remaining
arguments) `generateSpecificTone`. -/
theorem c10_tones_depend_only_on_hue_saturation (b1 b2 : Color)
    (hh : b1.hsl.h = b2.hsl.h) (hs : b1.hsl.s = b2.hsl.s) :
    ToneGenerator.generateTones b1 = ToneGenerator.generateTones b2 ∧
    ToneGenerator.generateAllTones b1 = ToneGenerator.generateAllTones b2 ∧
    ∀ (lightness : ℚ) (label : Option String),
      ToneGenerator.generateSpecificTone b1 lightness label =
      ToneGenerator.generateSpecificTone b2 lightness label := by
  refine ⟨?_, ?_, fun lightness label => ?_⟩
  · simp [ToneGenerator.generateTones, hh, hs]
  · simp [ToneGenerator.generateAllTones, hh, hs]
  · simp [ToneGenerator.generateSpecificTone, hh, hs]

/-- Witness for C10: two colors sharing hue 200 and saturation 80 but
differing in lightness, id, hex, rgb and lock flag. -/
theorem c10_tones_depend_only_on_hue_saturation_witness :
    ToneGenerator.generateTones ⟨"a", "#111111", ⟨1, 1, 1⟩, ⟨200, 80, 40⟩, false⟩ =
      ToneGenerator.generateTones ⟨"b", "#222222", ⟨2, 2, 2⟩, ⟨200, 80, 70⟩, true⟩ :=
  (c10_tones_depend_only_on_hue_saturation
    ⟨"a", "#111111", ⟨1, 1, 1⟩, ⟨200, 80, 40⟩, false⟩
    ⟨"b", "#222222", ⟨2, 2, 2⟩, ⟨200, 80, 70⟩, true⟩ rfl rfl).1

end ColourPalette
